import Mathlib

/-!
# Verification of the `carefree-pyo3` temporal-memory fetch engine and frame codec

This file gives a shallow embedding, in Lean 4, of the core of the
`cfpyo3_rs_core` Rust crate:

* the query planners `row_contiguous`, `column_contiguous` and
  `async_column_contiguous` of `src/io/temporal/mem.rs`, together with their
  public `shm_*` wrappers;
* the `searchsorted` / `batch_searchsorted` helpers of `src/toolkit/array.rs`
  (Rust `slice::binary_search`);
* the byte codec of the `DataFrame` container
  (`src/df/frame/io/bytes.rs`, `src/df/io/fs.rs`, `src/df/io/buffer.rs`);
* the redis cluster client of `src/io/temporal/mem/redis.rs`
  (`init_client`, `RedisClient::fetch`) and the column chunking of
  `redis_grouped_column_contiguous`.

Machine integers (`i64`, `usize`) are embedded as `Int` / `Nat`; the values in
all relevant code paths are small enough that no wrap-around occurs in the
source, so no explicit modular reduction is modelled.  The element type `T`
(`f32`/`f64`) is embedded as an abstract type `V` together with a `FloatLike`
structure providing `zero`, `nan` and `isNan` — the planners never perform
arithmetic on `T`, they only move values and write `T::nan()`.

Rust panics (out-of-range indexing) are modelled by `List.getD` with a
default; every theorem below only quantifies over inputs for which the source
stays in bounds, so the defaults are never observed.
-/

namespace CFP

/-- Abstraction of the `AFloat` element type (`f32` / `f64`): the planners only
use `T::zero()` (buffer initialisation), `T::nan()` (missing fill) and NaN
detection (for stating the specification). -/
structure FloatLike (V : Type) where
  zero : V
  nan : V
  isNan : V → Bool

/-- The concrete instance used by witnesses: `none` plays the role of NaN,
`some q` the role of an ordinary float value. -/
def optIntFL : FloatLike (Option Int) where
  zero := some 0
  nan := none
  isNan := Option.isNone

/-! ## `searchsorted` (`src/toolkit/array.rs` lines 542-554)

`searchsorted(arr, value) = arr.binary_search(value).unwrap_or_else(|x| x)`.
`bsGo` is the loop of Rust `slice::binary_search_by` (the branchless version
of current `std`); the `fuel` argument is an upper bound on the number of
iterations (the window size shrinks strictly), so with `fuel = size` the
function computes the loop's exit state by structural recursion. -/

def bsGo {α : Type} [LinearOrder α] (l : List α) (v : α) :
    Nat → Nat → Nat → Nat
  | 0, base, _ => base
  | fuel + 1, base, size =>
    if size ≤ 1 then base
    else
      let half := size / 2
      let mid := base + half
      -- Rust: `base = if cmp == Greater { base } else { mid }` with `cmp = l[mid].cmp(v)`
      bsGo l v fuel (if v < l.getD mid v then base else mid) (size - half)

/-- Rust `slice::binary_search`: `(true, i)` models `Ok(i)` (match found at
`i`), `(false, i)` models `Err(i)` (insertion position `i`). -/
def binarySearch {α : Type} [LinearOrder α] (l : List α) (v : α) : Bool × Nat :=
  if l.length = 0 then (false, 0)
  else
    let base := bsGo l v l.length 0 l.length
    let x := l.getD base v
    if x = v then (true, base)
    else (false, base + (if x < v then 1 else 0))

/-- `searchsorted` of `src/toolkit/array.rs`: the matching index if found,
otherwise the insertion position. -/
def searchsorted {α : Type} [LinearOrder α] (l : List α) (v : α) : Nat :=
  (binarySearch l v).2

/-- `batch_searchsorted` of `src/toolkit/array.rs`. -/
def batch_searchsorted {α : Type} [LinearOrder α] (l : List α) (values : List α) :
    List Nat :=
  values.map (searchsorted l)

/-! ## Data model of the planner (`src/io/temporal/mem.rs`) -/

/-- Error kinds of the `mem` module (`MemError` in the source, plus the
`ShapeError` that `into_shape` can produce in `row_contiguous`, and the
errors propagated from a `Fetcher`). -/
inductive MemError where
  /-- "`datetime_index` is not continuous" -/
  | indexDiscontinuous
  /-- "`data_getter` is not returning contiguous data" -/
  | dataNotContiguous
  /-- `ndarray` `into_shape` failure in `row_contiguous` -/
  | shapeError
  /-- an error returned by a `Fetcher` -/
  | fetchFailed (msg : String)
  deriving DecidableEq, Repr

/-- `FetcherArgs` (`src/io/temporal/mem.rs` lines 100-111).  All integer
fields are `i64` in the source. -/
structure FetcherArgs where
  c : Option Nat
  start_idx : Int
  end_idx : Int
  date_idx : Int
  date_col_idx : Int
  date_start_idx : Int
  time_start_idx : Int
  time_end_idx : Int
  num_ticks_per_day : Int
  data_len : Int
  deriving DecidableEq, Repr

/-- `Offsets` (`src/io/temporal/mem.rs` lines 351-356). -/
structure Offsets where
  column_offset : Int
  channel_pad_start : Int
  channel_pad_end : Int
  deriving DecidableEq, Repr

/-- One output action of `column_contiguous` for a `(day, requested column)`
pair: either a fetch task together with the output position its data goes to,
or a NaN fill (`nan_len` already includes the `multiplier` factor, as in the
source). -/
inductive PlanItem where
  | task (args : FetcherArgs) (fStart : Nat)
  | nanFill (fStart : Nat) (nanLen : Nat)
  deriving DecidableEq, Repr

/-- `UnsafeSlice::copy_from_slice(i, src)`
(`src/toolkit/array.rs` lines 73-81): overwrite `buf[i .. i+|src|]` with
`src`.  In-bounds use (`i + |src| ≤ |buf|`) preserves the length. -/
def copyFrom {V : Type} (buf : List V) (i : Nat) (src : List V) : List V :=
  buf.take i ++ src ++ buf.drop (i + src.length)

/-- `fill_data` of `column_contiguous` (`src/io/temporal/mem.rs` lines
456-476): a plain contiguous copy when `offsets` is absent, a strided copy of
`multiplier`-sized chunks when `offsets` is present.  The source panics when
`offsets` is provided without `multiplier`; no claim exercises that path and
the embedding leaves the buffer unchanged there. -/
def fillData {V : Type} (FL : FloatLike V) (offsets : Option Offsets)
    (multiplier : Option Int) (buf : List V) (fStart : Nat) (dataSlice : List V) :
    List V :=
  match offsets with
  | none => copyFrom buf fStart dataSlice
  | some o =>
    match multiplier with
    | none => buf
    | some m =>
      let timeLen := dataSlice.length / m.toNat
      let totalMultiplier := (m + o.channel_pad_start + o.channel_pad_end).toNat
      (List.range timeLen).foldl (fun b t =>
        copyFrom b (fStart + t * totalMultiplier + o.channel_pad_start.toNat)
          ((dataSlice.drop (t * m.toNat)).take m.toNat)) buf

/-- The set of output positions a `fill_data` call with data of length `len`
writes, as a list (without duplicates, see `writeFootprint_nodup`). -/
def writeFootprint (offsets : Option Offsets) (multiplier : Option Int)
    (fStart : Nat) (len : Nat) : List Nat :=
  match offsets with
  | none => List.range' fStart len
  | some o =>
    match multiplier with
    | none => []
    | some m =>
      let totalMultiplier := (m + o.channel_pad_start + o.channel_pad_end).toNat
      (List.range (len / m.toNat)).flatMap (fun t =>
        List.range' (fStart + t * totalMultiplier + o.channel_pad_start.toNat) m.toNat)

/-- First-day time window start (`i_time_start_idx`,
`src/io/temporal/mem.rs` lines 501-505). -/
def iTimeStartOf (numTicksPerDay : Int) (tsi : Nat) (i : Nat) : Int :=
  if i = 0 then (tsi : Int) % numTicksPerDay else 0

/-- Last-day time window end with the zero-promotion
(`i_time_end_idx`, `src/io/temporal/mem.rs` lines 506-513). -/
def iTimeEndOf (numTicksPerDay : Int) (tei : Nat) (numDays i : Nat) : Int :=
  let e0 : Int := if i = numDays - 1 then ((tei : Int) + 1) % numTicksPerDay
    else numTicksPerDay
  if e0 = 0 then numTicksPerDay else e0

/-- The items emitted for one day of `column_contiguous`
(`src/io/temporal/mem.rs` lines 498-564); `batch_searchsorted` /
`CachedGetter::get` is inlined per requested column (the cache only memoises
this very computation).  `columnsOffset` and `iTimeOffset` are the running
state of the day loop. -/
def columnDayItems {α : Type} [LinearOrder α] [Inhabited α]
    (c : Option Nat) (datetimeLen : Int) (columns : List α)
    (numTicksPerDay : Int) (multiplier : Option Int) (columnOffset : Int)
    (totalMultiplier : Option Int) (startIdx : Int) (tsi tei : Nat)
    (numDays : Nat) (dateIdx : Int) (i : Nat) (dateColumns : List α)
    (columnsOffset iTimeOffset : Int) : List PlanItem :=
  let iOffset := numTicksPerDay * columnsOffset
  let iStartIdx := startIdx + iOffset
  let iTimeStartIdx := iTimeStartOf numTicksPerDay tsi i
  let iTimeEndIdx := iTimeEndOf numTicksPerDay tei numDays i
  columns.enum.map (fun js =>
    let j := js.1
    let s := js.2
    let idx := searchsorted dateColumns s
    let correctedIdx := if dateColumns.length ≤ idx then 0 else idx
    let dateStartIdx := iStartIdx + (idx : Int) * numTicksPerDay
    let fStart0 := ((j : Int) + columnOffset) * datetimeLen + iTimeOffset
    let fStart := (match totalMultiplier with
      | none => fStart0
      | some tm => fStart0 * tm).toNat
    if dateColumns.getD correctedIdx default = s then
      let colOffset := (correctedIdx : Int) * numTicksPerDay
      .task
        { c := c
          start_idx := dateStartIdx + iTimeStartIdx
          end_idx := dateStartIdx + iTimeEndIdx
          date_idx := dateIdx
          date_col_idx := (correctedIdx : Int)
          date_start_idx := dateStartIdx
          time_start_idx := colOffset + iTimeStartIdx
          time_end_idx := colOffset + iTimeEndIdx
          num_ticks_per_day := numTicksPerDay
          data_len := iTimeEndIdx - iTimeStartIdx } fStart
    else
      let nanLen := (iTimeEndIdx - iTimeStartIdx) *
        (match multiplier with | none => 1 | some m => m)
      .nanFill fStart nanLen.toNat)

/-- The day loop of `column_contiguous`: `columnsOffset` accumulates
`num_columns_per_day[i]`, `iTimeOffset` accumulates the day window lengths. -/
def columnItemsGo {α : Type} [LinearOrder α] [Inhabited α]
    (c : Option Nat) (datetimeLen : Int) (columns : List α)
    (numTicksPerDay : Int) (multiplier : Option Int) (columnOffset : Int)
    (totalMultiplier : Option Int) (startIdx : Int) (tsi tei : Nat)
    (numDays : Nat) :
    Nat → List (Int × List α) → Int → Int → List PlanItem
  | _, [], _, _ => []
  | i, (dateIdx, dateColumns) :: rest, columnsOffset, iTimeOffset =>
    columnDayItems c datetimeLen columns numTicksPerDay multiplier columnOffset
        totalMultiplier startIdx tsi tei numDays dateIdx i dateColumns
        columnsOffset iTimeOffset
      ++ columnItemsGo c datetimeLen columns numTicksPerDay multiplier
          columnOffset totalMultiplier startIdx tsi tei numDays (i + 1) rest
          (columnsOffset + (dateColumns.length : Int))
          (iTimeOffset +
            (iTimeEndOf numTicksPerDay tei numDays i -
              iTimeStartOf numTicksPerDay tsi i))

/-- Rust `start..=end` over `i64`. -/
def intRangeIncl (lo hi : Int) : List Int :=
  (List.range (hi + 1 - lo).toNat).map (fun (k : Nat) => lo + (k : Int))

/-- The full plan of `column_contiguous` (post `datetime_index` check):
one `PlanItem` per `(day, requested column)` pair, in loop order. -/
def columnItems {α : Type} [LinearOrder α] [Inhabited α]
    (c : Option Nat) (datetimeLen : Int) (columns : List α)
    (numTicksPerDay : Int) (timeIdxToDateIdx dateColumnsOffset : List Int)
    (columnsGetter : Int → Int → List α) (multiplier : Option Int)
    (offsets : Option Offsets) (tsi tei : Nat) : List PlanItem :=
  let startDateIdx := timeIdxToDateIdx.getD tsi 0
  let endDateIdx := timeIdxToDateIdx.getD tei 0
  let startIdx := dateColumnsOffset.getD startDateIdx.toNat 0 * numTicksPerDay
  let uniqueDateIdxs := intRangeIncl startDateIdx endDateIdx
  let columnsPerDay := uniqueDateIdxs.map (fun d =>
    columnsGetter (dateColumnsOffset.getD d.toNat 0)
      (dateColumnsOffset.getD (d + 1).toNat 0))
  let columnOffset := match offsets with
    | none => 0
    | some o => o.column_offset
  let totalMultiplier := multiplier.map (fun m => m +
    match offsets with
    | none => 0
    | some o => o.channel_pad_start + o.channel_pad_end)
  columnItemsGo c datetimeLen columns numTicksPerDay multiplier columnOffset
    totalMultiplier startIdx tsi tei uniqueDateIdxs.length 0
    (uniqueDateIdxs.zip columnsPerDay) 0 0

/-- Execute one plan item on the output buffer (the non-batching path of the
source: `fetch` is called inline; a batching fetcher receives the same
arguments and its writes land at the same `f_start_idx`, merely after the
day's NaN fills). -/
def applyItem {V : Type} (FL : FloatLike V) (offsets : Option Offsets)
    (multiplier : Option Int) (fetch : FetcherArgs → Except MemError (List V))
    (buf : List V) : PlanItem → Except MemError (List V)
  | .task args fStart =>
    (fetch args).map (fun data => fillData FL offsets multiplier buf fStart data)
  | .nanFill fStart nanLen =>
    .ok (fillData FL offsets multiplier buf fStart (List.replicate nanLen FL.nan))

def runItems {V : Type} (FL : FloatLike V) (offsets : Option Offsets)
    (multiplier : Option Int) (fetch : FetcherArgs → Except MemError (List V))
    (items : List PlanItem) (buf : List V) : Except MemError (List V) :=
  items.foldlM (applyItem FL offsets multiplier fetch) buf

/-- `column_contiguous` (`src/io/temporal/mem.rs` lines 421-579).  The
`columns_getter`, `columns_indices_getter` and `data_getter` parameters of the
source become the functions `columnsGetter` and `fetch` (the cached indices
getter computes exactly `batch_searchsorted(date_columns, columns)`, which is
inlined in `columnDayItems`).  The mutable output array becomes the `flattened`
argument; on error the source has written nothing to it when the datetime
check fails, which the embedding reflects by performing that check before any
plan item is built. -/
def column_contiguous {α V : Type} [LinearOrder α] [Inhabited α]
    (FL : FloatLike V) (c : Option Nat)
    (datetimeStart datetimeEnd datetimeLen : Int) (columns : List α)
    (numTicksPerDay : Int) (fullIndex timeIdxToDateIdx dateColumnsOffset : List Int)
    (columnsGetter : Int → Int → List α)
    (fetch : FetcherArgs → Except MemError (List V)) (flattened : List V)
    (multiplier : Option Int) (offsets : Option Offsets) :
    Except MemError (List V) :=
  let time_start_idx := searchsorted fullIndex datetimeStart
  let time_end_idx := time_start_idx + datetimeLen.toNat - 1
  if fullIndex.getD time_end_idx 0 ≠ datetimeEnd then .error .indexDiscontinuous
  else
    runItems FL offsets multiplier fetch
      (columnItems c datetimeLen columns numTicksPerDay timeIdxToDateIdx
        dateColumnsOffset columnsGetter multiplier offsets time_start_idx
        time_end_idx) flattened

/-- `async_column_contiguous` (`src/io/temporal/mem.rs` lines 582-731):
identical planning; NaN fills happen inline while every real slice is pushed
into `tasks`; all futures are then awaited together (`try_join_all`) and the
results filled in order. -/
def asyncRunItems {V : Type} (FL : FloatLike V) (offsets : Option Offsets)
    (multiplier : Option Int) (fetch : FetcherArgs → Except MemError (List V))
    (items : List PlanItem) (flattened : List V) : Except MemError (List V) :=
  let afterNan := items.foldl (fun buf item =>
    match item with
    | .nanFill fStart nanLen =>
      fillData FL offsets multiplier buf fStart (List.replicate nanLen FL.nan)
    | .task _ _ => buf) flattened
  let taskList := items.filterMap (fun item =>
    match item with
    | .task args fStart => some (args, fStart)
    | .nanFill _ _ => none)
  (taskList.mapM (fun p => fetch p.1)).map (fun datas =>
    (datas.zip (taskList.map (·.2))).foldl (fun buf dfs =>
      fillData FL offsets multiplier buf dfs.2 dfs.1) afterNan)

def async_column_contiguous {α V : Type} [LinearOrder α] [Inhabited α]
    (FL : FloatLike V) (c : Option Nat)
    (datetimeStart datetimeEnd datetimeLen : Int) (columns : List α)
    (numTicksPerDay : Int) (fullIndex timeIdxToDateIdx dateColumnsOffset : List Int)
    (columnsGetter : Int → Int → List α)
    (fetch : FetcherArgs → Except MemError (List V)) (flattened : List V)
    (multiplier : Option Int) (offsets : Option Offsets) :
    Except MemError (List V) :=
  let time_start_idx := searchsorted fullIndex datetimeStart
  let time_end_idx := time_start_idx + datetimeLen.toNat - 1
  if fullIndex.getD time_end_idx 0 ≠ datetimeEnd then .error .indexDiscontinuous
  else
    asyncRunItems FL offsets multiplier fetch
      (columnItems c datetimeLen columns numTicksPerDay timeIdxToDateIdx
        dateColumnsOffset columnsGetter multiplier offsets time_start_idx
        time_end_idx) flattened

/-- The half-open interval of output positions one plan item actually writes
under the fetcher `fetch` (a failed fetch aborts before writing). -/
def itemSpan {V : Type} (fetch : FetcherArgs → Except MemError (List V)) :
    PlanItem → Nat × Nat
  | .task args fS =>
    (fS, match fetch args with | .ok d => d.length | .error _ => 0)
  | .nanFill fS n => (fS, n)

/-- The fetcher contract the planner relies on: a successful fetch returns
exactly `data_len` values (`data_len · multiplier` values when a multiplier
is in play; this plain version is the `multiplier = None` case). -/
def taskLenOk {V : Type} (fetch : FetcherArgs → Except MemError (List V)) :
    PlanItem → Bool
  | .task args _ =>
    match fetch args with
    | .ok d => d.length == args.data_len.toNat
    | .error _ => true
  | .nanFill _ _ => true

/-- The fetcher contract with a multiplier in play (the sliced fetchers,
`src/io/temporal/mem.rs` lines 530-543 / 937-971): a successful fetch
returns exactly `data_len · multiplier` values. -/
def taskLenOkM {V : Type} (mu : Int)
    (fetch : FetcherArgs → Except MemError (List V)) : PlanItem → Bool
  | .task args _ =>
    match fetch args with
    | .ok d => d.length == (args.data_len * mu).toNat
    | .error _ => true
  | .nanFill _ _ => true

/-- "The backing store holds no NaN at the places this item reads": every
value a successful fetch for this item returns is non-NaN. -/
def fetchNoNan {V : Type} (FL : FloatLike V)
    (fetch : FetcherArgs → Except MemError (List V)) : PlanItem → Bool
  | .task args _ =>
    match fetch args with
    | .ok d => d.all (fun v => ! FL.isNan v)
    | .error _ => true
  | .nanFill _ _ => true

/-! ## `row_contiguous` (`src/io/temporal/mem.rs` lines 176-269) -/

/-- `unique` (`src/io/temporal/mem.rs` lines 134-147): the distinct values of
`arr` in ascending order, with their multiplicities (the source collects a
`HashMap` of counts and sorts its keys). -/
def unique (arr : List Int) : List Int × List Int :=
  let uniqueValues := List.insertionSort (· ≤ ·) arr.dedup
  (uniqueValues, uniqueValues.map (fun v => (arr.count v : Int)))

/-- One `fill_data` call of `row_contiguous` (lines 217-227): `data[i]` is
written to `flattened[(timeIdx + i) * num_columns + j]`. -/
structure RowFill (V : Type) where
  timeIdx : Int
  j : Nat
  data : List V
  deriving Repr

/-- Execute a `row_contiguous` fill (the source writes the cells one by one). -/
def rowFillApply {V : Type} (numColumns : Nat) (buf : List V) (rf : RowFill V) :
    List V :=
  rf.data.enum.foldl (fun b rx =>
    b.set ((rf.timeIdx.toNat + rx.1) * numColumns + rf.j) rx.2) buf

/-- The per-day loop of `row_contiguous` (lines 231-266).  Each processed day
block contributes one `RowFill` per requested column: the transposed row of the
fetched `(date_count, columns_len)` block when the symbol is present, a NaN
vector of length `date_count` otherwise.  `into_shape` fails — and the source
aborts — when the fetched block does not have `date_count * columns_len`
elements. -/
def rowItemsGo {α V : Type} [LinearOrder α] [Inhabited α] (FL : FloatLike V)
    (columns : List α) (dataGetter : Int → Int → List V) (startIdx : Int) :
    List (Int × List α) → Int → Int → Except MemError (List (RowFill V))
  | [], _, _ => .ok []
  | (dateCount, dateColumns) :: rest, cursor, timeIdx =>
    let columnsLen := dateColumns.length
    let cursorEnd := cursor + dateCount * (columnsLen : Int)
    let selectedData := dataGetter (startIdx + cursor) (startIdx + cursorEnd)
    if selectedData.length ≠ (dateCount * (columnsLen : Int)).toNat then
      .error .shapeError
    else
      (rowItemsGo FL columns dataGetter startIdx rest cursorEnd
          (timeIdx + dateCount)).map (fun restItems =>
        (columns.enum.map (fun js =>
          let j := js.1
          let s := js.2
          let idx := searchsorted dateColumns s
          let correctedIdx := if columnsLen ≤ idx then 0 else idx
          if dateColumns.getD correctedIdx default = s then
            -- `selected_data.t().row(idx)`: column `idx` of the block
            { timeIdx := timeIdx, j := j
              data := (List.range dateCount.toNat).map (fun r =>
                selectedData.getD (r * columnsLen + idx) FL.nan) }
          else
            { timeIdx := timeIdx, j := j
              data := List.replicate dateCount.toNat FL.nan }) : List (RowFill V))
          ++ restItems)

/-- `row_contiguous` (`src/io/temporal/mem.rs` lines 176-269). -/
def row_contiguous {α V : Type} [LinearOrder α] [Inhabited α]
    (FL : FloatLike V) (datetimeStart datetimeEnd datetimeLen : Int)
    (columns : List α) (numTicksPerDay : Int)
    (fullIndex timeIdxToDateIdx dateColumnsOffset : List Int)
    (columnsGetter : Int → Int → List α) (dataGetter : Int → Int → List V)
    (flattened : List V) : Except MemError (List V) :=
  let time_start_idx := searchsorted fullIndex datetimeStart
  let time_end_idx := time_start_idx + datetimeLen.toNat - 1
  if fullIndex.getD time_end_idx 0 ≠ datetimeEnd then .error .indexDiscontinuous
  else
    let dateIdxs := (timeIdxToDateIdx.drop time_start_idx).take
      (time_end_idx + 1 - time_start_idx)
    let ud := unique dateIdxs
    let uniqueDateIdxs := ud.1
    let dateCounts := ud.2
    let columnsPerDay := uniqueDateIdxs.map (fun d =>
      columnsGetter (dateColumnsOffset.getD d.toNat 0)
        (dateColumnsOffset.getD (d + 1).toNat 0))
    let numColumns := columns.length
    let startIdx := dateColumnsOffset.getD (uniqueDateIdxs.getD 0 0).toNat 0 *
        numTicksPerDay +
      ((time_start_idx : Int) % numTicksPerDay) *
        (((columnsPerDay.getD 0 []).length : Int))
    (rowItemsGo FL columns dataGetter startIdx
        (dateCounts.zip columnsPerDay) 0 0).map (fun items =>
      items.foldl (rowFillApply numColumns) flattened)

/-! ## SHM fetchers and public wrappers
(`src/io/temporal/mem.rs` lines 756-1110) -/

/-- The `time_idx` state of `row_contiguous`'s day loop before block `b` of
its `(date_count, date_columns)` block list: the sum of the `date_count`s of
the earlier blocks. -/
def prefixDC {α : Type} : List (Int × List α) → Nat → Int
  | _, 0 => 0
  | [], _ + 1 => 0
  | bl :: rest, b + 1 => bl.1 + prefixDC rest b

/-- Modelled from the spec: the module `src/io/temporal/mem/shm.rs`
(`SHMFetcher`) is not present under `src/`; §4.E of the spec says
"Compact SHM: backed by a single contiguous `T[]`. `fetch(args)` returns
`values[args.start_idx .. args.end_idx]` as a borrow." -/
def shmFetch {V : Type} (compactData : List V) (args : FetcherArgs) :
    Except MemError (List V) :=
  .ok ((compactData.drop args.start_idx.toNat).take
    (args.end_idx - args.start_idx).toNat)

/-- Modelled from the spec: the module `src/io/temporal/mem/shm.rs`
(`SlicedSHMFetcher`) is not present under `src/`; §4.E of the spec says
"Sliced SHM: backed by an ordered list of per-day `T[]` buffers. `fetch(args)`
uses `args.date_idx` to pick the buffer, `args.time_start_idx ..
args.time_end_idx` to slice; an optional `multiplier` widens the slice
`× multiplier` (feature-contiguous layout within a day)." -/
def slicedShmFetch {V : Type} (slicedData : List (List V))
    (multiplier : Option Int) (args : FetcherArgs) : Except MemError (List V) :=
  let m := multiplier.getD 1
  let dayData := slicedData.getD args.date_idx.toNat []
  .ok ((dayData.drop (args.time_start_idx * m).toNat).take
    ((args.time_end_idx - args.time_start_idx) * m).toNat)

/-- `columns_getter` closure of the `shm_*` wrappers:
`compact_columns.slice(s![start_idx..end_idx])`. -/
def sliceGetter {γ : Type} (xs : List γ) (startIdx endIdx : Int) : List γ :=
  (xs.drop startIdx.toNat).take (endIdx - startIdx).toNat

/-- `shm_row_contiguous` (`src/io/temporal/mem.rs` lines 756-784). -/
def shm_row_contiguous {α V : Type} [LinearOrder α] [Inhabited α]
    (FL : FloatLike V) (datetimeStart datetimeEnd datetimeLen : Int)
    (columns : List α) (numTicksPerDay : Int)
    (fullIndex timeIdxToDateIdx dateColumnsOffset : List Int)
    (compactColumns : List α) (compactData : List V) :
    Except MemError (List V) :=
  row_contiguous FL datetimeStart datetimeEnd datetimeLen columns
    numTicksPerDay fullIndex timeIdxToDateIdx dateColumnsOffset
    (sliceGetter compactColumns) (sliceGetter compactData)
    (List.replicate (datetimeLen.toNat * columns.length) FL.zero)

/-- `shm_column_contiguous` (`src/io/temporal/mem.rs` lines 807-839). -/
def shm_column_contiguous {α V : Type} [LinearOrder α] [Inhabited α]
    (FL : FloatLike V) (datetimeStart datetimeEnd datetimeLen : Int)
    (columns : List α) (numTicksPerDay : Int)
    (fullIndex timeIdxToDateIdx dateColumnsOffset : List Int)
    (compactColumns : List α) (compactData : List V) :
    Except MemError (List V) :=
  column_contiguous FL none datetimeStart datetimeEnd datetimeLen columns
    numTicksPerDay fullIndex timeIdxToDateIdx dateColumnsOffset
    (sliceGetter compactColumns) (shmFetch compactData)
    (List.replicate (datetimeLen.toNat * columns.length) FL.zero) none none

/-- `shm_sliced_column_contiguous` (`src/io/temporal/mem.rs` lines 937-971). -/
def shm_sliced_column_contiguous {α V : Type} [LinearOrder α] [Inhabited α]
    (FL : FloatLike V) (datetimeStart datetimeEnd datetimeLen : Int)
    (columns : List α) (numTicksPerDay : Int)
    (fullIndex timeIdxToDateIdx dateColumnsOffset : List Int)
    (compactColumns : List α) (slicedData : List (List V))
    (multiplier : Option Int) : Except MemError (List V) :=
  column_contiguous FL none datetimeStart datetimeEnd datetimeLen columns
    numTicksPerDay fullIndex timeIdxToDateIdx dateColumnsOffset
    (sliceGetter compactColumns) (slicedShmFetch slicedData multiplier)
    (List.replicate (datetimeLen.toNat * columns.length *
      (multiplier.getD 1).toNat) FL.zero) multiplier none

/-- `shm_batch_column_contiguous` (`src/io/temporal/mem.rs` lines 842-914).
The source spawns one `column_contiguous` task per `(datetime index i,
compact-data channel c)` on a `rayon` pool; task `(i, c)` receives the
sub-slice `[(i*nc + c) * num_data_per_task, (i*nc + c + 1) *
num_data_per_task)` of the shared output and the tasks' writes are pairwise
disjoint, so the embedding runs them sequentially, each on its own
sub-buffer, and splices the results back. -/
def shm_batch_column_contiguous {α V : Type} [LinearOrder α] [Inhabited α]
    (FL : FloatLike V) (datetimeStart datetimeEnd : List Int)
    (datetimeLen : Int) (columns : List (List α)) (numTicksPerDay : Int)
    (fullIndex timeIdxToDateIdx dateColumnsOffset : List (List Int))
    (compactColumns : List (List α)) (compactData : List (List V)) :
    Except MemError (List V) :=
  let nc := compactData.length
  let numDataPerTask := datetimeLen.toNat * (columns.getD 0 []).length
  let numTasks := datetimeStart.length * nc
  let init := List.replicate (numTasks * numDataPerTask) FL.zero
  (List.range nc).foldlM (fun buf c =>
    (List.range datetimeStart.length).foldlM (fun (buf : List V) i =>
      let offset := (i * nc + c) * numDataPerTask
      let sub := (buf.drop offset).take numDataPerTask
      (column_contiguous FL (some c) (datetimeStart.getD i 0)
          (datetimeEnd.getD i 0) datetimeLen (columns.getD i [])
          numTicksPerDay (fullIndex.getD c []) (timeIdxToDateIdx.getD c [])
          (dateColumnsOffset.getD c []) (sliceGetter (compactColumns.getD c []))
          (shmFetch (compactData.getD c [])) sub none none).map
        (fun out => copyFrom buf offset out)) buf) init

/-! ## C1: the column-contiguous end-to-end scenario -/

/-- The spec's Scenario 3 result: the logical `6 × 4` (time × symbol) matrix
for the query `datetime_start = 1`, `datetime_end = 8`, `datetime_len = 6`,
`columns = [2, 3, 4, 5]` (`none` plays NaN). -/
def scenario3 : List (List (Option Int)) :=
  [[some 5, some 7, none, none],
   [some 12, some 14, some 16, none],
   [some 13, some 15, some 17, none],
   [some 22, some 24, some 26, some 28],
   [some 23, some 25, some 27, some 29],
   [some 34, some 36, some 38, some 40]]

/-- The fixture of the spec's end-to-end scenarios: 32-byte-padded symbol ids
are embedded as the integers they encode (for ids `0..6` the byte-wise order
of the padded strings coincides with the numeric order). -/
def fixtureCompactColumns : List Int :=
  [0, 1, 2, 3, 0, 1, 2, 3, 4, 0, 1, 2, 3, 4, 5, 0, 1, 2, 3, 4, 5, 6]

def fixtureCompactData : List (Option Int) :=
  (List.range 44).map (fun n => some (n : Int))

/-! ## Closed forms for the `column_contiguous` day loop

The per-day window `[i_time_start_idx, i_time_end_idx)` is a function of the
day position alone; the running offsets `columns_offset` / `i_time_offset`
have the closed forms below under the day-structure contract
`time_idx_to_date_idx[t] = t / num_ticks_per_day`. -/

/-- The day window length `i_time_end_idx - i_time_start_idx` of day `i`. -/
def dayLenOf (numTicksPerDay : Int) (tsi tei : Nat) (numDays i : Nat) : Int :=
  iTimeEndOf numTicksPerDay tei numDays i - iTimeStartOf numTicksPerDay tsi i

/-- Closed form of the `i_time_offset` state before day `i`. -/
def timeOffsetOf (numTicksPerDay : Int) (tsi : Nat) (startDateIdx : Int)
    (i : Nat) : Int :=
  if i = 0 then 0 else (startDateIdx + i) * numTicksPerDay - tsi

/-- Closed form of the `columns_offset` state before day `i`. -/
def columnsOffsetOf {α : Type} (dayCols : Nat → List α) : Nat → Int
  | 0 => 0
  | k + 1 => columnsOffsetOf dayCols k + ((dayCols k).length : Int)

/-- The day-structure part of a valid query: positive tick count, non-empty
datetime range, and `time_idx_to_date_idx` agreeing with `t ↦ t / T_d` at the
two probed positions (the spec's "per day, `time_idx_to_date_idx` maps exactly
`T_d` consecutive time indices to the same date"). -/
def ValidDayShape (numTicksPerDay : Int) (timeIdxToDateIdx : List Int)
    (tsi tei : Nat) : Prop :=
  1 ≤ numTicksPerDay ∧ tsi ≤ tei ∧
    timeIdxToDateIdx.getD tsi 0 = ((tsi / numTicksPerDay.toNat : Nat) : Int) ∧
    timeIdxToDateIdx.getD tei 0 = ((tei / numTicksPerDay.toNat : Nat) : Int)

instance (numTicksPerDay : Int) (timeIdxToDateIdx : List Int) (tsi tei : Nat) :
    Decidable (ValidDayShape numTicksPerDay timeIdxToDateIdx tsi tei) := by
  unfold ValidDayShape; infer_instance

/-- The output positions a plan item writes: a `.task` item writes the
`data_len · multiplier` cells the fetched slice fills, a `.nanFill` item its
`nan_len` cells. -/
def itemFootprint (offsets : Option Offsets) (multiplier : Option Int) :
    PlanItem → List Nat
  | .task args fStart =>
    writeFootprint offsets multiplier fStart
      ((args.data_len * multiplier.getD 1).toNat)
  | .nanFill fStart nanLen => writeFootprint offsets multiplier fStart nanLen

/-! ## DataFrame byte codecs
(`src/cfpyo3_rs_core/src/df/frame/io/bytes.rs`, `src/cfpyo3_rs_core/src/df/io/buffer.rs`,
`src/cfpyo3_rs_core/src/df/io/fs.rs`, `src/cfpyo3_rs_core/src/df/frame/meta.rs`,
`src/cfpyo3_rs_core/src/toolkit/convert.rs`).

Bytes are `Nat`s (< 256).  A frame is modelled at byte level: `index` as the
`i64` values (8 bytes each in memory, little-endian on the target platform),
`columns` as raw 32-byte symbols, `values` as the raw `sizeof(T)`-byte
patterns of its elements — the codecs never interpret the payload, they only
copy memory (`toolkit::convert::to_bytes` / `from_bytes` reinterpret). -/

def INDEX_NBYTES : Nat := 8

def COLUMNS_NBYTES : Nat := 32

/-- `DF_ALIGN = align_of::<DataFrame<f64>>()` (`df/frame/meta.rs` line 51):
the struct of three `CowArray`s is pointer-aligned. -/
def DF_ALIGN : Nat := 8

/-- `align_nbytes` (`df/frame/meta.rs` lines 52-59). -/
def align_nbytes (nbytes : Nat) : Nat :=
  let remainder := nbytes % DF_ALIGN
  if remainder = 0 then nbytes else nbytes + DF_ALIGN - remainder

structure ByteFrame where
  index : List Int
  columns : List (List Nat)
  values : List (List Nat)
  deriving DecidableEq, Repr

/-- `n` little-endian bytes of an unsigned value. -/
def u64Bytes : Nat → Nat → List Nat
  | 0, _ => []
  | n + 1, v => (v % 256) :: u64Bytes n (v / 256)

/-- The 8 memory bytes of an `i64` on a little-endian platform. -/
def i64leBytes (v : Int) : List Nat := u64Bytes 8 (v % (2 ^ 64)).toNat

/-- `i64::to_be_bytes` / `bytes::BufMut::put_i64` (big-endian). -/
def i64beBytes (v : Int) : List Nat := (i64leBytes v).reverse

def leRead (bs : List Nat) : Nat := bs.foldr (fun b acc => b + 256 * acc) 0

/-- `i64::from_le_bytes` (two's complement). -/
def i64OfLe (bs : List Nat) : Int :=
  let u := leRead bs
  if u < 2 ^ 63 then (u : Int) else (u : Int) - 2 ^ 64

/-- Rust `i64 as usize` on a 64-bit platform. -/
def usizeOfI64 (v : Int) : Nat := (v % 2 ^ 64).toNat

/-- `Buf::get_i64_le`: consume 8 bytes, read little-endian. -/
def readI64le (bs : List Nat) : Option (Int × List Nat) :=
  if 8 ≤ bs.length then some (i64OfLe (bs.take 8), bs.drop 8) else none

/-- `Buf::copy_to_bytes(n)` / `Read::read_exact`: consume exactly `n` bytes,
panicking (modelled `none`) when fewer remain. -/
def copy_to_bytes (bs : List Nat) (n : Nat) : Option (List Nat × List Nat) :=
  if n ≤ bs.length then some (bs.take n, bs.drop n) else none

/-- `toolkit::convert::from_bytes`: reinterpret a byte vector as
`⌊len / w⌋` values of `w` bytes each. -/
def chunk (w : Nat) (l : List Nat) : List (List Nat) :=
  (List.range (l.length / w)).map (fun i => (l.drop (i * w)).take w)

/-- `DataFrame::to_bytes` (`df/frame/io/bytes.rs` lines 32-48): two `i64`
length prefixes written with `bytes.put_i64` — **big-endian** — followed by
the raw memory of `index`, `columns` and `values`. -/
def to_bytes (F : ByteFrame) : List Nat :=
  i64beBytes ((INDEX_NBYTES * F.index.length : Nat) : Int) ++
  i64beBytes ((COLUMNS_NBYTES * F.columns.length : Nat) : Int) ++
  (F.index.flatMap i64leBytes ++ (F.columns.flatMap id ++ F.values.flatMap id))

/-- `DataFrame::save_to` (`df/io/fs.rs` lines 22-35): the same stream with
`i64::to_le_bytes` — **little-endian** — prefixes. -/
def save_to (F : ByteFrame) : List Nat :=
  i64leBytes ((INDEX_NBYTES * F.index.length : Nat) : Int) ++
  i64leBytes ((COLUMNS_NBYTES * F.columns.length : Nat) : Int) ++
  (F.index.flatMap i64leBytes ++ (F.columns.flatMap id ++ F.values.flatMap id))

/-- `DataFrame::from_buffer` (`df/io/buffer.rs` lines 26-41): owned decode —
`get_i64_le` prefixes, then `extract_bytes` consumes
`align_nbytes(nbytes)` bytes per section and reinterprets
(`values_nbytes` is derived from the two shapes, `w = sizeof(T)`). -/
def from_buffer (w : Nat) (bs : List Nat) : Option ByteFrame := do
  let (inb, bs1) ← readI64le bs
  let (cnb, bs2) ← readI64le bs1
  let index_nbytes := usizeOfI64 inb
  let columns_nbytes := usizeOfI64 cnb
  let index_shape := index_nbytes / INDEX_NBYTES
  let columns_shape := columns_nbytes / COLUMNS_NBYTES
  let (ibts, bs3) ← copy_to_bytes bs2 (align_nbytes index_nbytes)
  let (cbts, bs4) ← copy_to_bytes bs3 (align_nbytes columns_nbytes)
  let values_nbytes := w * (index_shape * columns_shape)
  let (vbts, _) ← copy_to_bytes bs4 (align_nbytes values_nbytes)
  some { index := (chunk 8 ibts).map i64OfLe,
         columns := chunk 32 cbts,
         values := chunk w vbts }

/-- `DataFrame::load_from` (`df/io/fs.rs` lines 36-61): file decode —
`i64::from_le_bytes` prefixes, then three exact-size reads. -/
def load_from (w : Nat) (bs : List Nat) : Option ByteFrame := do
  let (inb, bs1) ← readI64le bs
  let (cnb, bs2) ← readI64le bs1
  let index_nbytes := usizeOfI64 inb
  let columns_nbytes := usizeOfI64 cnb
  let index_shape := index_nbytes / INDEX_NBYTES
  let columns_shape := columns_nbytes / COLUMNS_NBYTES
  let values_nbytes := w * (index_shape * columns_shape)
  let (ibts, bs3) ← copy_to_bytes bs2 index_nbytes
  let (cbts, bs4) ← copy_to_bytes bs3 columns_nbytes
  let (vbts, _) ← copy_to_bytes bs4 values_nbytes
  some { index := (chunk 8 ibts).map i64OfLe,
         columns := chunk 32 cbts,
         values := chunk w vbts }

/-- The spec's byte-layout scenario frame: `index=[0,1]`,
`columns=["a","b","c"]` (32-byte zero-padded), `values=[[1,2,3],[4,5,6]]`
as `f32` bit patterns (little-endian memory). -/
def byteFixtureDF : ByteFrame where
  index := [0, 1]
  columns := [97 :: List.replicate 31 0, 98 :: List.replicate 31 0,
    99 :: List.replicate 31 0]
  values := [[0, 0, 128, 63], [0, 0, 0, 64], [0, 0, 64, 64],
    [0, 0, 128, 64], [0, 0, 160, 64], [0, 0, 192, 64]]

/-! ## Redis client (`src/io/temporal/mem/redis.rs`) -/

/-- Redis `GETRANGE key start stop` over an abstract store: inclusive on both
ends, negative offsets from the end of the value, clamped to the value. -/
def getrange (store : String → List Nat) (key : String) (start stop : Int) :
    List Nat :=
  let s := store key
  let len : Int := s.length
  let a := if start < 0 then max 0 (len + start) else start
  let b := if stop < 0 then len + stop else stop
  if b < a then [] else (s.take (b.toNat + 1)).drop a.toNat

/-- `RedisClient::fetch` (`redis.rs` lines 132-167): one
`GETRANGE key start (end-1)`; `data_not_enough` exactly when the returned
byte count differs from `end - start` (an `isize` difference cast `as usize`);
otherwise the bytes reinterpreted as `w`-byte values. -/
def redis_fetch (w : Nat) (store : String → List Nat) (key : String)
    (start e : Int) : Except MemError (List (List Nat)) :=
  let rv := getrange store key start (e - 1)
  if rv.length ≠ usizeOfI64 (e - start) then
    .error (.fetchFailed "fetched data is not enough")
  else .ok (chunk w rv)

/-- `init_client` (`redis.rs` lines 48-63) reads `REDIS_USER`,
`REDIS_PASSWORD` and `REDIS_CONNECTION_TIMEOUT` from the process
environment. -/
structure ClusterConfig where
  username : String
  password : String
  connection_timeout : Nat
  response_timeout : Nat
  deriving DecidableEq, Repr

def digitVal (c : Char) : Option Nat :=
  if '0' ≤ c ∧ c ≤ '9' then some (c.toNat - '0'.toNat) else none

/-- Rust `str::parse::<u64>()`: optional `+` sign, one or more decimal
digits, value within `u64` range. -/
def parse_u64 (s : String) : Option Nat :=
  let cs := s.toList
  let cs := match cs with
    | '+' :: rest => rest
    | _ => cs
  if cs = [] then none
  else
    match cs.foldl (fun acc c =>
      match acc, digitVal c with
      | some a, some d => some (a * 10 + d)
      | _, _ => none) (some 0) with
    | none => none
    | some v => if v < 2 ^ 64 then some v else none

/-- `init_client` (`redis.rs` lines 48-63): `REDIS_USER` (default
`"default"`), `REDIS_PASSWORD` (default `""`),
`REDIS_CONNECTION_TIMEOUT` seconds (default `"30"`, parsed as `u64`,
panicking — `none` — on a parse failure); the same duration is passed to
both `connection_timeout` and `response_timeout`. -/
def init_client (env : String → Option String) : Option ClusterConfig :=
  let username := (env "REDIS_USER").getD "default"
  let password := (env "REDIS_PASSWORD").getD ""
  match parse_u64 ((env "REDIS_CONNECTION_TIMEOUT").getD "30") with
  | none => none
  | some t => some ⟨username, password, t, t⟩

/-- What C8's words describe: the same builder reading `USER`, `PASSWORD`
and `CONNECTION_TIMEOUT` instead. -/
def init_client_spec (env : String → Option String) : Option ClusterConfig :=
  let username := (env "USER").getD "default"
  let password := (env "PASSWORD").getD ""
  match parse_u64 ((env "CONNECTION_TIMEOUT").getD "30") with
  | none => none
  | some t => some ⟨username, password, t, t⟩

/-- `num_columns_per_task` of `redis_grouped_column_contiguous`
(`src/io/temporal/mem.rs` line 1209): `(nc / 200).max(10.min(nc))`. -/
def num_columns_per_task (numColumns : Nat) : Nat :=
  max (numColumns / 200) (min 10 numColumns)

/-- What C9's words describe: `max(10, min(nc, nc / 200))`. -/
def num_columns_per_task_spec (numColumns : Nat) : Nat :=
  max 10 (min numColumns (numColumns / 200))

def num_columns_task (numColumns : Nat) : Nat :=
  numColumns / num_columns_per_task numColumns

/-- The column chunk handed to task `n`
(`src/io/temporal/mem.rs` lines 1221-1227 and 1254-1260): the final chunk
runs to `num_columns`. -/
def column_chunk_bounds (numColumns : Nat) (n : Nat) : Nat × Nat :=
  (n * num_columns_per_task numColumns,
   if n = num_columns_task numColumns - 1 then numColumns
   else (n + 1) * num_columns_per_task numColumns)

/-! ## Theorems -/

/-! Correctness facts about the binary search, used to relate the planner's
`date_columns[corrected_idx] == columns[j]` test to plain membership. -/

theorem bsGo_base_lt {α : Type} [LinearOrder α] (l : List α) (v : α) :
    ∀ fuel base size, 1 ≤ size → base + size ≤ l.length →
      bsGo l v fuel base size < l.length := by
  intro fuel
  induction fuel with
  | zero => intro base size h1 h2; simpa [bsGo] using Nat.lt_of_lt_of_le (by omega) h2
  | succ fuel ih =>
    intro base size h1 h2
    by_cases hs : size ≤ 1
    · simpa [bsGo, hs] using Nat.lt_of_lt_of_le (by omega) h2
    · simp only [bsGo, hs, if_false]
      by_cases hcmp : v < l.getD (base + size / 2) v
      · simp only [hcmp, if_true]
        exact ih base (size - size / 2) (by omega) (by omega)
      · simp only [hcmp, if_false]
        exact ih (base + size / 2) (size - size / 2) (by omega) (by omega)

/-- The binary-search window invariant: if the sought value occurs inside the
current window of a sorted list, the loop exits at an occurrence. -/
theorem bsGo_find {α : Type} [LinearOrder α] (l : List α) (v : α)
    (hs : l.Sorted (· ≤ ·)) :
    ∀ fuel base size, 1 ≤ size → size ≤ fuel → base + size ≤ l.length →
      (∃ p, base ≤ p ∧ p < base + size ∧ l.getD p v = v) →
      l.getD (bsGo l v fuel base size) v = v := by
  intro fuel
  induction fuel with
  | zero => intro base size h1 h2 _ _; omega
  | succ fuel ih =>
    intro base size h1 h2 h3 hex
    by_cases hsz : size ≤ 1
    · obtain ⟨p, hp1, hp2, hp3⟩ := hex
      have hpb : p = base := by omega
      rw [bsGo]
      simp only [hsz, if_true]
      exact hpb ▸ hp3
    · have hhalf : 1 ≤ size / 2 := by omega
      set half := size / 2 with hhalfdef
      set mid := base + half with hmiddef
      have hmidlt : mid < l.length := by omega
      simp only [bsGo, hsz, if_false]
      by_cases hcmp : v < l.getD mid v
      · -- l[mid] > v: occurrences cannot be at positions ≥ mid
        simp only [hcmp, if_true]
        apply ih base (size - half) (by omega) (by omega) (by omega)
        obtain ⟨p, hp1, hp2, hp3⟩ := hex
        refine ⟨p, hp1, ?_, hp3⟩
        by_contra hge
        have hpm : mid ≤ p := by omega
        have hple : p < l.length := by omega
        have : l.getD mid v ≤ l.getD p v := by
          rcases Nat.eq_or_lt_of_le hpm with heq | hlt
          · simp [heq]
          · have := List.pairwise_iff_getElem.mp hs mid p hmidlt hple hlt
            simpa [List.getD_eq_getElem?_getD, List.getElem?_eq_getElem hmidlt,
              List.getElem?_eq_getElem hple] using this
        rw [hp3] at this
        exact absurd (lt_of_le_of_lt this hcmp) (lt_irrefl _)
      · -- l[mid] ≤ v: an occurrence below mid forces l[mid] = v
        simp only [hcmp, if_false]
        apply ih mid (size - half) (by omega) (by omega) (by omega)
        obtain ⟨p, hp1, hp2, hp3⟩ := hex
        by_cases hpm : mid ≤ p
        · exact ⟨p, hpm, by omega, hp3⟩
        · refine ⟨mid, le_refl _, by omega, ?_⟩
          have hple : p < l.length := by omega
          have hle1 : l.getD p v ≤ l.getD mid v := by
            have hlt : p < mid := by omega
            have := List.pairwise_iff_getElem.mp hs p mid hple hmidlt hlt
            simpa [List.getD_eq_getElem?_getD, List.getElem?_eq_getElem hmidlt,
              List.getElem?_eq_getElem hple] using this
          have hle2 : l.getD mid v ≤ v := not_lt.mp hcmp
          rw [hp3] at hle1
          exact le_antisymm hle2 hle1

/-- On a sorted list, a present value is found: `binary_search` returns `Ok`
at an index holding the value. -/
theorem binarySearch_mem {α : Type} [LinearOrder α] {l : List α} {v : α}
    (hs : l.Sorted (· ≤ ·)) (hmem : v ∈ l) :
    (binarySearch l v).1 = true ∧
      (binarySearch l v).2 < l.length ∧
      l.getD (binarySearch l v).2 v = v := by
  have hne : l.length ≠ 0 := by
    intro h; rw [List.length_eq_zero] at h; simp [h] at hmem
  obtain ⟨p, hp, hpv⟩ := List.mem_iff_getElem.mp hmem
  have hget : l.getD p v = v := by
    simp [List.getD_eq_getElem?_getD, List.getElem?_eq_getElem hp, hpv]
  have hfind : l.getD (bsGo l v l.length 0 l.length) v = v :=
    bsGo_find l v hs l.length 0 l.length (by omega) le_rfl (by omega)
      ⟨p, by omega, by simpa using hp, hget⟩
  have hlt : bsGo l v l.length 0 l.length < l.length :=
    bsGo_base_lt l v l.length 0 l.length (by omega) (by omega)
  have hfind2 : l[bsGo l v l.length 0 l.length] = v := by
    rw [← List.getD_eq_getElem l v hlt]; exact hfind
  simp only [binarySearch, hne, if_false]
  simp [hfind, hfind2, hlt, List.getD_eq_getElem?_getD, List.getElem?_eq_getElem]

/-- `binary_search` only answers `Ok i` when `l[i]` really is the value. -/
theorem binarySearch_ok_getD {α : Type} [LinearOrder α] (l : List α) (v : α)
    (h : (binarySearch l v).1 = true) :
    l.getD (binarySearch l v).2 v = v := by
  by_cases hne : l.length = 0
  · simp [binarySearch, hne] at h
  · simp only [binarySearch, hne, if_false] at h ⊢
    by_cases hx : l.getD (bsGo l v l.length 0 l.length) v = v
    · simp only [hx, if_true]
    · simp only [hx, if_false] at h
      exact absurd h (by simp)

/-- On a sorted, nonempty `date_columns`, the planner's presence test
`date_columns[corrected_idx] == columns[j]` (with
`corrected_idx = if idx >= len { 0 } else { idx }`, `idx = searchsorted`)
holds exactly when the requested symbol is a member of the day's columns. -/
theorem presence_iff {α : Type} [LinearOrder α] (dc : List α) (s dflt : α)
    (hs : dc.Sorted (· ≤ ·)) (hne : dc ≠ []) :
    (dc.getD (if dc.length ≤ searchsorted dc s then 0 else searchsorted dc s) dflt = s)
      ↔ s ∈ dc := by
  have hlen : 0 < dc.length := List.length_pos.mpr hne
  constructor
  · intro h
    set k := (if dc.length ≤ searchsorted dc s then 0 else searchsorted dc s) with hk
    have hklt : k < dc.length := by
      rw [hk]; split
      · exact hlen
      · omega
    rw [List.getD_eq_getElem dc dflt hklt] at h
    exact h ▸ List.getElem_mem hklt
  · intro hmem
    obtain ⟨hok, hlt, hval⟩ := binarySearch_mem hs hmem
    have hss : searchsorted dc s = (binarySearch dc s).2 := rfl
    rw [hss]
    have : ¬ dc.length ≤ (binarySearch dc s).2 := by omega
    simp only [this, if_false]
    rw [List.getD_eq_getElem dc dflt hlt, ← List.getD_eq_getElem dc s hlt]
    exact hval

/-- C1: on the fixture (`num_ticks_per_day = 2`,
`full_index = [0,1,2,3,4,6,8,10]`, `time_idx_to_date_idx = [0,0,1,1,2,2,3,3]`,
`date_columns_offset = [0,4,9,15,22]`, compact data `0..44`) the query
`datetime_start = 1`, `datetime_end = 8`, `datetime_len = 6`,
`columns = [2,3,4,5]` makes `shm_column_contiguous` return a flattened vector
`v` of length `24` with `v[j*6 + t]` equal to entry `(t, j)` of the
`scenario3` matrix (NaN cells being `none`). -/
theorem shm_column_contiguous_scenario3 :
    (shm_column_contiguous optIntFL 1 8 6 ([2, 3, 4, 5] : List Int) 2
        [0, 1, 2, 3, 4, 6, 8, 10] [0, 0, 1, 1, 2, 2, 3, 3] [0, 4, 9, 15, 22]
        fixtureCompactColumns fixtureCompactData).toOption
      = some ((List.range 4).flatMap (fun j => (List.range 6).map (fun t =>
          (scenario3.getD t []).getD j (some 0))))
    ∧ ((List.range 4).flatMap (fun j => (List.range 6).map (fun t =>
        (scenario3.getD t []).getD j (some 0)))).length = 24 := by
  constructor
  · decide
  · decide

/-! ## C3: the `IndexDiscontinuous` check -/

theorem runItems_error_from_fetch {V : Type} (FL : FloatLike V)
    (offsets : Option Offsets) (multiplier : Option Int)
    (fetch : FetcherArgs → Except MemError (List V)) :
    ∀ (items : List PlanItem) (buf : List V) (e : MemError),
      runItems FL offsets multiplier fetch items buf = .error e →
      ∃ args, fetch args = .error e := by
  intro items
  induction items with
  | nil => intro buf e h; simp [runItems, List.foldlM, pure, Except.pure] at h
  | cons it rest ih =>
    intro buf e h
    rw [runItems, List.foldlM_cons] at h
    cases hit : applyItem FL offsets multiplier fetch buf it with
    | error e' =>
      rw [hit] at h
      simp only [Bind.bind, Except.bind] at h
      cases h
      cases it with
      | task args fStart =>
        refine ⟨args, ?_⟩
        cases hf : fetch args with
        | error e2 => simp only [applyItem, hf, Except.map] at hit; cases hit; rfl
        | ok data => simp [applyItem, hf, Except.map] at hit
      | nanFill fStart nanLen => simp [applyItem] at hit
    | ok buf' =>
      rw [hit] at h
      simp only [Bind.bind, Except.bind] at h
      exact ih buf' e h

theorem exceptMap_error {β γ ε : Type} (f : β → γ) (x : Except ε β) (e : ε)
    (h : x.map f = .error e) : x = .error e := by
  cases x with
  | error e1 => simpa [Except.map] using h
  | ok b => simp [Except.map] at h

theorem mapM_error_from_fetch {V : Type}
    (fetch : FetcherArgs → Except MemError (List V)) :
    ∀ (tasks : List (FetcherArgs × Nat)) (e : MemError),
      tasks.mapM (fun p => fetch p.1) = .error e →
      ∃ args, fetch args = .error e := by
  intro tasks
  induction tasks with
  | nil =>
    intro e h
    simp [List.mapM, List.mapM.loop, pure, Except.pure] at h
  | cons t rest ih =>
    intro e h
    rw [List.mapM_cons] at h
    cases hf : fetch t.1 with
    | error e1 =>
      rw [hf] at h
      simp only [Bind.bind, Except.bind] at h
      cases h
      exact ⟨t.1, hf⟩
    | ok d =>
      rw [hf] at h
      simp only [Bind.bind, Except.bind] at h
      cases hrest : rest.mapM (fun p => fetch p.1) with
      | error e1 =>
        rw [hrest] at h
        simp only [Bind.bind, Except.bind] at h
        cases h
        exact ih e hrest
      | ok ds =>
        rw [hrest] at h
        simp [Bind.bind, Except.bind, pure, Except.pure] at h

theorem asyncRunItems_error_from_fetch {V : Type} (FL : FloatLike V)
    (offsets : Option Offsets) (multiplier : Option Int)
    (fetch : FetcherArgs → Except MemError (List V)) (items : List PlanItem)
    (flattened : List V) (e : MemError)
    (h : asyncRunItems FL offsets multiplier fetch items flattened = .error e) :
    ∃ args, fetch args = .error e := by
  simp only [asyncRunItems] at h
  exact mapM_error_from_fetch fetch _ _ (exceptMap_error _ _ _ h)

theorem rowItemsGo_error_shape {α V : Type} [LinearOrder α] [Inhabited α]
    (FL : FloatLike V) (columns : List α) (dataGetter : Int → Int → List V)
    (startIdx : Int) :
    ∀ (days : List (Int × List α)) (cursor timeIdx : Int) (e : MemError),
      rowItemsGo FL columns dataGetter startIdx days cursor timeIdx = .error e →
      e = .shapeError := by
  intro days
  induction days with
  | nil => intro cursor timeIdx e h; simp [rowItemsGo] at h
  | cons day rest ih =>
    intro cursor timeIdx e h
    obtain ⟨dateCount, dateColumns⟩ := day
    simp only [rowItemsGo] at h
    split at h
    · cases h; rfl
    · exact ih _ _ _ (exceptMap_error _ _ _ h)

/-- C3: for every query whose `time_end_idx = time_start_idx + datetime_len -
1` is a valid index of `full_index`, each of `row_contiguous`,
`column_contiguous` and `async_column_contiguous` returns the
`IndexDiscontinuous` error exactly when `full_index[time_end_idx] ≠
datetime_end` (the fetchers themselves never producing that error kind, which
holds for every fetcher of the repository).  The statement quantifies over the
output buffer and the fetcher, so in the failing case the error is independent
of both: the check precedes every write, and the output buffer is untouched. -/
theorem index_discontinuous_iff {α V : Type} [LinearOrder α] [Inhabited α]
    (FL : FloatLike V) (datetimeStart datetimeEnd datetimeLen : Int)
    (columns : List α) (numTicksPerDay : Int)
    (fullIndex timeIdxToDateIdx dateColumnsOffset : List Int)
    (columnsGetter : Int → Int → List α)
    (hvalid : searchsorted fullIndex datetimeStart + datetimeLen.toNat - 1 <
      fullIndex.length) :
    (∀ (c : Option Nat) (fetch : FetcherArgs → Except MemError (List V))
        (flattened : List V) (multiplier : Option Int) (offsets : Option Offsets),
      (∀ args, fetch args ≠ .error .indexDiscontinuous) →
      (column_contiguous FL c datetimeStart datetimeEnd datetimeLen columns
          numTicksPerDay fullIndex timeIdxToDateIdx dateColumnsOffset
          columnsGetter fetch flattened multiplier offsets =
            .error .indexDiscontinuous ↔
        fullIndex.getD (searchsorted fullIndex datetimeStart +
          datetimeLen.toNat - 1) 0 ≠ datetimeEnd))
    ∧ (∀ (c : Option Nat) (fetch : FetcherArgs → Except MemError (List V))
        (flattened : List V) (multiplier : Option Int) (offsets : Option Offsets),
      (∀ args, fetch args ≠ .error .indexDiscontinuous) →
      (async_column_contiguous FL c datetimeStart datetimeEnd datetimeLen
          columns numTicksPerDay fullIndex timeIdxToDateIdx dateColumnsOffset
          columnsGetter fetch flattened multiplier offsets =
            .error .indexDiscontinuous ↔
        fullIndex.getD (searchsorted fullIndex datetimeStart +
          datetimeLen.toNat - 1) 0 ≠ datetimeEnd))
    ∧ (∀ (dataGetter : Int → Int → List V) (flattened : List V),
      (row_contiguous FL datetimeStart datetimeEnd datetimeLen columns
          numTicksPerDay fullIndex timeIdxToDateIdx dateColumnsOffset
          columnsGetter dataGetter flattened = .error .indexDiscontinuous ↔
        fullIndex.getD (searchsorted fullIndex datetimeStart +
          datetimeLen.toNat - 1) 0 ≠ datetimeEnd)) := by
  refine ⟨?_, ?_, ?_⟩
  · intro c fetch flattened multiplier offsets hf
    simp only [column_contiguous]
    by_cases hcond : fullIndex.getD (searchsorted fullIndex datetimeStart +
        datetimeLen.toNat - 1) 0 ≠ datetimeEnd
    · rw [if_pos hcond]
      exact iff_of_true rfl hcond
    · rw [if_neg hcond]
      constructor
      · intro h
        obtain ⟨args, hargs⟩ := runItems_error_from_fetch FL offsets multiplier
          fetch _ _ _ h
        exact absurd hargs (hf args)
      · intro h; exact absurd h hcond
  · intro c fetch flattened multiplier offsets hf
    simp only [async_column_contiguous]
    by_cases hcond : fullIndex.getD (searchsorted fullIndex datetimeStart +
        datetimeLen.toNat - 1) 0 ≠ datetimeEnd
    · rw [if_pos hcond]
      exact iff_of_true rfl hcond
    · rw [if_neg hcond]
      constructor
      · intro h
        obtain ⟨args, hargs⟩ := asyncRunItems_error_from_fetch FL offsets
          multiplier fetch _ _ _ h
        exact absurd hargs (hf args)
      · intro h; exact absurd h hcond
  · intro dataGetter flattened
    simp only [row_contiguous]
    by_cases hcond : fullIndex.getD (searchsorted fullIndex datetimeStart +
        datetimeLen.toNat - 1) 0 ≠ datetimeEnd
    · rw [if_pos hcond]
      exact iff_of_true rfl hcond
    · rw [if_neg hcond]
      constructor
      · intro h
        have hsh := rowItemsGo_error_shape FL columns dataGetter _ _ _ _ _
          (exceptMap_error _ _ _ h)
        cases hsh
      · intro h; exact absurd h hcond

/-- Witness for `index_discontinuous_iff` at the fixture, with the
deliberately wrong `datetime_end = 9`: the check fails and
`column_contiguous` reports `IndexDiscontinuous`. -/
theorem index_discontinuous_iff_witness :
    (searchsorted ([0, 1, 2, 3, 4, 6, 8, 10] : List Int) 1 + (6 : Int).toNat - 1 <
      ([0, 1, 2, 3, 4, 6, 8, 10] : List Int).length)
    ∧ (column_contiguous optIntFL none 1 9 6 ([2, 3, 4, 5] : List Int) 2
        [0, 1, 2, 3, 4, 6, 8, 10] [0, 0, 1, 1, 2, 2, 3, 3] [0, 4, 9, 15, 22]
        (sliceGetter fixtureCompactColumns) (shmFetch fixtureCompactData)
        (List.replicate 24 (some 0)) none none = .error .indexDiscontinuous ↔
      ([0, 1, 2, 3, 4, 6, 8, 10] : List Int).getD
        (searchsorted ([0, 1, 2, 3, 4, 6, 8, 10] : List Int) 1 +
          (6 : Int).toNat - 1) 0 ≠ 9) := by
  refine ⟨by decide, ?_⟩
  exact (index_discontinuous_iff optIntFL 1 9 6 ([2, 3, 4, 5] : List Int) 2
    [0, 1, 2, 3, 4, 6, 8, 10] [0, 0, 1, 1, 2, 2, 3, 3] [0, 4, 9, 15, 22]
    (sliceGetter fixtureCompactColumns) (by decide)).1 none
    (shmFetch fixtureCompactData) (List.replicate 24 (some 0)) none none
    (by intro args hh; simp [shmFetch] at hh)

/-- The loop of `columnItemsGo`, unrolled to a `flatMap` over day positions,
for any state functions satisfying the loop's recurrences. -/
theorem columnItemsGo_closed {α : Type} [LinearOrder α] [Inhabited α]
    (c : Option Nat) (datetimeLen : Int) (columns : List α)
    (numTicksPerDay : Int) (multiplier : Option Int) (columnOffset : Int)
    (totalMultiplier : Option Int) (startIdx : Int) (tsi tei : Nat)
    (numDays : Nat) (dayCols : Nat → List α) (dateIdxOf : Nat → Int)
    (coOf offOf : Nat → Int) :
    ∀ (n i : Nat),
      (∀ k, i ≤ k → k + 1 < i + n →
        coOf (k + 1) = coOf k + ((dayCols k).length : Int) ∧
        offOf (k + 1) = offOf k + dayLenOf numTicksPerDay tsi tei numDays k) →
      columnItemsGo c datetimeLen columns numTicksPerDay multiplier
          columnOffset totalMultiplier startIdx tsi tei numDays i
          ((List.range' i n).map (fun k => (dateIdxOf k, dayCols k)))
          (coOf i) (offOf i) =
        (List.range' i n).flatMap (fun k =>
          columnDayItems c datetimeLen columns numTicksPerDay multiplier
            columnOffset totalMultiplier startIdx tsi tei numDays
            (dateIdxOf k) k (dayCols k) (coOf k) (offOf k)) := by
  intro n
  induction n with
  | zero => intro i _; simp [columnItemsGo]
  | succ n ih =>
    intro i hrec
    rw [List.range'_succ, List.map_cons, List.flatMap_cons, columnItemsGo]
    congr 1
    cases n with
    | zero => simp [columnItemsGo]
    | succ n' =>
      have hk := hrec i (le_refl i) (by omega)
      have hoff : offOf i + (iTimeEndOf numTicksPerDay tei numDays i -
          iTimeStartOf numTicksPerDay tsi i) = offOf (i + 1) := by
        rw [hk.2, dayLenOf]
      rw [← hk.1, hoff, ih (i + 1) (fun k hk1 hk2 => hrec k (by omega) (by omega))]

/-- `columnItems` as a `flatMap` of per-day item lists with closed-form loop
state, under the day-structure contract.  `ds` abbreviates the start date
index `time_idx_to_date_idx[tsi]`. -/
theorem columnItems_closed {α : Type} [LinearOrder α] [Inhabited α]
    (c : Option Nat) (datetimeLen : Int) (columns : List α)
    (numTicksPerDay : Int) (timeIdxToDateIdx dateColumnsOffset : List Int)
    (columnsGetter : Int → Int → List α) (multiplier : Option Int)
    (offsets : Option Offsets) (tsi tei : Nat)
    (hshape : ValidDayShape numTicksPerDay timeIdxToDateIdx tsi tei) :
    columnItems c datetimeLen columns numTicksPerDay timeIdxToDateIdx
        dateColumnsOffset columnsGetter multiplier offsets tsi tei =
      (List.range'
        0 ((timeIdxToDateIdx.getD tei 0 + 1 - timeIdxToDateIdx.getD tsi 0).toNat)).flatMap
        (fun k =>
          columnDayItems c datetimeLen columns numTicksPerDay multiplier
            (match offsets with | none => 0 | some o => o.column_offset)
            (multiplier.map (fun m => m + match offsets with
              | none => 0
              | some o => o.channel_pad_start + o.channel_pad_end))
            (dateColumnsOffset.getD (timeIdxToDateIdx.getD tsi 0).toNat 0 *
              numTicksPerDay)
            tsi tei
            ((timeIdxToDateIdx.getD tei 0 + 1 - timeIdxToDateIdx.getD tsi 0).toNat)
            (timeIdxToDateIdx.getD tsi 0 + k) k
            (columnsGetter
              (dateColumnsOffset.getD (timeIdxToDateIdx.getD tsi 0 + k).toNat 0)
              (dateColumnsOffset.getD (timeIdxToDateIdx.getD tsi 0 + k + 1).toNat 0))
            (columnsOffsetOf (fun k' =>
              columnsGetter
                (dateColumnsOffset.getD (timeIdxToDateIdx.getD tsi 0 + k').toNat 0)
                (dateColumnsOffset.getD (timeIdxToDateIdx.getD tsi 0 + k' + 1).toNat 0)) k)
            (timeOffsetOf numTicksPerDay tsi (timeIdxToDateIdx.getD tsi 0) k)) := by
  obtain ⟨hTd, htle, hds, hde⟩ := hshape
  simp only [columnItems]
  set TdN := numTicksPerDay.toNat with hTdN
  have hTdpos : 0 < TdN := by omega
  have hTdcast : (TdN : Int) = numTicksPerDay := by omega
  set ds := timeIdxToDateIdx.getD tsi 0 with hdsdef
  set de := timeIdxToDateIdx.getD tei 0 with hdedef
  have hrange : intRangeIncl ds de =
      (List.range' 0 ((de + 1 - ds).toNat)).map (fun (k : Nat) => ds + (k : Int)) := by
    rw [intRangeIncl, List.range_eq_range']
  have hzip :
      (intRangeIncl ds de).zip ((intRangeIncl ds de).map (fun d =>
          columnsGetter (dateColumnsOffset.getD d.toNat 0)
            (dateColumnsOffset.getD (d + 1).toNat 0))) =
        (List.range' 0 ((de + 1 - ds).toNat)).map (fun (k : Nat) =>
          (ds + (k : Int),
            columnsGetter (dateColumnsOffset.getD (ds + (k : Int)).toNat 0)
              (dateColumnsOffset.getD (ds + (k : Int) + 1).toNat 0))) := by
    rw [hrange, List.map_map, List.zip_map']
    rfl
  have hlen : (intRangeIncl ds de).length = (de + 1 - ds).toNat := by
    rw [hrange, List.length_map, List.length_range']
  rw [hzip, hlen]
  refine columnItemsGo_closed c datetimeLen columns numTicksPerDay multiplier _ _ _
    tsi tei ((de + 1 - ds).toNat)
    (fun k' => columnsGetter (dateColumnsOffset.getD (ds + (k' : Int)).toNat 0)
      (dateColumnsOffset.getD (ds + (k' : Int) + 1).toNat 0))
    (fun k => ds + (k : Int))
    (columnsOffsetOf (fun k' =>
      columnsGetter (dateColumnsOffset.getD (ds + (k' : Int)).toNat 0)
        (dateColumnsOffset.getD (ds + (k' : Int) + 1).toNat 0)))
    (timeOffsetOf numTicksPerDay tsi ds) ((de + 1 - ds).toNat) 0 ?_
  -- the loop recurrences
  intro k _ hk2
  refine ⟨rfl, ?_⟩
  have hdsval : ds = ((tsi / TdN : Nat) : Int) := hds
  have htsi : TdN * (tsi / TdN) + tsi % TdN = tsi := Nat.div_add_mod tsi TdN
  have hmod : (tsi : Int) % numTicksPerDay = ((tsi % TdN : Nat) : Int) := by
    rw [← hTdcast]
    push_cast
    rfl
  have hkD : k + 1 < (de + 1 - ds).toNat := by omega
  rcases Nat.eq_zero_or_pos k with hk0 | hkpos
  · subst hk0
    have hnotlast : (0 : Nat) ≠ (de + 1 - ds).toNat - 1 := by omega
    have h1 : timeOffsetOf numTicksPerDay tsi ds (0 + 1) =
        (ds + 1) * numTicksPerDay - (tsi : Int) := by
      simp [timeOffsetOf]
    have h3 : dayLenOf numTicksPerDay tsi tei ((de + 1 - ds).toNat) 0 =
        numTicksPerDay - (tsi : Int) % numTicksPerDay := by
      simp [dayLenOf, iTimeEndOf, iTimeStartOf, hnotlast]
    rw [h1, h3, timeOffsetOf]
    simp only [if_true]
    have htsi2 : ((TdN : Int)) * (((tsi / TdN : Nat)) : Int) +
        (((tsi % TdN : Nat)) : Int) = (tsi : Int) := by
      exact_mod_cast Nat.div_add_mod tsi TdN
    rw [hdsval, ← hTdcast]
    rw [show ((tsi : Int) % ((TdN : Nat) : Int)) = (((tsi % TdN : Nat)) : Int) from
      (Int.natCast_mod tsi TdN).symm]
    linear_combination htsi2
  · have hk0 : k ≠ 0 := by omega
    have hk10 : k + 1 ≠ 0 := by omega
    simp only [timeOffsetOf, dayLenOf, iTimeEndOf, iTimeStartOf, hk0, hk10,
      if_false]
    have hnotlast : ¬ (k = (de + 1 - ds).toNat - 1) := by omega
    simp only [hnotlast, if_false]
    have hne : numTicksPerDay ≠ 0 := by omega
    simp only [if_neg hne]
    push_cast
    ring

/-! ## Day-window bounds (C10, C6) -/

theorem natSuccMod (T n : Nat) (hT : 0 < T) :
    (n + 1) % T = if n % T = T - 1 then 0 else n % T + 1 := by
  have h1 := Nat.div_add_mod n T
  have l1 : n % T < T := Nat.mod_lt _ hT
  by_cases hr : n % T = T - 1
  · rw [if_pos hr, show n + 1 = T * (n / T + 1) by rw [Nat.mul_succ]; omega,
      Nat.mul_mod_right]
  · rw [if_neg hr, show n + 1 = T * (n / T) + (n % T + 1) by omega,
      Nat.mul_add_mod, Nat.mod_eq_of_lt (by omega)]

theorem mod_le_mod_of_div_eq {T a b : Nat} (hab : a ≤ b) (hq : a / T = b / T) :
    a % T ≤ b % T := by
  have h1 := Nat.div_add_mod a T
  have h2 := Nat.div_add_mod b T
  rw [hq] at h1
  omega

theorem intMod_natCast (Td : Int) (hTd : 1 ≤ Td) (n : Nat) :
    (n : Int) % Td = ((n % Td.toNat : Nat) : Int) := by
  rw [Int.natCast_mod]
  congr 1
  omega

theorem iTimeEndOf_mid (numTicksPerDay : Int) (tei : Nat) (numDays i : Nat)
    (h : i ≠ numDays - 1) : iTimeEndOf numTicksPerDay tei numDays i = numTicksPerDay := by
  simp [iTimeEndOf, h]

theorem iTimeEndOf_last (numTicksPerDay : Int) (tei : Nat) (numDays : Nat)
    (hTd : 1 ≤ numTicksPerDay) :
    iTimeEndOf numTicksPerDay tei numDays (numDays - 1) =
      ((tei % numTicksPerDay.toNat : Nat) : Int) + 1 := by
  set T := numTicksPerDay.toNat with hT
  have hTpos : 0 < T := by omega
  have hcast : ((tei : Int) + 1) % numTicksPerDay = (((tei + 1) % T : Nat) : Int) := by
    rw [show ((tei : Int) + 1) = (((tei + 1 : Nat)) : Int) by push_cast; ring,
      intMod_natCast numTicksPerDay hTd (tei + 1)]
  have hmodlt : tei % T < T := Nat.mod_lt _ hTpos
  simp only [iTimeEndOf, eq_self_iff_true, if_true, hcast, natSuccMod T tei hTpos]
  by_cases hr : tei % T = T - 1
  · rw [if_pos hr]
    simp only [Nat.cast_zero, eq_self_iff_true, if_true]
    omega
  · rw [if_neg hr]
    have hne : (((tei % T + 1 : Nat)) : Int) ≠ 0 := by
      push_cast; omega
    rw [if_neg hne]
    push_cast; ring

/-- Each day window of `column_contiguous` is non-empty and at most one day
long: `1 ≤ i_time_end_idx - i_time_start_idx ≤ num_ticks_per_day`. -/
theorem dayLen_bounds (numTicksPerDay : Int) (timeIdxToDateIdx : List Int)
    (tsi tei : Nat) (k : Nat)
    (hshape : ValidDayShape numTicksPerDay timeIdxToDateIdx tsi tei)
    (hk : k < (timeIdxToDateIdx.getD tei 0 + 1 - timeIdxToDateIdx.getD tsi 0).toNat) :
    1 ≤ iTimeEndOf numTicksPerDay tei
          ((timeIdxToDateIdx.getD tei 0 + 1 - timeIdxToDateIdx.getD tsi 0).toNat) k -
        iTimeStartOf numTicksPerDay tsi k ∧
      iTimeEndOf numTicksPerDay tei
          ((timeIdxToDateIdx.getD tei 0 + 1 - timeIdxToDateIdx.getD tsi 0).toNat) k -
        iTimeStartOf numTicksPerDay tsi k ≤ numTicksPerDay := by
  obtain ⟨hTd, htle, hds, hde⟩ := hshape
  set T := numTicksPerDay.toNat with hT
  have hTpos : 0 < T := by omega
  have hdiv : tsi / T ≤ tei / T := Nat.div_le_div_right htle
  set D := (timeIdxToDateIdx.getD tei 0 + 1 - timeIdxToDateIdx.getD tsi 0).toNat with hD
  have hDval : D = tei / T - tsi / T + 1 := by
    rw [hD, hds, hde]
    omega
  have hms : tsi % T < T := Nat.mod_lt _ hTpos
  have hme : tei % T < T := Nat.mod_lt _ hTpos
  by_cases hlast : k = D - 1
  · subst hlast
    rw [iTimeEndOf_last numTicksPerDay tei D hTd, ← hT]
    by_cases h0 : D - 1 = 0
    · rw [h0, iTimeStartOf, if_pos rfl, intMod_natCast numTicksPerDay hTd tsi,
        ← hT]
      have hq : tsi / T = tei / T := by omega
      have hmm : tsi % T ≤ tei % T := mod_le_mod_of_div_eq htle hq
      omega
    · rw [iTimeStartOf, if_neg h0]
      omega
  · rw [iTimeEndOf_mid numTicksPerDay tei D k hlast]
    by_cases h0 : k = 0
    · rw [h0, iTimeStartOf, if_pos rfl, intMod_natCast numTicksPerDay hTd tsi,
        ← hT]
      omega
    · rw [iTimeStartOf, if_neg h0]
      omega

/-- The `i_time_offset` recurrence: processing day `k` advances the offset by
the day's window length. -/
theorem timeOffset_step (numTicksPerDay : Int) (timeIdxToDateIdx : List Int)
    (tsi tei : Nat) (k : Nat)
    (hshape : ValidDayShape numTicksPerDay timeIdxToDateIdx tsi tei)
    (hk : k + 1 <
      (timeIdxToDateIdx.getD tei 0 + 1 - timeIdxToDateIdx.getD tsi 0).toNat) :
    timeOffsetOf numTicksPerDay tsi (timeIdxToDateIdx.getD tsi 0) (k + 1) =
      timeOffsetOf numTicksPerDay tsi (timeIdxToDateIdx.getD tsi 0) k +
        dayLenOf numTicksPerDay tsi tei
          ((timeIdxToDateIdx.getD tei 0 + 1 - timeIdxToDateIdx.getD tsi 0).toNat)
          k := by
  obtain ⟨hTd, htle, hds, hde⟩ := hshape
  set TdN := numTicksPerDay.toNat with hTdN
  have hTdpos : 0 < TdN := by omega
  have hTdcast : (TdN : Int) = numTicksPerDay := by omega
  set ds := timeIdxToDateIdx.getD tsi 0 with hdsdef
  set de := timeIdxToDateIdx.getD tei 0 with hdedef
  rcases Nat.eq_zero_or_pos k with hk0 | hkpos
  · subst hk0
    have hnotlast : (0 : Nat) ≠ (de + 1 - ds).toNat - 1 := by omega
    have h1 : timeOffsetOf numTicksPerDay tsi ds (0 + 1) =
        (ds + 1) * numTicksPerDay - (tsi : Int) := by
      simp [timeOffsetOf]
    have h3 : dayLenOf numTicksPerDay tsi tei ((de + 1 - ds).toNat) 0 =
        numTicksPerDay - (tsi : Int) % numTicksPerDay := by
      simp [dayLenOf, iTimeEndOf, iTimeStartOf, hnotlast]
    rw [h1, h3, timeOffsetOf]
    simp only [if_true]
    have htsi2 : ((TdN : Int)) * (((tsi / TdN : Nat)) : Int) +
        (((tsi % TdN : Nat)) : Int) = (tsi : Int) := by
      exact_mod_cast Nat.div_add_mod tsi TdN
    rw [hds, ← hTdcast]
    rw [show ((tsi : Int) % ((TdN : Nat) : Int)) = (((tsi % TdN : Nat)) : Int) from
      (Int.natCast_mod tsi TdN).symm]
    linear_combination htsi2
  · have hk0 : k ≠ 0 := by omega
    have hk10 : k + 1 ≠ 0 := by omega
    simp only [timeOffsetOf, dayLenOf, iTimeEndOf, iTimeStartOf, hk0, hk10,
      if_false]
    have hnotlast : ¬ (k = (de + 1 - ds).toNat - 1) := by omega
    simp only [hnotlast, if_false]
    have hne : numTicksPerDay ≠ 0 := by omega
    simp only [if_neg hne]
    push_cast
    ring

/-- The last day's window ends exactly at the end of the requested range:
`i_time_offset(D-1) + window(D-1) = datetime_len`. -/
theorem timeOffset_last_day (numTicksPerDay : Int) (timeIdxToDateIdx : List Int)
    (tsi tei : Nat)
    (hshape : ValidDayShape numTicksPerDay timeIdxToDateIdx tsi tei) :
    timeOffsetOf numTicksPerDay tsi (timeIdxToDateIdx.getD tsi 0)
        (((timeIdxToDateIdx.getD tei 0 + 1 - timeIdxToDateIdx.getD tsi 0).toNat) - 1) +
      dayLenOf numTicksPerDay tsi tei
        ((timeIdxToDateIdx.getD tei 0 + 1 - timeIdxToDateIdx.getD tsi 0).toNat)
        (((timeIdxToDateIdx.getD tei 0 + 1 - timeIdxToDateIdx.getD tsi 0).toNat) - 1) =
      (tei : Int) - (tsi : Int) + 1 := by
  obtain ⟨hTd, htle, hds, hde⟩ := hshape
  set T := numTicksPerDay.toNat with hT
  have hTpos : 0 < T := by omega
  have hTdcast : (T : Int) = numTicksPerDay := by omega
  have hdiv : tsi / T ≤ tei / T := Nat.div_le_div_right htle
  set ds := timeIdxToDateIdx.getD tsi 0 with hdsdef
  set de := timeIdxToDateIdx.getD tei 0 with hdedef
  set D := (de + 1 - ds).toNat with hD
  have hDval : D = tei / T - tsi / T + 1 := by
    rw [hD, hds, hde]; omega
  have hts := Nat.div_add_mod tsi T
  have hte := Nat.div_add_mod tei T
  have hms : tsi % T < T := Nat.mod_lt _ hTpos
  have hme : tei % T < T := Nat.mod_lt _ hTpos
  rw [dayLenOf, iTimeEndOf_last numTicksPerDay tei D hTd, ← hT]
  have htsi2 : ((T : Int)) * (((tsi / T : Nat)) : Int) +
      (((tsi % T : Nat)) : Int) = (tsi : Int) := by exact_mod_cast hts
  have htei2 : ((T : Int)) * (((tei / T : Nat)) : Int) +
      (((tei % T : Nat)) : Int) = (tei : Int) := by exact_mod_cast hte
  by_cases hone : D - 1 = 0
  · have hq : tsi / T = tei / T := by omega
    rw [hone, timeOffsetOf, if_pos rfl, iTimeStartOf, if_pos rfl,
      intMod_natCast numTicksPerDay hTd tsi, ← hT]
    rw [hq] at htsi2
    linear_combination htei2 - htsi2
  · rw [timeOffsetOf, if_neg hone, iTimeStartOf, if_neg hone]
    have hdsq : ds + ((D - 1 : Nat) : Int) = (((tei / T : Nat)) : Int) := by
      rw [hds]
      have : D - 1 = tei / T - tsi / T := by omega
      rw [this]
      push_cast [Nat.cast_sub hdiv]
      ring
    rw [hdsq, ← hTdcast]
    linear_combination htei2

theorem timeOffset_nonneg (numTicksPerDay : Int) (timeIdxToDateIdx : List Int)
    (tsi tei : Nat) (k : Nat)
    (hshape : ValidDayShape numTicksPerDay timeIdxToDateIdx tsi tei)
    (hk : k < (timeIdxToDateIdx.getD tei 0 + 1 - timeIdxToDateIdx.getD tsi 0).toNat) :
    0 ≤ timeOffsetOf numTicksPerDay tsi (timeIdxToDateIdx.getD tsi 0) k := by
  obtain ⟨hTd, htle, hds, hde⟩ := hshape
  set T := numTicksPerDay.toNat with hT
  have hTpos : 0 < T := by omega
  have hTdcast : (T : Int) = numTicksPerDay := by omega
  have hts := Nat.div_add_mod tsi T
  have hms : tsi % T < T := Nat.mod_lt _ hTpos
  rcases Nat.eq_zero_or_pos k with hk0 | hkpos
  · subst hk0; simp [timeOffsetOf]
  · have hk0 : k ≠ 0 := by omega
    rw [timeOffsetOf, if_neg hk0, hds]
    have htsi2 : ((T : Int)) * (((tsi / T : Nat)) : Int) +
        (((tsi % T : Nat)) : Int) = (tsi : Int) := by exact_mod_cast hts
    have h1 : (1 : Int) * (T : Int) ≤ (k : Int) * (T : Int) := by
      apply mul_le_mul_of_nonneg_right _ (by omega)
      exact_mod_cast hkpos
    rw [← hTdcast]
    have hexp : ((((tsi / T : Nat)) : Int) + (k : Int)) * (T : Int) =
        (T : Int) * (((tsi / T : Nat)) : Int) + (k : Int) * (T : Int) := by ring
    rw [hexp]
    have hmsc : (((tsi % T : Nat)) : Int) < (T : Int) := by exact_mod_cast hms
    linarith [htsi2, h1, hmsc]

/-- `i_time_offset` is monotone over the days of a query. -/
theorem timeOffset_mono (numTicksPerDay : Int) (timeIdxToDateIdx : List Int)
    (tsi tei : Nat)
    (hshape : ValidDayShape numTicksPerDay timeIdxToDateIdx tsi tei) :
    ∀ k' k, k ≤ k' →
      k' < (timeIdxToDateIdx.getD tei 0 + 1 - timeIdxToDateIdx.getD tsi 0).toNat →
      timeOffsetOf numTicksPerDay tsi (timeIdxToDateIdx.getD tsi 0) k ≤
        timeOffsetOf numTicksPerDay tsi (timeIdxToDateIdx.getD tsi 0) k' := by
  intro k'
  induction k' with
  | zero => intro k hk _; interval_cases k; exact le_refl _
  | succ m ih =>
    intro k hk hm
    rcases Nat.lt_or_ge k (m + 1) with hlt | hge
    · have hstep := timeOffset_step numTicksPerDay timeIdxToDateIdx tsi tei m
        hshape hm
      have hlen := (dayLen_bounds numTicksPerDay timeIdxToDateIdx tsi tei m
        hshape (by omega)).1
      have := ih k (by omega) (by omega)
      have hlen2 : 1 ≤ dayLenOf numTicksPerDay tsi tei
          ((timeIdxToDateIdx.getD tei 0 + 1 - timeIdxToDateIdx.getD tsi 0).toNat)
          m := hlen
      omega
    · have : k = m + 1 := by omega
      subst this; exact le_refl _

/-- Windows of distinct days occupy disjoint sub-ranges of
`[0, datetime_len)`. -/
theorem timeOffset_chain (numTicksPerDay : Int) (timeIdxToDateIdx : List Int)
    (tsi tei : Nat) (k k' : Nat)
    (hshape : ValidDayShape numTicksPerDay timeIdxToDateIdx tsi tei)
    (hkk : k < k')
    (hk' : k' < (timeIdxToDateIdx.getD tei 0 + 1 - timeIdxToDateIdx.getD tsi 0).toNat) :
    timeOffsetOf numTicksPerDay tsi (timeIdxToDateIdx.getD tsi 0) k +
        dayLenOf numTicksPerDay tsi tei
          ((timeIdxToDateIdx.getD tei 0 + 1 - timeIdxToDateIdx.getD tsi 0).toNat) k ≤
      timeOffsetOf numTicksPerDay tsi (timeIdxToDateIdx.getD tsi 0) k' := by
  have hstep := timeOffset_step numTicksPerDay timeIdxToDateIdx tsi tei k
    hshape (by omega)
  have hmono := timeOffset_mono numTicksPerDay timeIdxToDateIdx tsi tei
    hshape k' (k + 1) (by omega) hk'
  omega

/-- Every day window fits inside `[0, datetime_len)`:
`i_time_offset(k) + window(k) ≤ tei - tsi + 1`. -/
theorem timeOffset_bound (numTicksPerDay : Int) (timeIdxToDateIdx : List Int)
    (tsi tei : Nat) (k : Nat)
    (hshape : ValidDayShape numTicksPerDay timeIdxToDateIdx tsi tei)
    (hk : k < (timeIdxToDateIdx.getD tei 0 + 1 - timeIdxToDateIdx.getD tsi 0).toNat) :
    timeOffsetOf numTicksPerDay tsi (timeIdxToDateIdx.getD tsi 0) k +
        dayLenOf numTicksPerDay tsi tei
          ((timeIdxToDateIdx.getD tei 0 + 1 - timeIdxToDateIdx.getD tsi 0).toNat) k ≤
      (tei : Int) - (tsi : Int) + 1 := by
  have hlast := timeOffset_last_day numTicksPerDay timeIdxToDateIdx tsi tei hshape
  by_cases hl : k = (timeIdxToDateIdx.getD tei 0 + 1 -
      timeIdxToDateIdx.getD tsi 0).toNat - 1
  · rw [hl]; omega
  · have hchain := timeOffset_chain numTicksPerDay timeIdxToDateIdx tsi tei k
      ((timeIdxToDateIdx.getD tei 0 + 1 - timeIdxToDateIdx.getD tsi 0).toNat - 1)
      hshape (by omega) (by omega)
    have hlen := (dayLen_bounds numTicksPerDay timeIdxToDateIdx tsi tei
      ((timeIdxToDateIdx.getD tei 0 + 1 - timeIdxToDateIdx.getD tsi 0).toNat - 1)
      hshape (by omega)).1
    have hlen2 : 1 ≤ dayLenOf numTicksPerDay tsi tei
        ((timeIdxToDateIdx.getD tei 0 + 1 - timeIdxToDateIdx.getD tsi 0).toNat)
        ((timeIdxToDateIdx.getD tei 0 + 1 - timeIdxToDateIdx.getD tsi 0).toNat - 1) :=
      hlen
    omega

/-- C10: every `FetcherArgs` record that `column_contiguous` or
`async_column_contiguous` passes to a fetcher (both planners invoke `fetch` /
`batch_fetch` exactly on the `.task` items of `columnItems`) is internally
consistent: `data_len = end_idx - start_idx = time_end_idx - time_start_idx`
and `1 ≤ data_len ≤ num_ticks_per_day`. -/
theorem fetcher_args_consistent {α : Type} [LinearOrder α] [Inhabited α]
    (c : Option Nat) (datetimeLen : Int) (columns : List α)
    (numTicksPerDay : Int) (timeIdxToDateIdx dateColumnsOffset : List Int)
    (columnsGetter : Int → Int → List α) (multiplier : Option Int)
    (offsets : Option Offsets) (tsi tei : Nat)
    (hshape : ValidDayShape numTicksPerDay timeIdxToDateIdx tsi tei) :
    ∀ args fStart,
      PlanItem.task args fStart ∈ columnItems c datetimeLen columns
        numTicksPerDay timeIdxToDateIdx dateColumnsOffset columnsGetter
        multiplier offsets tsi tei →
      args.data_len = args.end_idx - args.start_idx ∧
      args.data_len = args.time_end_idx - args.time_start_idx ∧
      1 ≤ args.data_len ∧ args.data_len ≤ numTicksPerDay := by
  intro args fStart hmem
  rw [columnItems_closed c datetimeLen columns numTicksPerDay timeIdxToDateIdx
    dateColumnsOffset columnsGetter multiplier offsets tsi tei hshape] at hmem
  rw [List.mem_flatMap] at hmem
  obtain ⟨k, hk, hmem⟩ := hmem
  rw [List.mem_range'] at hk
  simp only [columnDayItems, List.mem_map] at hmem
  obtain ⟨js, _, hitem⟩ := hmem
  have hbounds := dayLen_bounds numTicksPerDay timeIdxToDateIdx tsi tei k
    hshape (by omega)
  set dc := columnsGetter
    (dateColumnsOffset.getD (timeIdxToDateIdx.getD tsi 0 + (k : Int)).toNat 0)
    (dateColumnsOffset.getD (timeIdxToDateIdx.getD tsi 0 + (k : Int) + 1).toNat 0)
    with hdc
  by_cases hpres : dc.getD (if dc.length ≤ searchsorted dc js.2 then 0
      else searchsorted dc js.2) default = js.2
  · rw [if_pos hpres] at hitem
    rw [PlanItem.task.injEq] at hitem
    obtain ⟨ha, _⟩ := hitem
    subst ha
    exact ⟨by dsimp only; ring, by dsimp only; ring, hbounds.1, hbounds.2⟩
  · rw [if_neg hpres] at hitem
    simp at hitem

/-! ## C6: disjointness of output writes -/

theorem columnDayItems_length {α : Type} [LinearOrder α] [Inhabited α]
    (c : Option Nat) (datetimeLen : Int) (columns : List α)
    (numTicksPerDay : Int) (multiplier : Option Int) (columnOffset : Int)
    (totalMultiplier : Option Int) (startIdx : Int) (tsi tei : Nat)
    (numDays : Nat) (dateIdx : Int) (i : Nat) (dateColumns : List α)
    (columnsOffset iTimeOffset : Int) :
    (columnDayItems c datetimeLen columns numTicksPerDay multiplier
      columnOffset totalMultiplier startIdx tsi tei numDays dateIdx i
      dateColumns columnsOffset iTimeOffset).length = columns.length := by
  simp [columnDayItems]

/-- In the plain case (`multiplier = None`, `offsets = None`) the write for
the `(day k, requested column j)` pair covers exactly the contiguous range
`[j·datetime_len + i_time_offset, j·datetime_len + i_time_offset + window_k)`
— the same range in both the fetch and the NaN branch. -/
theorem columnDayItems_getD_footprint {α : Type} [LinearOrder α] [Inhabited α]
    (c : Option Nat) (datetimeLen : Int) (columns : List α)
    (numTicksPerDay : Int) (startIdx : Int) (tsi tei : Nat) (numDays : Nat)
    (dateIdx : Int) (k : Nat) (dateColumns : List α)
    (columnsOffset iTimeOffset : Int) (j : Nat) (hj : j < columns.length) :
    itemFootprint none none
        ((columnDayItems c datetimeLen columns numTicksPerDay none 0 none
          startIdx tsi tei numDays dateIdx k dateColumns columnsOffset
          iTimeOffset).getD j (PlanItem.nanFill 0 0)) =
      List.range' (((j : Int) * datetimeLen + iTimeOffset).toNat)
        ((dayLenOf numTicksPerDay tsi tei numDays k).toNat) := by
  have hlen : (columnDayItems c datetimeLen columns numTicksPerDay none 0 none
      startIdx tsi tei numDays dateIdx k dateColumns columnsOffset
      iTimeOffset).length = columns.length :=
    columnDayItems_length _ _ _ _ _ _ _ _ _ _ _ _ _ _ _ _
  rw [List.getD_eq_getElem _ _ (by omega)]
  simp only [columnDayItems, List.getElem_map, List.getElem_enum]
  split <;> split <;>
    simp [itemFootprint, writeFootprint, dayLenOf, mul_one, add_zero]

theorem flatMap_blocks_length {β : Type} (g : Nat → List β) (n : Nat)
    (hg : ∀ k, (g k).length = n) :
    ∀ (D s : Nat), ((List.range' s D).flatMap g).length = D * n := by
  intro D
  induction D with
  | zero => intro s; simp
  | succ D ih =>
    intro s
    rw [List.range'_succ, List.flatMap_cons, List.length_append, hg, ih (s + 1)]
    ring

theorem flatMap_blocks_getD {β : Type} (dflt : β) (g : Nat → List β) (n : Nat)
    (hn : 0 < n) (hg : ∀ k, (g k).length = n) :
    ∀ (D s i : Nat), i < D * n →
      ((List.range' s D).flatMap g).getD i dflt =
        (g (s + i / n)).getD (i % n) dflt := by
  intro D
  induction D with
  | zero => intro s i h; omega
  | succ D ih =>
    intro s i h
    have hexpand : (D + 1) * n = D * n + n := by ring
    rw [List.range'_succ, List.flatMap_cons]
    rcases Nat.lt_or_ge i n with hlt | hge
    · rw [List.getD_append _ _ _ _ (by rw [hg]; omega)]
      rw [Nat.div_eq_of_lt hlt, Nat.mod_eq_of_lt hlt, Nat.add_zero]
    · rw [List.getD_append_right _ _ _ _ (by rw [hg]; omega), hg]
      rw [ih (s + 1) (i - n) (by omega)]
      have h1 : (i - n) / n + 1 = i / n := by
        rw [← Nat.add_div_right _ hn]
        congr 1
        omega
      have h2 : (i - n) % n = i % n := by
        conv_rhs => rw [show i = (i - n) + n by omega]
        rw [Nat.add_mod_right]
      rw [h1.symm, h2]
      congr 2
      omega

/-- Two write footprints of the plain column planner are disjoint whenever
they belong to distinct `(day, requested column)` pairs. -/
theorem cf_footprint_disjoint (datetimeLen : Int) (offf lenf : Nat → Int)
    (D n : Nat)
    (hoff0 : ∀ k, k < D → 0 ≤ offf k)
    (hlen1 : ∀ k, k < D → 1 ≤ lenf k)
    (hchain : ∀ k k', k < k' → k' < D → offf k + lenf k ≤ offf k')
    (hbound : ∀ k, k < D → offf k + lenf k ≤ datetimeLen)
    (k j k' j' : Nat) (hk : k < D) (hk' : k' < D) (hj : j < n) (hj' : j' < n)
    (hne : ¬ (k = k' ∧ j = j')) :
    ∀ p, p ∈ List.range' (((j : Int) * datetimeLen + offf k).toNat)
        ((lenf k).toNat) →
      p ∉ List.range' (((j' : Int) * datetimeLen + offf k').toNat)
        ((lenf k').toNat) := by
  intro p hp hp'
  rw [List.mem_range'] at hp hp'
  have hb := hbound k hk
  have hb' := hbound k' hk'
  have ho := hoff0 k hk
  have ho' := hoff0 k' hk'
  have hl := hlen1 k hk
  have hl' := hlen1 k' hk'
  have hdl : 1 ≤ datetimeLen := by omega
  -- helper: j < j2 → (j+1) * dlen ≤ j2 * dlen
  have hmul : ∀ (a b : Nat), a < b →
      ((a : Int) + 1) * datetimeLen ≤ (b : Int) * datetimeLen := by
    intro a b hab
    apply mul_le_mul_of_nonneg_right _ (by omega)
    exact_mod_cast Nat.succ_le_of_lt hab
  rcases Nat.lt_trichotomy j j' with hjj | hjj | hjj
  · have := hmul j j' hjj
    have hexp : ((j : Int) + 1) * datetimeLen =
        (j : Int) * datetimeLen + datetimeLen := by ring
    have hnn : (0 : Int) ≤ (j : Int) * datetimeLen := by positivity
    omega
  · subst hjj
    have hnn : (0 : Int) ≤ (j : Int) * datetimeLen := by positivity
    rcases Nat.lt_trichotomy k k' with hkk | hkk | hkk
    · have := hchain k k' hkk hk'
      omega
    · exact hne ⟨hkk, rfl⟩
    · have := hchain k' k hkk hk
      omega
  · have := hmul j' j hjj
    have hexp : ((j' : Int) + 1) * datetimeLen =
        (j' : Int) * datetimeLen + datetimeLen := by ring
    have hnn : (0 : Int) ≤ (j' : Int) * datetimeLen := by positivity
    omega

/-- `columnItems_closed` specialised to the plain batch call
(`multiplier = None`, `offsets = None`), with the per-day arguments
written out literally. -/
theorem columnItems_closed_plain {α : Type} [LinearOrder α] [Inhabited α]
    (c : Option Nat) (datetimeLen : Int) (columns : List α)
    (numTicksPerDay : Int) (timeIdxToDateIdx dateColumnsOffset : List Int)
    (columnsGetter : Int → Int → List α) (tsi tei : Nat)
    (hshape : ValidDayShape numTicksPerDay timeIdxToDateIdx tsi tei) :
    columnItems c datetimeLen columns numTicksPerDay timeIdxToDateIdx
        dateColumnsOffset columnsGetter none none tsi tei =
      (List.range'
        0 ((timeIdxToDateIdx.getD tei 0 + 1 - timeIdxToDateIdx.getD tsi 0).toNat)).flatMap
        (fun k =>
          columnDayItems c datetimeLen columns numTicksPerDay none 0 none
            (dateColumnsOffset.getD (timeIdxToDateIdx.getD tsi 0).toNat 0 *
              numTicksPerDay)
            tsi tei
            ((timeIdxToDateIdx.getD tei 0 + 1 - timeIdxToDateIdx.getD tsi 0).toNat)
            (timeIdxToDateIdx.getD tsi 0 + (k : Int)) k
            (columnsGetter
              (dateColumnsOffset.getD (timeIdxToDateIdx.getD tsi 0 + (k : Int)).toNat 0)
              (dateColumnsOffset.getD (timeIdxToDateIdx.getD tsi 0 + (k : Int) + 1).toNat 0))
            (columnsOffsetOf (fun k' =>
              columnsGetter
                (dateColumnsOffset.getD (timeIdxToDateIdx.getD tsi 0 + (k' : Int)).toNat 0)
                (dateColumnsOffset.getD
                  (timeIdxToDateIdx.getD tsi 0 + (k' : Int) + 1).toNat 0)) k)
            (timeOffsetOf numTicksPerDay tsi (timeIdxToDateIdx.getD tsi 0) k)) :=
  columnItems_closed c datetimeLen columns numTicksPerDay timeIdxToDateIdx
    dateColumnsOffset columnsGetter none none tsi tei hshape

/-- Uniform day blocks with closed-form footprints are pairwise disjoint
across distinct positions of the concatenated plan. -/
theorem flatMap_blocks_pairwise_disjoint (datetimeLen : Int)
    (g : Nat → List PlanItem) (n D : Nat) (offf lenf : Nat → Int)
    (hg : ∀ k, (g k).length = n)
    (hfp : ∀ k j, j < n →
      itemFootprint none none ((g k).getD j (PlanItem.nanFill 0 0)) =
        List.range' (((j : Int) * datetimeLen + offf k).toNat) ((lenf k).toNat))
    (hoff0 : ∀ k, k < D → 0 ≤ offf k)
    (hlen1 : ∀ k, k < D → 1 ≤ lenf k)
    (hchain : ∀ k k', k < k' → k' < D → offf k + lenf k ≤ offf k')
    (hbound : ∀ k, k < D → offf k + lenf k ≤ datetimeLen) :
    List.Pairwise (fun it1 it2 => ∀ p, p ∈ itemFootprint none none it1 →
      p ∉ itemFootprint none none it2) ((List.range' 0 D).flatMap g) := by
  have hL := flatMap_blocks_length g n hg D 0
  rcases Nat.eq_zero_or_pos n with hn0 | hnpos
  · rw [List.pairwise_iff_getElem]
    intro i1 i2 hi1 hi2 hlt
    exfalso
    rw [hL, hn0, Nat.mul_zero] at hi2
    omega
  · rw [List.pairwise_iff_getElem]
    intro i1 i2 hi1 hi2 hlt
    have hi2' : i2 < D * n := by rw [hL] at hi2; exact hi2
    have hi1' : i1 < D * n := by omega
    have hg1 := flatMap_blocks_getD (PlanItem.nanFill 0 0) g n hnpos hg D 0 i1 hi1'
    have hg2 := flatMap_blocks_getD (PlanItem.nanFill 0 0) g n hnpos hg D 0 i2 hi2'
    rw [List.getD_eq_getElem _ _ hi1] at hg1
    rw [List.getD_eq_getElem _ _ hi2] at hg2
    rw [hg1, hg2, Nat.zero_add, Nat.zero_add]
    have hd1 := Nat.div_add_mod i1 n
    have hd2 := Nat.div_add_mod i2 n
    have hm1 : i1 % n < n := Nat.mod_lt _ hnpos
    have hm2 : i2 % n < n := Nat.mod_lt _ hnpos
    have hk1 : i1 / n < D := by
      by_contra hcon
      have h1 : D * n ≤ (i1 / n) * n := Nat.mul_le_mul_right _ (by omega)
      have h2 : (i1 / n) * n = n * (i1 / n) := by ring
      omega
    have hk2 : i2 / n < D := by
      by_contra hcon
      have h1 : D * n ≤ (i2 / n) * n := Nat.mul_le_mul_right _ (by omega)
      have h2 : (i2 / n) * n = n * (i2 / n) := by ring
      omega
    intro p hp hp'
    rw [hfp (i1 / n) (i1 % n) hm1] at hp
    rw [hfp (i2 / n) (i2 % n) hm2] at hp'
    refine cf_footprint_disjoint datetimeLen offf lenf D n hoff0 hlen1 hchain
      hbound (i1 / n) (i1 % n) (i2 / n) (i2 % n) hk1 hk2 hm1 hm2 ?_ p hp hp'
    intro hcon
    obtain ⟨hdiv, hmod⟩ := hcon
    have : n * (i1 / n) = n * (i2 / n) := by rw [hdiv]
    omega

/-- Indexed closed form of a plain plan item's write footprint: the item at
position `i` belongs to day `i / n` and requested column `i % n`, and writes
the contiguous range starting at `(i % n)·datetime_len + i_time_offset` of the
day window's length. -/
theorem columnItems_getD_closed_footprint {α : Type} [LinearOrder α]
    [Inhabited α] (cc : Option Nat) (datetimeLen : Int) (columns : List α)
    (numTicksPerDay : Int) (timeIdxToDateIdx dateColumnsOffset : List Int)
    (columnsGetter : Int → Int → List α) (tsi tei : Nat)
    (hshape : ValidDayShape numTicksPerDay timeIdxToDateIdx tsi tei) (i : Nat)
    (hi : i < (columnItems cc datetimeLen columns numTicksPerDay
      timeIdxToDateIdx dateColumnsOffset columnsGetter none none tsi tei).length) :
    0 < columns.length ∧
    (columnItems cc datetimeLen columns numTicksPerDay timeIdxToDateIdx
        dateColumnsOffset columnsGetter none none tsi tei).length =
      ((timeIdxToDateIdx.getD tei 0 + 1 -
        timeIdxToDateIdx.getD tsi 0).toNat) * columns.length ∧
    i / columns.length <
      (timeIdxToDateIdx.getD tei 0 + 1 - timeIdxToDateIdx.getD tsi 0).toNat ∧
    itemFootprint none none
      ((columnItems cc datetimeLen columns numTicksPerDay timeIdxToDateIdx
        dateColumnsOffset columnsGetter none none tsi tei).getD i
        (PlanItem.nanFill 0 0)) =
      List.range' ((((i % columns.length : Nat) : Int) * datetimeLen +
          timeOffsetOf numTicksPerDay tsi (timeIdxToDateIdx.getD tsi 0)
            (i / columns.length)).toNat)
        ((dayLenOf numTicksPerDay tsi tei
          ((timeIdxToDateIdx.getD tei 0 + 1 -
            timeIdxToDateIdx.getD tsi 0).toNat) (i / columns.length)).toNat) := by
  have hcl := columnItems_closed_plain cc datetimeLen columns numTicksPerDay
    timeIdxToDateIdx dateColumnsOffset columnsGetter tsi tei hshape
  have hlenall : ∀ (k : Nat), (columnDayItems cc datetimeLen columns
      numTicksPerDay none 0 none
      (dateColumnsOffset.getD (timeIdxToDateIdx.getD tsi 0).toNat 0 *
        numTicksPerDay)
      tsi tei
      ((timeIdxToDateIdx.getD tei 0 + 1 - timeIdxToDateIdx.getD tsi 0).toNat)
      (timeIdxToDateIdx.getD tsi 0 + (k : Int)) k
      (columnsGetter
        (dateColumnsOffset.getD (timeIdxToDateIdx.getD tsi 0 + (k : Int)).toNat 0)
        (dateColumnsOffset.getD
          (timeIdxToDateIdx.getD tsi 0 + (k : Int) + 1).toNat 0))
      (columnsOffsetOf (fun k' =>
        columnsGetter
          (dateColumnsOffset.getD (timeIdxToDateIdx.getD tsi 0 + (k' : Int)).toNat 0)
          (dateColumnsOffset.getD
            (timeIdxToDateIdx.getD tsi 0 + (k' : Int) + 1).toNat 0)) k)
      (timeOffsetOf numTicksPerDay tsi (timeIdxToDateIdx.getD tsi 0) k)).length
      = columns.length :=
    fun k => columnDayItems_length _ _ _ _ _ _ _ _ _ _ _ _ _ _ _ _
  have hLtot : (columnItems cc datetimeLen columns numTicksPerDay
      timeIdxToDateIdx dateColumnsOffset columnsGetter none none tsi tei).length =
      ((timeIdxToDateIdx.getD tei 0 + 1 -
        timeIdxToDateIdx.getD tsi 0).toNat) * columns.length := by
    rw [hcl]
    exact flatMap_blocks_length _ columns.length hlenall _ 0
  have hnpos : 0 < columns.length := by
    rcases Nat.eq_zero_or_pos columns.length with h0 | h
    · rw [hLtot, h0, Nat.mul_zero] at hi
      omega
    · exact h
  have hi' : i < ((timeIdxToDateIdx.getD tei 0 + 1 -
      timeIdxToDateIdx.getD tsi 0).toNat) * columns.length := by
    rw [← hLtot]
    exact hi
  have hk : i / columns.length <
      (timeIdxToDateIdx.getD tei 0 + 1 - timeIdxToDateIdx.getD tsi 0).toNat := by
    by_contra hcon
    have h1 : ((timeIdxToDateIdx.getD tei 0 + 1 -
        timeIdxToDateIdx.getD tsi 0).toNat) * columns.length ≤
        (i / columns.length) * columns.length :=
      Nat.mul_le_mul_right _ (by omega)
    have h2 : (i / columns.length) * columns.length =
        columns.length * (i / columns.length) := by ring
    have h3 := Nat.div_add_mod i columns.length
    have h4 : i % columns.length < columns.length := Nat.mod_lt _ hnpos
    omega
  refine ⟨hnpos, hLtot, hk, ?_⟩
  rw [hcl, flatMap_blocks_getD (PlanItem.nanFill 0 0) _ columns.length hnpos
    hlenall _ 0 i hi', Nat.zero_add]
  exact columnDayItems_getD_footprint cc datetimeLen columns numTicksPerDay _
    tsi tei _ _ (i / columns.length) _ _ _ (i % columns.length)
    (Nat.mod_lt _ hnpos)

/-- Every write of the plain plan lands inside
`[0, datetime_len · |columns|)` — the `num_data_per_task` range of the task. -/
theorem columnItems_footprint_bound {α : Type} [LinearOrder α] [Inhabited α]
    (cc : Option Nat) (datetimeLen : Int) (columns : List α)
    (numTicksPerDay : Int) (timeIdxToDateIdx dateColumnsOffset : List Int)
    (columnsGetter : Int → Int → List α) (tsi tei : Nat)
    (hshape : ValidDayShape numTicksPerDay timeIdxToDateIdx tsi tei)
    (htei : (tei : Int) - (tsi : Int) + 1 ≤ datetimeLen) :
    ∀ item ∈ columnItems cc datetimeLen columns numTicksPerDay timeIdxToDateIdx
        dateColumnsOffset columnsGetter none none tsi tei,
      ∀ p ∈ itemFootprint none none item,
        p < datetimeLen.toNat * columns.length := by
  intro item hitem p hp
  obtain ⟨i, hi, hieq⟩ := List.mem_iff_getElem.mp hitem
  obtain ⟨hnpos, hLtot, hk, hfp⟩ := columnItems_getD_closed_footprint cc
    datetimeLen columns numTicksPerDay timeIdxToDateIdx dateColumnsOffset
    columnsGetter tsi tei hshape i hi
  rw [List.getD_eq_getElem _ _ hi, hieq] at hfp
  rw [hfp, List.mem_range'] at hp
  obtain ⟨i1, hi1lt, hpeq⟩ := hp
  have hj : i % columns.length < columns.length := Nat.mod_lt _ hnpos
  have hoff := timeOffset_nonneg numTicksPerDay timeIdxToDateIdx tsi tei
    (i / columns.length) hshape hk
  have hbnd := timeOffset_bound numTicksPerDay timeIdxToDateIdx tsi tei
    (i / columns.length) hshape hk
  have hlen1 : 1 ≤ dayLenOf numTicksPerDay tsi tei
      ((timeIdxToDateIdx.getD tei 0 + 1 - timeIdxToDateIdx.getD tsi 0).toNat)
      (i / columns.length) :=
    (dayLen_bounds numTicksPerDay timeIdxToDateIdx tsi tei (i / columns.length)
      hshape hk).1
  have hdl : 1 ≤ datetimeLen := by
    have h := hshape.2.1
    omega
  have hjm : (((i % columns.length : Nat) : Int) + 1) * datetimeLen ≤
      ((columns.length : Nat) : Int) * datetimeLen := by
    apply mul_le_mul_of_nonneg_right _ (by omega)
    exact_mod_cast Nat.succ_le_of_lt hj
  have hnn : (0 : Int) ≤ ((i % columns.length : Nat) : Int) * datetimeLen :=
    mul_nonneg (by positivity) (by omega)
  have hexp : (((i % columns.length : Nat) : Int) + 1) * datetimeLen =
      ((i % columns.length : Nat) : Int) * datetimeLen + datetimeLen := by ring
  have hcast : ((columns.length : Nat) : Int) * datetimeLen =
      ((datetimeLen.toNat * columns.length : Nat) : Int) := by
    push_cast
    rw [Int.toNat_of_nonneg (by omega)]
    ring
  have htn : ((((i % columns.length : Nat) : Int) * datetimeLen +
      timeOffsetOf numTicksPerDay tsi (timeIdxToDateIdx.getD tsi 0)
        (i / columns.length)).toNat : Int) =
      ((i % columns.length : Nat) : Int) * datetimeLen +
        timeOffsetOf numTicksPerDay tsi (timeIdxToDateIdx.getD tsi 0)
          (i / columns.length) :=
    Int.toNat_of_nonneg (by omega)
  have hlenc : (((dayLenOf numTicksPerDay tsi tei
      ((timeIdxToDateIdx.getD tei 0 + 1 -
        timeIdxToDateIdx.getD tsi 0).toNat) (i / columns.length)).toNat : Nat)
        : Int) =
      dayLenOf numTicksPerDay tsi tei
        ((timeIdxToDateIdx.getD tei 0 + 1 -
          timeIdxToDateIdx.getD tsi 0).toNat) (i / columns.length) :=
    Int.toNat_of_nonneg (by omega)
  omega

/-- An actual write interval (`itemSpan`) is contained in the planned
footprint, under the fetcher length contract. -/
theorem span_cover_footprint {V : Type}
    (fetch : FetcherArgs → Except MemError (List V)) (it : PlanItem)
    (hok : taskLenOk fetch it = true) (q : Nat)
    (h1 : (itemSpan fetch it).1 ≤ q)
    (h2 : q < (itemSpan fetch it).1 + (itemSpan fetch it).2) :
    q ∈ itemFootprint none none it := by
  cases it with
  | nanFill fS n =>
    simp only [itemSpan] at h1 h2
    simp only [itemFootprint, writeFootprint, List.mem_range']
    exact ⟨q - fS, by omega, by omega⟩
  | task args fS =>
    cases hfet : fetch args with
    | error e =>
      simp only [itemSpan, hfet] at h1 h2
      exfalso
      omega
    | ok d =>
      simp only [itemSpan, hfet] at h1 h2
      have hdlen : d.length = args.data_len.toNat := by
        simpa [taskLenOk, hfet] using hok
      simp only [itemFootprint, writeFootprint, Option.getD_none, mul_one,
        List.mem_range']
      exact ⟨q - fS, by omega, by omega⟩

/-- Under the fetcher length contract, the write interval of any plain plan
item stays inside `[0, datetime_len · |columns|)`. -/
theorem columnItems_span_bound {α V : Type} [LinearOrder α] [Inhabited α]
    (cc : Option Nat) (datetimeLen : Int) (columns : List α)
    (numTicksPerDay : Int) (timeIdxToDateIdx dateColumnsOffset : List Int)
    (columnsGetter : Int → Int → List α) (tsi tei : Nat)
    (fetch : FetcherArgs → Except MemError (List V))
    (hshape : ValidDayShape numTicksPerDay timeIdxToDateIdx tsi tei)
    (htei : (tei : Int) - (tsi : Int) + 1 ≤ datetimeLen)
    (hfl : ∀ it ∈ columnItems cc datetimeLen columns numTicksPerDay
      timeIdxToDateIdx dateColumnsOffset columnsGetter none none tsi tei,
      taskLenOk fetch it = true) :
    ∀ it ∈ columnItems cc datetimeLen columns numTicksPerDay timeIdxToDateIdx
        dateColumnsOffset columnsGetter none none tsi tei,
      (itemSpan fetch it).1 + (itemSpan fetch it).2 ≤
        datetimeLen.toNat * columns.length := by
  intro it hit
  obtain ⟨i, hi, hieq⟩ := List.mem_iff_getElem.mp hit
  obtain ⟨hnpos, hLtot, hk, hfp⟩ := columnItems_getD_closed_footprint cc
    datetimeLen columns numTicksPerDay timeIdxToDateIdx dateColumnsOffset
    columnsGetter tsi tei hshape i hi
  rw [List.getD_eq_getElem _ _ hi, hieq] at hfp
  have hbnd := columnItems_footprint_bound cc datetimeLen columns
    numTicksPerDay timeIdxToDateIdx dateColumnsOffset columnsGetter tsi tei
    hshape htei it hit
  have hlen1 : 1 ≤ dayLenOf numTicksPerDay tsi tei
      ((timeIdxToDateIdx.getD tei 0 + 1 - timeIdxToDateIdx.getD tsi 0).toNat)
      (i / columns.length) :=
    (dayLen_bounds numTicksPerDay timeIdxToDateIdx tsi tei (i / columns.length)
      hshape hk).1
  have hBpos : 1 ≤ (dayLenOf numTicksPerDay tsi tei
      ((timeIdxToDateIdx.getD tei 0 + 1 - timeIdxToDateIdx.getD tsi 0).toNat)
      (i / columns.length)).toNat := by omega
  have hflen := congrArg List.length hfp
  rw [List.length_range'] at hflen
  cases it with
  | nanFill fS n =>
    have hn : n = (dayLenOf numTicksPerDay tsi tei
        ((timeIdxToDateIdx.getD tei 0 + 1 -
          timeIdxToDateIdx.getD tsi 0).toNat) (i / columns.length)).toNat := by
      simpa [itemFootprint, writeFootprint, List.length_range'] using hflen
    have hmem : fS + n - 1 ∈ itemFootprint none none (PlanItem.nanFill fS n) := by
      simp only [itemFootprint, writeFootprint, List.mem_range']
      exact ⟨n - 1, by omega, by omega⟩
    have := hbnd _ hmem
    simp only [itemSpan]
    omega
  | task args fS =>
    have hok := hfl _ hit
    have hflen' : (args.data_len * (1 : Int)).toNat =
        (dayLenOf numTicksPerDay tsi tei
          ((timeIdxToDateIdx.getD tei 0 + 1 -
            timeIdxToDateIdx.getD tsi 0).toNat) (i / columns.length)).toNat := by
      simpa [itemFootprint, writeFootprint, List.length_range'] using hflen
    rw [mul_one] at hflen'
    have hmem : fS + args.data_len.toNat - 1 ∈
        itemFootprint none none (PlanItem.task args fS) := by
      simp only [itemFootprint, writeFootprint, Option.getD_none, mul_one,
        List.mem_range']
      exact ⟨args.data_len.toNat - 1, by omega, by omega⟩
    have hub := hbnd _ hmem
    cases hfet : fetch args with
    | error e =>
      have hmem0 : fS ∈ itemFootprint none none (PlanItem.task args fS) := by
        simp only [itemFootprint, writeFootprint, Option.getD_none, mul_one,
          List.mem_range']
        exact ⟨0, by omega, by omega⟩
      have := hbnd _ hmem0
      simp only [itemSpan, hfet]
      omega
    | ok d =>
      have hdlen : d.length = args.data_len.toNat := by
        simpa [taskLenOk, hfet] using hok
      simp only [itemSpan, hfet]
      omega

/-- Within one plain `column_contiguous` call the planned footprints of
distinct `(day, requested column)` pairs are pairwise disjoint. -/
theorem columnItems_pairwise_disjoint {α : Type} [LinearOrder α] [Inhabited α]
    (cc : Option Nat) (datetimeLen : Int) (columns : List α)
    (numTicksPerDay : Int) (timeIdxToDateIdx dateColumnsOffset : List Int)
    (columnsGetter : Int → Int → List α) (tsi tei : Nat)
    (hshape : ValidDayShape numTicksPerDay timeIdxToDateIdx tsi tei)
    (htei : (tei : Int) - (tsi : Int) + 1 ≤ datetimeLen) :
    List.Pairwise (fun it1 it2 => ∀ p, p ∈ itemFootprint none none it1 →
        p ∉ itemFootprint none none it2)
      (columnItems cc datetimeLen columns numTicksPerDay timeIdxToDateIdx
        dateColumnsOffset columnsGetter none none tsi tei) := by
  rw [columnItems_closed_plain cc datetimeLen columns numTicksPerDay
    timeIdxToDateIdx dateColumnsOffset columnsGetter tsi tei hshape]
  refine flatMap_blocks_pairwise_disjoint datetimeLen _ columns.length _
    (timeOffsetOf numTicksPerDay tsi (timeIdxToDateIdx.getD tsi 0))
    (dayLenOf numTicksPerDay tsi tei
      ((timeIdxToDateIdx.getD tei 0 + 1 - timeIdxToDateIdx.getD tsi 0).toNat))
    (fun k => columnDayItems_length _ _ _ _ _ _ _ _ _ _ _ _ _ _ _ _)
    (fun k j hj => columnDayItems_getD_footprint cc datetimeLen columns
      numTicksPerDay _ tsi tei _ _ k _ _ _ j hj)
    (fun k hk => timeOffset_nonneg numTicksPerDay timeIdxToDateIdx tsi tei
      k hshape hk)
    (fun k hk => (dayLen_bounds numTicksPerDay timeIdxToDateIdx tsi tei k
      hshape hk).1)
    (fun k k2 hkk hk2 => timeOffset_chain numTicksPerDay timeIdxToDateIdx
      tsi tei k k2 hshape hkk hk2)
    (fun k hk => le_trans (timeOffset_bound numTicksPerDay timeIdxToDateIdx
      tsi tei k hshape hk) htei)

theorem taskIndex_ne (b c b' c' nc : Nat) (hc : c < nc) (hc' : c' < nc)
    (hne : ¬ (b = b' ∧ c = c')) : b * nc + c ≠ b' * nc + c' := by
  rcases Nat.lt_trichotomy b b' with hbb | hbb | hbb
  · have h1 : (b + 1) * nc ≤ b' * nc := Nat.mul_le_mul_right nc (by omega)
    have h2 : (b + 1) * nc = b * nc + nc := by ring
    omega
  · subst hbb
    omega
  · have h1 : (b' + 1) * nc ≤ b * nc := Nat.mul_le_mul_right nc (by omega)
    have h2 : (b' + 1) * nc = b' * nc + nc := by ring
    omega

/-- C6: the write discipline of `shm_batch_column_contiguous`.
(1) The planner hands task `(b, c)` the output sub-range
`[(b·nc + c)·num_data_per_task, (b·nc + c + 1)·num_data_per_task)`, and these
ranges are pairwise disjoint for distinct tasks; each task can only write
inside its own sub-slice (`UnsafeSlice::slice` bounds every index against it,
and by (2) every planned write indeed fits).
(2) Within a task, every planned write of `column_contiguous` lands inside
`[0, num_data_per_task)`.
(3) Within one `column_contiguous` call, the writes for distinct
`(day, requested column)` pairs never overlap. -/
theorem shm_batch_column_contiguous_disjoint {α : Type} [LinearOrder α]
    [Inhabited α] (datetimeLen : Int) (numTicksPerDay : Int)
    (nc numDataPerTask numColumns : Nat)
    (hndpt : numDataPerTask = datetimeLen.toNat * numColumns) :
    (∀ b c b' c' : Nat, c < nc → c' < nc → ¬ (b = b' ∧ c = c') →
      ∀ p : Nat, (b * nc + c) * numDataPerTask ≤ p →
        p < (b * nc + c + 1) * numDataPerTask →
        ¬ ((b' * nc + c') * numDataPerTask ≤ p ∧
          p < (b' * nc + c' + 1) * numDataPerTask))
    ∧ (∀ (cc : Option Nat) (colsB : List α)
        (timeIdxToDateIdx dateColumnsOffset : List Int)
        (columnsGetter : Int → Int → List α) (tsi tei : Nat),
      ValidDayShape numTicksPerDay timeIdxToDateIdx tsi tei →
      colsB.length = numColumns →
      (tei : Int) - (tsi : Int) + 1 ≤ datetimeLen →
      ∀ item ∈ columnItems cc datetimeLen colsB numTicksPerDay
          timeIdxToDateIdx dateColumnsOffset columnsGetter none none tsi tei,
        ∀ p ∈ itemFootprint none none item, p < numDataPerTask)
    ∧ (∀ (cc : Option Nat) (colsB : List α)
        (timeIdxToDateIdx dateColumnsOffset : List Int)
        (columnsGetter : Int → Int → List α) (tsi tei : Nat),
      ValidDayShape numTicksPerDay timeIdxToDateIdx tsi tei →
      (tei : Int) - (tsi : Int) + 1 ≤ datetimeLen →
      List.Pairwise (fun it1 it2 => ∀ p, p ∈ itemFootprint none none it1 →
          p ∉ itemFootprint none none it2)
        (columnItems cc datetimeLen colsB numTicksPerDay timeIdxToDateIdx
          dateColumnsOffset columnsGetter none none tsi tei)) := by
  refine ⟨?_, ?_, ?_⟩
  · intro b c b' c' hc hc' hne p hp1 hp2 hp'
    have hKne : b * nc + c ≠ b' * nc + c' := taskIndex_ne b c b' c' nc hc hc' hne
    rcases Nat.lt_trichotomy (b * nc + c) (b' * nc + c') with hKK | hKK | hKK
    · have h1 : (b * nc + c + 1) * numDataPerTask ≤
          (b' * nc + c') * numDataPerTask := Nat.mul_le_mul_right _ (by omega)
      omega
    · exact hKne hKK
    · have h1 : (b' * nc + c' + 1) * numDataPerTask ≤
          (b * nc + c) * numDataPerTask := Nat.mul_le_mul_right _ (by omega)
      omega
  · intro cc colsB timeIdxToDateIdx dateColumnsOffset columnsGetter tsi tei
      hshape hcols htei item hitem p hp
    have h := columnItems_footprint_bound cc datetimeLen colsB numTicksPerDay
      timeIdxToDateIdx dateColumnsOffset columnsGetter tsi tei hshape htei
      item hitem p hp
    rw [hndpt, ← hcols]
    exact h
  · intro cc colsB timeIdxToDateIdx dateColumnsOffset columnsGetter tsi tei
      hshape htei
    exact columnItems_pairwise_disjoint cc datetimeLen colsB numTicksPerDay
      timeIdxToDateIdx dateColumnsOffset columnsGetter tsi tei hshape htei

/-- Witness for `fetcher_args_consistent` at the fixture query
(`tsi = 1`, `tei = 6`, i.e. `datetime_start = 1`, `datetime_len = 6`). -/
theorem fetcher_args_consistent_witness :
    ValidDayShape 2 [0, 0, 1, 1, 2, 2, 3, 3] 1 6 ∧
    (∀ args fStart,
      PlanItem.task args fStart ∈ columnItems (α := Int) none 6 [2, 3, 4, 5] 2
        [0, 0, 1, 1, 2, 2, 3, 3] [0, 4, 9, 15, 22]
        (sliceGetter fixtureCompactColumns) none none 1 6 →
      args.data_len = args.end_idx - args.start_idx ∧
      args.data_len = args.time_end_idx - args.time_start_idx ∧
      1 ≤ args.data_len ∧ args.data_len ≤ 2) :=
  ⟨by decide,
    fetcher_args_consistent none 6 [2, 3, 4, 5] 2 [0, 0, 1, 1, 2, 2, 3, 3]
      [0, 4, 9, 15, 22] (sliceGetter fixtureCompactColumns) none none 1 6
      (by decide)⟩

theorem copyFrom_length {V : Type} (buf : List V) (i : Nat) (src : List V)
    (h : i + src.length ≤ buf.length) :
    (copyFrom buf i src).length = buf.length := by
  simp only [copyFrom, List.length_append, List.length_take, List.length_drop]
  omega

theorem copyFrom_getD {V : Type} (buf : List V) (i : Nat) (src : List V)
    (dflt : V) (h : i + src.length ≤ buf.length) (q : Nat) (hq : q < buf.length) :
    (copyFrom buf i src).getD q dflt =
      if i ≤ q ∧ q < i + src.length then src.getD (q - i) dflt
      else buf.getD q dflt := by
  have hti : (buf.take i).length = i := by
    rw [List.length_take]
    omega
  have hL : (buf.take i ++ src).length = i + src.length := by
    rw [List.length_append, hti]
  rcases Nat.lt_or_ge q (i + src.length) with h2 | h2
  · rw [copyFrom, List.getD_append _ _ _ _ (by rw [hL]; omega)]
    rcases Nat.lt_or_ge q i with h1 | h1
    · rw [if_neg (by omega), List.getD_append _ _ _ _ (by rw [hti]; omega),
        List.getD_eq_getElem _ _ (by rw [hti]; omega), List.getElem_take,
        ← List.getD_eq_getElem _ dflt (by omega)]
    · rw [if_pos ⟨h1, h2⟩,
        List.getD_append_right _ _ _ _ (by rw [hti]; omega), hti]
  · rw [if_neg (by omega), copyFrom,
      List.getD_append_right _ _ _ _ (by rw [hL]; omega), hL,
      List.getD_eq_getElem _ _ (by rw [List.length_drop]; omega),
      List.getElem_drop, ← List.getD_eq_getElem _ dflt (by omega)]
    congr 1
    omega

theorem getD_replicate_lt {V : Type} (n r : Nat) (x dflt : V) (hr : r < n) :
    (List.replicate n x).getD r dflt = x := by
  rw [List.getD_eq_getElem _ _ (by simpa using hr), List.getElem_replicate]

/-- Cell-level semantics of a plain (`offsets = None`) plan run: the buffer
length is preserved; a cell no item's write interval covers is untouched; and
every cell of the result is its initial value, a NaN written by a `nan_fill`
that covers it, or a value of a successfully fetched slice that covers it. -/
theorem runItems_cells {V : Type} (FL : FloatLike V) (mult : Option Int)
    (fetch : FetcherArgs → Except MemError (List V)) (dflt : V) :
    ∀ (items : List PlanItem) (buf out : List V),
      (∀ it ∈ items, (itemSpan fetch it).1 + (itemSpan fetch it).2 ≤ buf.length) →
      runItems FL none mult fetch items buf = .ok out →
      out.length = buf.length ∧
      ∀ q, q < buf.length →
        ((∀ it ∈ items, ¬ ((itemSpan fetch it).1 ≤ q ∧
            q < (itemSpan fetch it).1 + (itemSpan fetch it).2)) →
          out.getD q dflt = buf.getD q dflt) ∧
        (out.getD q dflt = buf.getD q dflt ∨
          (∃ fS n, PlanItem.nanFill fS n ∈ items ∧ fS ≤ q ∧ q < fS + n ∧
            out.getD q dflt = FL.nan) ∨
          (∃ args fS d, PlanItem.task args fS ∈ items ∧ fetch args = .ok d ∧
            fS ≤ q ∧ q < fS + d.length ∧
            out.getD q dflt = d.getD (q - fS) dflt)) := by
  intro items
  induction items with
  | nil =>
    intro buf out _ hrun
    simp only [runItems, List.foldlM_nil, pure, Except.pure, Except.ok.injEq] at hrun
    subst hrun
    exact ⟨rfl, fun q _ => ⟨fun _ => rfl, Or.inl rfl⟩⟩
  | cons it rest ih =>
    intro buf out Hb hrun
    rw [runItems, List.foldlM_cons] at hrun
    cases it with
    | nanFill fS n =>
      have happ : applyItem FL none mult fetch buf (.nanFill fS n) =
          .ok (copyFrom buf fS (List.replicate n FL.nan)) := rfl
      rw [happ] at hrun
      simp only [Bind.bind, Except.bind] at hrun
      have hspan : fS + n ≤ buf.length := by
        have h := Hb _ (List.mem_cons_self _ _)
        simpa [itemSpan] using h
      have hsrc : fS + (List.replicate n FL.nan).length ≤ buf.length := by
        simpa using hspan
      have hlen1 : (copyFrom buf fS (List.replicate n FL.nan)).length =
          buf.length := copyFrom_length _ _ _ hsrc
      have Hb1 : ∀ it' ∈ rest, (itemSpan fetch it').1 +
          (itemSpan fetch it').2 ≤
          (copyFrom buf fS (List.replicate n FL.nan)).length := by
        rw [hlen1]
        exact fun it' hm => Hb it' (List.mem_cons_of_mem _ hm)
      obtain ⟨hlo, hcells⟩ := ih _ out Hb1 hrun
      refine ⟨by rw [hlo, hlen1], ?_⟩
      intro q hq
      obtain ⟨hunt, hprov⟩ := hcells q (by rw [hlen1]; exact hq)
      have hb1q : (copyFrom buf fS (List.replicate n FL.nan)).getD q dflt =
          if fS ≤ q ∧ q < fS + n then FL.nan else buf.getD q dflt := by
        rw [copyFrom_getD _ _ _ _ hsrc q hq]
        by_cases hc : fS ≤ q ∧ q < fS + n
        · rw [if_pos (by simpa using hc), if_pos hc,
            getD_replicate_lt _ _ _ _ (by omega)]
        · rw [if_neg (by simpa using hc), if_neg hc]
      constructor
      · intro hnone
        have hnothead := hnone _ (List.mem_cons_self _ _)
        have hnc : ¬ (fS ≤ q ∧ q < fS + n) := by
          simpa [itemSpan] using hnothead
        rw [hunt (fun it' hm => hnone it' (List.mem_cons_of_mem _ hm)), hb1q,
          if_neg hnc]
      · rcases hprov with h | ⟨fS', n', hm, h1, h2, h3⟩ |
          ⟨args, fS', d, hm, hf, h1, h2, h3⟩
        · by_cases hc : fS ≤ q ∧ q < fS + n
          · exact Or.inr (Or.inl ⟨fS, n, List.mem_cons_self _ _, hc.1, hc.2,
              by rw [h, hb1q, if_pos hc]⟩)
          · exact Or.inl (by rw [h, hb1q, if_neg hc])
        · exact Or.inr (Or.inl ⟨fS', n', List.mem_cons_of_mem _ hm, h1, h2, h3⟩)
        · exact Or.inr (Or.inr ⟨args, fS', d, List.mem_cons_of_mem _ hm, hf,
            h1, h2, h3⟩)
    | task args fS =>
      cases hf : fetch args with
      | error e =>
        exfalso
        simp only [applyItem, hf, Except.map, Bind.bind, Except.bind] at hrun
        exact Except.noConfusion hrun
      | ok d =>
        have happ : applyItem FL none mult fetch buf (.task args fS) =
            .ok (copyFrom buf fS d) := by
          simp only [applyItem, hf, Except.map, fillData]
        rw [happ] at hrun
        simp only [Bind.bind, Except.bind] at hrun
        have hspan : fS + d.length ≤ buf.length := by
          have h := Hb _ (List.mem_cons_self _ _)
          simpa [itemSpan, hf] using h
        have hlen1 : (copyFrom buf fS d).length = buf.length :=
          copyFrom_length _ _ _ hspan
        have Hb1 : ∀ it' ∈ rest, (itemSpan fetch it').1 +
            (itemSpan fetch it').2 ≤ (copyFrom buf fS d).length := by
          rw [hlen1]
          exact fun it' hm => Hb it' (List.mem_cons_of_mem _ hm)
        obtain ⟨hlo, hcells⟩ := ih _ out Hb1 hrun
        refine ⟨by rw [hlo, hlen1], ?_⟩
        intro q hq
        obtain ⟨hunt, hprov⟩ := hcells q (by rw [hlen1]; exact hq)
        have hb1q : (copyFrom buf fS d).getD q dflt =
            if fS ≤ q ∧ q < fS + d.length then d.getD (q - fS) dflt
            else buf.getD q dflt := copyFrom_getD _ _ _ _ hspan q hq
        constructor
        · intro hnone
          have hnothead := hnone _ (List.mem_cons_self _ _)
          have hnc : ¬ (fS ≤ q ∧ q < fS + d.length) := by
            simpa [itemSpan, hf] using hnothead
          rw [hunt (fun it' hm => hnone it' (List.mem_cons_of_mem _ hm)), hb1q,
            if_neg hnc]
        · rcases hprov with h | ⟨fS', n', hm, h1, h2, h3⟩ |
            ⟨args', fS', d', hm, hf', h1, h2, h3⟩
          · by_cases hc : fS ≤ q ∧ q < fS + d.length
            · exact Or.inr (Or.inr ⟨args, fS, d, List.mem_cons_self _ _, hf,
                hc.1, hc.2, by rw [h, hb1q, if_pos hc]⟩)
            · exact Or.inl (by rw [h, hb1q, if_neg hc])
          · exact Or.inr (Or.inl ⟨fS', n', List.mem_cons_of_mem _ hm, h1, h2,
              h3⟩)
          · exact Or.inr (Or.inr ⟨args', fS', d', List.mem_cons_of_mem _ hm,
              hf', h1, h2, h3⟩)

theorem runItems_append {V : Type} (FL : FloatLike V) (off : Option Offsets)
    (mult : Option Int) (fetch : FetcherArgs → Except MemError (List V))
    (l1 l2 : List PlanItem) (buf : List V) :
    runItems FL off mult fetch (l1 ++ l2) buf =
      (runItems FL off mult fetch l1 buf).bind
        (runItems FL off mult fetch l2) := by
  simp only [runItems, List.foldlM_append]
  rfl

/-- A cell covered by one `nan_fill` of the plan and by no later write holds
`NaN` in the final output. -/
theorem runItems_nan_persist {V : Type} (FL : FloatLike V) (mult : Option Int)
    (fetch : FetcherArgs → Except MemError (List V)) (dflt : V)
    (l1 l2 : List PlanItem) (fS n q : Nat) (buf out : List V)
    (Hb : ∀ it ∈ l1 ++ PlanItem.nanFill fS n :: l2,
      (itemSpan fetch it).1 + (itemSpan fetch it).2 ≤ buf.length)
    (hq1 : fS ≤ q) (hq2 : q < fS + n) (hqL : q < buf.length)
    (hno2 : ∀ it ∈ l2, ¬ ((itemSpan fetch it).1 ≤ q ∧
      q < (itemSpan fetch it).1 + (itemSpan fetch it).2))
    (hout : runItems FL none mult fetch (l1 ++ PlanItem.nanFill fS n :: l2) buf
      = .ok out) :
    out.getD q dflt = FL.nan := by
  rw [runItems_append] at hout
  cases h1 : runItems FL none mult fetch l1 buf with
  | error e =>
    rw [h1] at hout
    exact Except.noConfusion hout
  | ok mid =>
    rw [h1] at hout
    simp only [Except.bind] at hout
    have hmid := runItems_cells FL mult fetch dflt l1 buf mid
      (fun it hm => Hb it (List.mem_append_left _ hm)) h1
    obtain ⟨hmidlen, _⟩ := hmid
    rw [runItems, List.foldlM_cons] at hout
    have happ : applyItem FL none mult fetch mid (.nanFill fS n) =
        .ok (copyFrom mid fS (List.replicate n FL.nan)) := rfl
    rw [happ] at hout
    simp only [Bind.bind, Except.bind] at hout
    have hspan : fS + n ≤ mid.length := by
      have h := Hb _ (List.mem_append_right _ (List.mem_cons_self _ _))
      rw [hmidlen]
      simpa [itemSpan] using h
    have hsrc : fS + (List.replicate n FL.nan).length ≤ mid.length := by
      simpa using hspan
    have hlen2 : (copyFrom mid fS (List.replicate n FL.nan)).length =
        mid.length := copyFrom_length _ _ _ hsrc
    have hq2' : q < mid.length := by omega
    have hcov : fS ≤ q ∧ q < fS + n := ⟨hq1, hq2⟩
    have hmid2q : (copyFrom mid fS (List.replicate n FL.nan)).getD q dflt =
        FL.nan := by
      rw [copyFrom_getD _ _ _ _ hsrc q hq2', List.length_replicate,
        if_pos hcov, getD_replicate_lt _ _ _ _ (by omega)]
    have hfin := runItems_cells FL mult fetch dflt l2 _ out
      (fun it hm => by
        rw [hlen2, hmidlen]
        exact Hb it (List.mem_append_right _ (List.mem_cons_of_mem _ hm)))
      hout
    obtain ⟨_, hcells⟩ := hfin
    obtain ⟨hunt, _⟩ := hcells q (by omega)
    rw [hunt hno2, hmid2q]

/-- A cell covered by the `nan_fill` at position `i0` of a pairwise-disjoint
plan holds NaN in the final output: no other item ever touches it. -/
theorem runItems_nanfill_persist_of_pairwise {V : Type} (FL : FloatLike V)
    (fetch : FetcherArgs → Except MemError (List V)) (dflt : V)
    (items : List PlanItem) (flattened out : List V)
    (Hb : ∀ it ∈ items, (itemSpan fetch it).1 + (itemSpan fetch it).2 ≤
      flattened.length)
    (hfl : ∀ it ∈ items, taskLenOk fetch it = true)
    (hpw : List.Pairwise (fun it1 it2 => ∀ p,
      p ∈ itemFootprint none none it1 → p ∉ itemFootprint none none it2) items)
    (hrun : runItems FL none none fetch items flattened = .ok out)
    (i0 fS n : Nat) (hi0 : i0 < items.length)
    (hitem : items.getD i0 (PlanItem.nanFill 0 0) = PlanItem.nanFill fS n)
    (q : Nat) (hq1 : fS ≤ q) (hq2 : q < fS + n) (hqL : q < flattened.length) :
    out.getD q dflt = FL.nan := by
  rw [List.getD_eq_getElem _ _ hi0] at hitem
  have hdecomp : items = items.take i0 ++ PlanItem.nanFill fS n ::
      items.drop (i0 + 1) := by
    conv_lhs => rw [← List.take_append_drop i0 items]
    rw [List.drop_eq_getElem_cons hi0, hitem]
  have hqfp : q ∈ itemFootprint none none (items[i0]) := by
    rw [hitem]
    simp only [itemFootprint, writeFootprint, List.mem_range']
    exact ⟨q - fS, by omega, by omega⟩
  have hno2 : ∀ it ∈ items.drop (i0 + 1),
      ¬ ((itemSpan fetch it).1 ≤ q ∧
        q < (itemSpan fetch it).1 + (itemSpan fetch it).2) := by
    intro it hm hcov
    obtain ⟨r, hr, hreq⟩ := List.mem_iff_getElem.mp hm
    have hidx : i0 + 1 + r < items.length := by
      rw [List.length_drop] at hr
      omega
    have hit' : items[i0 + 1 + r] = it := by
      rw [← hreq, List.getElem_drop]
    have hdisj := (List.pairwise_iff_getElem.mp hpw) i0 (i0 + 1 + r) hi0 hidx
      (by omega)
    have hmem' : q ∈ itemFootprint none none it :=
      span_cover_footprint fetch it (hfl it (List.mem_of_mem_drop hm)) q
        hcov.1 hcov.2
    exact (hdisj q hqfp) (hit' ▸ hmem')
  refine runItems_nan_persist FL none fetch dflt (items.take i0)
    (items.drop (i0 + 1)) fS n q flattened out ?_ hq1 hq2 hqL hno2 ?_
  · intro it hm
    apply Hb
    rw [hdecomp]
    exact hm
  · rw [← hdecomp]
    exact hrun

/-- `columnItems_closed` specialised to `offsets = None` with a general
multiplier. -/
theorem columnItems_closed_mult {α : Type} [LinearOrder α] [Inhabited α]
    (c : Option Nat) (datetimeLen : Int) (columns : List α)
    (numTicksPerDay : Int) (timeIdxToDateIdx dateColumnsOffset : List Int)
    (columnsGetter : Int → Int → List α) (m : Option Int) (tsi tei : Nat)
    (hshape : ValidDayShape numTicksPerDay timeIdxToDateIdx tsi tei) :
    columnItems c datetimeLen columns numTicksPerDay timeIdxToDateIdx
        dateColumnsOffset columnsGetter m none tsi tei =
      (List.range'
        0 ((timeIdxToDateIdx.getD tei 0 + 1 - timeIdxToDateIdx.getD tsi 0).toNat)).flatMap
        (fun k =>
          columnDayItems c datetimeLen columns numTicksPerDay m 0
            (m.map (fun x => x + 0))
            (dateColumnsOffset.getD (timeIdxToDateIdx.getD tsi 0).toNat 0 *
              numTicksPerDay)
            tsi tei
            ((timeIdxToDateIdx.getD tei 0 + 1 - timeIdxToDateIdx.getD tsi 0).toNat)
            (timeIdxToDateIdx.getD tsi 0 + (k : Int)) k
            (columnsGetter
              (dateColumnsOffset.getD (timeIdxToDateIdx.getD tsi 0 + (k : Int)).toNat 0)
              (dateColumnsOffset.getD (timeIdxToDateIdx.getD tsi 0 + (k : Int) + 1).toNat 0))
            (columnsOffsetOf (fun k' =>
              columnsGetter
                (dateColumnsOffset.getD (timeIdxToDateIdx.getD tsi 0 + (k' : Int)).toNat 0)
                (dateColumnsOffset.getD
                  (timeIdxToDateIdx.getD tsi 0 + (k' : Int) + 1).toNat 0)) k)
            (timeOffsetOf numTicksPerDay tsi (timeIdxToDateIdx.getD tsi 0) k)) :=
  columnItems_closed c datetimeLen columns numTicksPerDay timeIdxToDateIdx
    dateColumnsOffset columnsGetter m none tsi tei hshape

/-- Footprint of a `(day, requested column)` item with a multiplier and no
offsets: the same contiguous range in both branches, `multiplier` times the
day window long, starting at `multiplier` times the plain start. -/
theorem columnDayItems_getD_footprint_mult {α : Type} [LinearOrder α]
    [Inhabited α] (c : Option Nat) (datetimeLen : Int) (columns : List α)
    (numTicksPerDay : Int) (m : Option Int) (startIdx : Int) (tsi tei : Nat)
    (numDays : Nat) (dateIdx : Int) (k : Nat) (dateColumns : List α)
    (columnsOffset iTimeOffset : Int) (j : Nat) (hj : j < columns.length) :
    itemFootprint none m
        ((columnDayItems c datetimeLen columns numTicksPerDay m 0
          (m.map (fun x => x + 0)) startIdx tsi tei numDays dateIdx k
          dateColumns columnsOffset iTimeOffset).getD j (PlanItem.nanFill 0 0)) =
      List.range' ((((j : Int) * datetimeLen + iTimeOffset) * m.getD 1).toNat)
        ((dayLenOf numTicksPerDay tsi tei numDays k * m.getD 1).toNat) := by
  have hlen : (columnDayItems c datetimeLen columns numTicksPerDay m 0
      (m.map (fun x => x + 0)) startIdx tsi tei numDays dateIdx k dateColumns
      columnsOffset iTimeOffset).length = columns.length :=
    columnDayItems_length _ _ _ _ _ _ _ _ _ _ _ _ _ _ _ _
  rw [List.getD_eq_getElem _ _ (by omega)]
  simp only [columnDayItems, List.getElem_map, List.getElem_enum]
  cases m with
  | none =>
    split <;> split <;>
      simp [itemFootprint, writeFootprint, dayLenOf, mul_one, add_zero]
  | some mm =>
    split <;> split <;>
      simp [itemFootprint, writeFootprint, dayLenOf, mul_one, add_zero]

/-- The planner emits the NaN fill for `(day, requested column j)` exactly
when the requested symbol is missing from the day's columns. -/
theorem columnDayItems_getD_nanfill_iff {α : Type} [LinearOrder α]
    [Inhabited α] (c : Option Nat) (datetimeLen : Int) (columns : List α)
    (numTicksPerDay : Int) (multiplier : Option Int) (columnOffset : Int)
    (totalMultiplier : Option Int) (startIdx : Int) (tsi tei : Nat)
    (numDays : Nat) (dateIdx : Int) (k : Nat) (dateColumns : List α)
    (columnsOffset iTimeOffset : Int) (j : Nat) (hj : j < columns.length)
    (hsorted : dateColumns.Sorted (· ≤ ·)) (hne : dateColumns ≠ []) :
    (∃ fS n, (columnDayItems c datetimeLen columns numTicksPerDay multiplier
        columnOffset totalMultiplier startIdx tsi tei numDays dateIdx k
        dateColumns columnsOffset iTimeOffset).getD j (PlanItem.nanFill 0 0) =
        PlanItem.nanFill fS n) ↔ columns[j] ∉ dateColumns := by
  rw [List.getD_eq_getElem _ _ (by rw [columnDayItems_length]; omega)]
  simp only [columnDayItems, List.getElem_map, List.getElem_enum]
  by_cases hmem : columns[j] ∈ dateColumns
  · rw [if_pos ((presence_iff dateColumns columns[j] default hsorted
      hne).mpr hmem)]
    simp [hmem]
  · have htest : ¬ (dateColumns.getD
        (if dateColumns.length ≤ searchsorted dateColumns columns[j] then 0
          else searchsorted dateColumns columns[j]) default = columns[j]) :=
      fun h => hmem ((presence_iff dateColumns columns[j] default hsorted
        hne).mp h)
    rw [if_neg htest]
    simp [hmem]

/-- Every cell of a `nan_fill` of the plain plan holds NaN in the final
output: the fill writes it and no other item overwrites it. -/
theorem columnItems_missing_nan_persists {α V : Type} [LinearOrder α]
    [Inhabited α] (FL : FloatLike V) (dflt : V) (cc : Option Nat)
    (datetimeLen : Int) (columns : List α) (numTicksPerDay : Int)
    (timeIdxToDateIdx dateColumnsOffset : List Int)
    (columnsGetter : Int → Int → List α) (tsi tei : Nat)
    (fetch : FetcherArgs → Except MemError (List V)) (flattened out : List V)
    (hshape : ValidDayShape numTicksPerDay timeIdxToDateIdx tsi tei)
    (htei : (tei : Int) - (tsi : Int) + 1 ≤ datetimeLen)
    (hL : datetimeLen.toNat * columns.length ≤ flattened.length)
    (hfl : ∀ it ∈ columnItems cc datetimeLen columns numTicksPerDay
      timeIdxToDateIdx dateColumnsOffset columnsGetter none none tsi tei,
      taskLenOk fetch it = true)
    (hrun : runItems FL none none fetch
      (columnItems cc datetimeLen columns numTicksPerDay timeIdxToDateIdx
        dateColumnsOffset columnsGetter none none tsi tei) flattened = .ok out)
    (i0 fS n : Nat)
    (hi0 : i0 < (columnItems cc datetimeLen columns numTicksPerDay
      timeIdxToDateIdx dateColumnsOffset columnsGetter none none tsi tei).length)
    (hitem : (columnItems cc datetimeLen columns numTicksPerDay
      timeIdxToDateIdx dateColumnsOffset columnsGetter none none
      tsi tei).getD i0 (PlanItem.nanFill 0 0) = PlanItem.nanFill fS n)
    (q : Nat) (hq1 : fS ≤ q) (hq2 : q < fS + n) :
    out.getD q dflt = FL.nan := by
  have Hb : ∀ it ∈ columnItems cc datetimeLen columns numTicksPerDay
      timeIdxToDateIdx dateColumnsOffset columnsGetter none none tsi tei,
      (itemSpan fetch it).1 + (itemSpan fetch it).2 ≤ flattened.length :=
    fun it hm => le_trans (columnItems_span_bound cc datetimeLen columns
      numTicksPerDay timeIdxToDateIdx dateColumnsOffset columnsGetter tsi tei
      fetch hshape htei hfl it hm) hL
  have hpw := columnItems_pairwise_disjoint cc datetimeLen columns
    numTicksPerDay timeIdxToDateIdx dateColumnsOffset columnsGetter tsi tei
    hshape htei
  have hmem0 : (columnItems cc datetimeLen columns numTicksPerDay
      timeIdxToDateIdx dateColumnsOffset columnsGetter none none
      tsi tei).getD i0 (PlanItem.nanFill 0 0) ∈
      columnItems cc datetimeLen columns numTicksPerDay timeIdxToDateIdx
        dateColumnsOffset columnsGetter none none tsi tei := by
    rw [List.getD_eq_getElem _ _ hi0]
    exact List.getElem_mem hi0
  have hqfp : q ∈ itemFootprint none none
      ((columnItems cc datetimeLen columns numTicksPerDay timeIdxToDateIdx
        dateColumnsOffset columnsGetter none none tsi tei).getD i0
        (PlanItem.nanFill 0 0)) := by
    rw [hitem]
    simp only [itemFootprint, writeFootprint, List.mem_range']
    exact ⟨q - fS, by omega, by omega⟩
  have hqL : q < flattened.length := by
    have := columnItems_footprint_bound cc datetimeLen columns numTicksPerDay
      timeIdxToDateIdx dateColumnsOffset columnsGetter tsi tei hshape htei _
      hmem0 q hqfp
    omega
  exact runItems_nanfill_persist_of_pairwise FL fetch dflt _ flattened out Hb
    hfl hpw hrun i0 fS n hi0 hitem q hq1 hq2 hqL

/-- In the plain plan a NaN output cell comes from a missing symbol's
`nan_fill` whenever neither the initial buffer nor the backing store holds
NaN. -/
theorem columnItems_nan_only_from_missing {α V : Type} [LinearOrder α]
    [Inhabited α] (FL : FloatLike V) (dflt : V) (cc : Option Nat)
    (datetimeLen : Int) (columns : List α) (numTicksPerDay : Int)
    (timeIdxToDateIdx dateColumnsOffset : List Int)
    (columnsGetter : Int → Int → List α) (tsi tei : Nat)
    (fetch : FetcherArgs → Except MemError (List V)) (flattened out : List V)
    (hshape : ValidDayShape numTicksPerDay timeIdxToDateIdx tsi tei)
    (htei : (tei : Int) - (tsi : Int) + 1 ≤ datetimeLen)
    (hL : datetimeLen.toNat * columns.length ≤ flattened.length)
    (hfl : ∀ it ∈ columnItems cc datetimeLen columns numTicksPerDay
      timeIdxToDateIdx dateColumnsOffset columnsGetter none none tsi tei,
      taskLenOk fetch it = true)
    (hbuf0 : ∀ q, q < flattened.length →
      FL.isNan (flattened.getD q dflt) = false)
    (hnn : ∀ it ∈ columnItems cc datetimeLen columns numTicksPerDay
      timeIdxToDateIdx dateColumnsOffset columnsGetter none none tsi tei,
      fetchNoNan FL fetch it = true)
    (hrun : runItems FL none none fetch
      (columnItems cc datetimeLen columns numTicksPerDay timeIdxToDateIdx
        dateColumnsOffset columnsGetter none none tsi tei) flattened = .ok out)
    (q : Nat) (hqL : q < flattened.length)
    (hnan : FL.isNan (out.getD q dflt) = true) :
    ∃ fS n, PlanItem.nanFill fS n ∈ columnItems cc datetimeLen columns
      numTicksPerDay timeIdxToDateIdx dateColumnsOffset columnsGetter none none
      tsi tei ∧ fS ≤ q ∧ q < fS + n := by
  have Hb : ∀ it ∈ columnItems cc datetimeLen columns numTicksPerDay
      timeIdxToDateIdx dateColumnsOffset columnsGetter none none tsi tei,
      (itemSpan fetch it).1 + (itemSpan fetch it).2 ≤ flattened.length :=
    fun it hm => le_trans (columnItems_span_bound cc datetimeLen columns
      numTicksPerDay timeIdxToDateIdx dateColumnsOffset columnsGetter tsi tei
      fetch hshape htei hfl it hm) hL
  obtain ⟨hlen, hcells⟩ := runItems_cells FL none fetch dflt _ flattened out
    Hb hrun
  obtain ⟨_, hprov⟩ := hcells q hqL
  rcases hprov with h | ⟨fS, n, hm, h1, h2, _⟩ |
    ⟨args, fS, d, hm, hf, h1, h2, h3⟩
  · rw [h, hbuf0 q hqL] at hnan
    exact absurd hnan (by simp)
  · exact ⟨fS, n, hm, h1, h2⟩
  · exfalso
    have hnd := hnn _ hm
    simp only [fetchNoNan, hf] at hnd
    have helem : d.getD (q - fS) dflt ∈ d := by
      rw [List.getD_eq_getElem _ _ (by omega)]
      exact List.getElem_mem _
    have hv := List.all_eq_true.mp hnd _ helem
    rw [h3] at hnan
    rw [hnan] at hv
    exact absurd hv (by simp)

theorem one_le_mul_i {a b : Int} (ha : 1 ≤ a) (hb : 1 ≤ b) : 1 ≤ a * b := by
  calc (1 : Int) ≤ a := ha
  _ = a * 1 := (mul_one a).symm
  _ ≤ a * b := mul_le_mul_of_nonneg_left hb (by omega)

theorem one_le_toNat_mul {a b : Int} (ha : 1 ≤ a) (hb : 1 ≤ b) :
    1 ≤ (a * b).toNat :=
  Int.toNat_le_toNat (one_le_mul_i ha hb)

theorem scale_chain {a b c mu : Int} (h : a + b ≤ c) (hmu : 0 ≤ mu) :
    a * mu + b * mu ≤ c * mu := by
  have hs := mul_le_mul_of_nonneg_right h hmu
  linarith [show (a + b) * mu = a * mu + b * mu from by ring]

/-- `flatMap_blocks_pairwise_disjoint` for an arbitrary footprint function. -/
theorem flatMap_blocks_pairwise_disjointM (datetimeLen : Int)
    (fp : PlanItem → List Nat)
    (g : Nat → List PlanItem) (n D : Nat) (offf lenf : Nat → Int)
    (hg : ∀ k, (g k).length = n)
    (hfp : ∀ k j, j < n →
      fp ((g k).getD j (PlanItem.nanFill 0 0)) =
        List.range' (((j : Int) * datetimeLen + offf k).toNat) ((lenf k).toNat))
    (hoff0 : ∀ k, k < D → 0 ≤ offf k)
    (hlen1 : ∀ k, k < D → 1 ≤ lenf k)
    (hchain : ∀ k k', k < k' → k' < D → offf k + lenf k ≤ offf k')
    (hbound : ∀ k, k < D → offf k + lenf k ≤ datetimeLen) :
    List.Pairwise (fun it1 it2 => ∀ p, p ∈ fp it1 → p ∉ fp it2)
      ((List.range' 0 D).flatMap g) := by
  have hL := flatMap_blocks_length g n hg D 0
  rcases Nat.eq_zero_or_pos n with hn0 | hnpos
  · rw [List.pairwise_iff_getElem]
    intro i1 i2 hi1 hi2 hlt
    exfalso
    rw [hL, hn0, Nat.mul_zero] at hi2
    omega
  · rw [List.pairwise_iff_getElem]
    intro i1 i2 hi1 hi2 hlt
    have hi2' : i2 < D * n := by rw [hL] at hi2; exact hi2
    have hi1' : i1 < D * n := by omega
    have hg1 := flatMap_blocks_getD (PlanItem.nanFill 0 0) g n hnpos hg D 0 i1 hi1'
    have hg2 := flatMap_blocks_getD (PlanItem.nanFill 0 0) g n hnpos hg D 0 i2 hi2'
    rw [List.getD_eq_getElem _ _ hi1] at hg1
    rw [List.getD_eq_getElem _ _ hi2] at hg2
    rw [hg1, hg2, Nat.zero_add, Nat.zero_add]
    have hd1 := Nat.div_add_mod i1 n
    have hd2 := Nat.div_add_mod i2 n
    have hm1 : i1 % n < n := Nat.mod_lt _ hnpos
    have hm2 : i2 % n < n := Nat.mod_lt _ hnpos
    have hk1 : i1 / n < D := by
      by_contra hcon
      have h1 : D * n ≤ (i1 / n) * n := Nat.mul_le_mul_right _ (by omega)
      have h2 : (i1 / n) * n = n * (i1 / n) := by ring
      omega
    have hk2 : i2 / n < D := by
      by_contra hcon
      have h1 : D * n ≤ (i2 / n) * n := Nat.mul_le_mul_right _ (by omega)
      have h2 : (i2 / n) * n = n * (i2 / n) := by ring
      omega
    intro p hp hp'
    rw [hfp (i1 / n) (i1 % n) hm1] at hp
    rw [hfp (i2 / n) (i2 % n) hm2] at hp'
    refine cf_footprint_disjoint datetimeLen offf lenf D n hoff0 hlen1 hchain
      hbound (i1 / n) (i1 % n) (i2 / n) (i2 % n) hk1 hk2 hm1 hm2 ?_ p hp hp'
    intro hcon
    obtain ⟨hdiv, hmod⟩ := hcon
    have : n * (i1 / n) = n * (i2 / n) := by rw [hdiv]
    omega

/-- Indexed closed form of a plan item's write footprint with a multiplier
and no offsets: the item at position `i` belongs to day `i / n` and requested
column `i % n`, and writes the contiguous range starting at `multiplier`
times the plain start, `multiplier` times the day window long. -/
theorem columnItems_getD_closed_footprintM {α : Type} [LinearOrder α]
    [Inhabited α] (cc : Option Nat) (datetimeLen : Int) (columns : List α)
    (numTicksPerDay : Int) (timeIdxToDateIdx dateColumnsOffset : List Int)
    (columnsGetter : Int → Int → List α) (m : Option Int) (tsi tei : Nat)
    (hshape : ValidDayShape numTicksPerDay timeIdxToDateIdx tsi tei) (i : Nat)
    (hi : i < (columnItems cc datetimeLen columns numTicksPerDay
      timeIdxToDateIdx dateColumnsOffset columnsGetter m none tsi tei).length) :
    0 < columns.length ∧
    (columnItems cc datetimeLen columns numTicksPerDay timeIdxToDateIdx
        dateColumnsOffset columnsGetter m none tsi tei).length =
      ((timeIdxToDateIdx.getD tei 0 + 1 -
        timeIdxToDateIdx.getD tsi 0).toNat) * columns.length ∧
    i / columns.length <
      (timeIdxToDateIdx.getD tei 0 + 1 - timeIdxToDateIdx.getD tsi 0).toNat ∧
    itemFootprint none m
      ((columnItems cc datetimeLen columns numTicksPerDay timeIdxToDateIdx
        dateColumnsOffset columnsGetter m none tsi tei).getD i
        (PlanItem.nanFill 0 0)) =
      List.range' (((((i % columns.length : Nat) : Int) * datetimeLen +
          timeOffsetOf numTicksPerDay tsi (timeIdxToDateIdx.getD tsi 0)
            (i / columns.length)) * m.getD 1).toNat)
        ((dayLenOf numTicksPerDay tsi tei
          ((timeIdxToDateIdx.getD tei 0 + 1 -
            timeIdxToDateIdx.getD tsi 0).toNat) (i / columns.length) *
          m.getD 1).toNat) := by
  have hcl := columnItems_closed_mult cc datetimeLen columns numTicksPerDay
    timeIdxToDateIdx dateColumnsOffset columnsGetter m tsi tei hshape
  have hlenall : ∀ (k : Nat), (columnDayItems cc datetimeLen columns
      numTicksPerDay m 0 (m.map (fun x => x + 0))
      (dateColumnsOffset.getD (timeIdxToDateIdx.getD tsi 0).toNat 0 *
        numTicksPerDay)
      tsi tei
      ((timeIdxToDateIdx.getD tei 0 + 1 - timeIdxToDateIdx.getD tsi 0).toNat)
      (timeIdxToDateIdx.getD tsi 0 + (k : Int)) k
      (columnsGetter
        (dateColumnsOffset.getD (timeIdxToDateIdx.getD tsi 0 + (k : Int)).toNat 0)
        (dateColumnsOffset.getD
          (timeIdxToDateIdx.getD tsi 0 + (k : Int) + 1).toNat 0))
      (columnsOffsetOf (fun k' =>
        columnsGetter
          (dateColumnsOffset.getD (timeIdxToDateIdx.getD tsi 0 + (k' : Int)).toNat 0)
          (dateColumnsOffset.getD
            (timeIdxToDateIdx.getD tsi 0 + (k' : Int) + 1).toNat 0)) k)
      (timeOffsetOf numTicksPerDay tsi (timeIdxToDateIdx.getD tsi 0) k)).length
      = columns.length :=
    fun k => columnDayItems_length _ _ _ _ _ _ _ _ _ _ _ _ _ _ _ _
  have hLtot : (columnItems cc datetimeLen columns numTicksPerDay
      timeIdxToDateIdx dateColumnsOffset columnsGetter m none tsi tei).length =
      ((timeIdxToDateIdx.getD tei 0 + 1 -
        timeIdxToDateIdx.getD tsi 0).toNat) * columns.length := by
    rw [hcl]
    exact flatMap_blocks_length _ columns.length hlenall _ 0
  have hnpos : 0 < columns.length := by
    rcases Nat.eq_zero_or_pos columns.length with h0 | h
    · rw [hLtot, h0, Nat.mul_zero] at hi
      omega
    · exact h
  have hi' : i < ((timeIdxToDateIdx.getD tei 0 + 1 -
      timeIdxToDateIdx.getD tsi 0).toNat) * columns.length := by
    rw [← hLtot]
    exact hi
  have hk : i / columns.length <
      (timeIdxToDateIdx.getD tei 0 + 1 - timeIdxToDateIdx.getD tsi 0).toNat := by
    by_contra hcon
    have h1 : ((timeIdxToDateIdx.getD tei 0 + 1 -
        timeIdxToDateIdx.getD tsi 0).toNat) * columns.length ≤
        (i / columns.length) * columns.length :=
      Nat.mul_le_mul_right _ (by omega)
    have h2 : (i / columns.length) * columns.length =
        columns.length * (i / columns.length) := by ring
    have h3 := Nat.div_add_mod i columns.length
    have h4 : i % columns.length < columns.length := Nat.mod_lt _ hnpos
    omega
  refine ⟨hnpos, hLtot, hk, ?_⟩
  rw [hcl, flatMap_blocks_getD (PlanItem.nanFill 0 0) _ columns.length hnpos
    hlenall _ 0 i hi', Nat.zero_add]
  exact columnDayItems_getD_footprint_mult cc datetimeLen columns
    numTicksPerDay m _ tsi tei _ _ (i / columns.length) _ _ _
    (i % columns.length) (Nat.mod_lt _ hnpos)

/-- A position of a `multiplier`-scaled contiguous day range stays below
`(datetime_len · multiplier) · |columns|`. -/
theorem scaled_range_bound (datetimeLen off L mu : Int) (n jm p : Nat)
    (hoff : 0 ≤ off) (hL1 : 1 ≤ L) (hbd : off + L ≤ datetimeLen)
    (hm : 1 ≤ mu) (hj : jm < n)
    (hp : p ∈ List.range' ((((jm : Int) * datetimeLen + off) * mu).toNat)
      ((L * mu).toNat)) :
    p < (datetimeLen * mu).toNat * n := by
  rw [List.mem_range'] at hp
  obtain ⟨i1, hi1lt, hpeq⟩ := hp
  have hdl : 1 ≤ datetimeLen := by omega
  have hj1 : ((jm : Int) + 1) ≤ (n : Int) := by
    exact_mod_cast Nat.succ_le_of_lt hj
  have hnnj : (0 : Int) ≤ (jm : Int) * datetimeLen := by positivity
  have hstart : (0 : Int) ≤ ((jm : Int) * datetimeLen + off) * mu :=
    mul_nonneg (by linarith) (by omega)
  have htnS : ((((jm : Int) * datetimeLen + off) * mu).toNat : Int) =
      ((jm : Int) * datetimeLen + off) * mu := Int.toNat_of_nonneg hstart
  have htnL : (((L * mu).toNat : Nat) : Int) = L * mu :=
    Int.toNat_of_nonneg (mul_nonneg (by omega) (by omega))
  have h1 : ((jm : Int) * datetimeLen + off) * mu + L * mu =
      ((jm : Int) * datetimeLen + off + L) * mu := by ring
  have h2 : ((jm : Int) * datetimeLen + off + L) * mu ≤
      (((jm : Int) + 1) * datetimeLen) * mu := by
    apply mul_le_mul_of_nonneg_right _ (by omega)
    linarith [show ((jm : Int) + 1) * datetimeLen =
      (jm : Int) * datetimeLen + datetimeLen from by ring]
  have h3 : (((jm : Int) + 1) * datetimeLen) * mu =
      ((jm : Int) + 1) * (datetimeLen * mu) := by ring
  have h4 : ((jm : Int) + 1) * (datetimeLen * mu) ≤
      (n : Int) * (datetimeLen * mu) :=
    mul_le_mul_of_nonneg_right hj1 (mul_nonneg (by omega) (by omega))
  have hcast : (((datetimeLen * mu).toNat * n : Nat) : Int) =
      (n : Int) * (datetimeLen * mu) := by
    rw [Nat.cast_mul, Int.toNat_of_nonneg (mul_nonneg (by omega) (by omega))]
    ring
  have hle : (((jm : Int) * datetimeLen + off) * mu).toNat +
      (L * mu).toNat ≤ (datetimeLen * mu).toNat * n := by
    have hcastL : (((((jm : Int) * datetimeLen + off) * mu).toNat +
        (L * mu).toNat : Nat) : Int) =
        ((jm : Int) * datetimeLen + off) * mu + L * mu := by
      rw [Nat.cast_add, htnS, htnL]
    have hchainI : ((jm : Int) * datetimeLen + off) * mu + L * mu ≤
        (n : Int) * (datetimeLen * mu) := by linarith
    have hfin : (((((jm : Int) * datetimeLen + off) * mu).toNat +
        (L * mu).toNat : Nat) : Int) ≤
        (((datetimeLen * mu).toNat * n : Nat) : Int) := by
      rw [hcastL, hcast]
      exact hchainI
    exact_mod_cast hfin
  have hone : p = (((jm : Int) * datetimeLen + off) * mu).toNat + i1 := by
    rw [hpeq]
    ring
  rw [hone]
  exact Nat.lt_of_lt_of_le (Nat.add_lt_add_left hi1lt _) hle

/-- Every write of the `multiplier` plan (no offsets) lands inside
`[0, (datetime_len · multiplier) · |columns|)` — the sliced planner's
`num_data_per_task` range. -/
theorem columnItems_footprint_boundM {α : Type} [LinearOrder α] [Inhabited α]
    (cc : Option Nat) (datetimeLen : Int) (columns : List α)
    (numTicksPerDay : Int) (timeIdxToDateIdx dateColumnsOffset : List Int)
    (columnsGetter : Int → Int → List α) (m : Option Int) (tsi tei : Nat)
    (hshape : ValidDayShape numTicksPerDay timeIdxToDateIdx tsi tei)
    (htei : (tei : Int) - (tsi : Int) + 1 ≤ datetimeLen)
    (hm : 1 ≤ m.getD 1) :
    ∀ item ∈ columnItems cc datetimeLen columns numTicksPerDay timeIdxToDateIdx
        dateColumnsOffset columnsGetter m none tsi tei,
      ∀ p ∈ itemFootprint none m item,
        p < (datetimeLen * m.getD 1).toNat * columns.length := by
  intro item hitem p hp
  obtain ⟨i, hi, hieq⟩ := List.mem_iff_getElem.mp hitem
  obtain ⟨hnpos, hLtot, hk, hfp⟩ := columnItems_getD_closed_footprintM cc
    datetimeLen columns numTicksPerDay timeIdxToDateIdx dateColumnsOffset
    columnsGetter m tsi tei hshape i hi
  rw [List.getD_eq_getElem _ _ hi, hieq] at hfp
  rw [hfp] at hp
  exact scaled_range_bound datetimeLen
    (timeOffsetOf numTicksPerDay tsi (timeIdxToDateIdx.getD tsi 0)
      (i / columns.length))
    (dayLenOf numTicksPerDay tsi tei
      ((timeIdxToDateIdx.getD tei 0 + 1 - timeIdxToDateIdx.getD tsi 0).toNat)
      (i / columns.length))
    (m.getD 1) columns.length (i % columns.length) p
    (timeOffset_nonneg numTicksPerDay timeIdxToDateIdx tsi tei
      (i / columns.length) hshape hk)
    ((dayLen_bounds numTicksPerDay timeIdxToDateIdx tsi tei
      (i / columns.length) hshape hk).1)
    (le_trans (timeOffset_bound numTicksPerDay timeIdxToDateIdx tsi tei
      (i / columns.length) hshape hk) htei)
    hm (Nat.mod_lt _ hnpos) hp

/-- An actual write interval is contained in the planned footprint, under the
`multiplier` fetcher length contract. -/
theorem span_cover_footprintM {V : Type} (m : Option Int)
    (fetch : FetcherArgs → Except MemError (List V)) (it : PlanItem)
    (hok : taskLenOkM (m.getD 1) fetch it = true) (q : Nat)
    (h1 : (itemSpan fetch it).1 ≤ q)
    (h2 : q < (itemSpan fetch it).1 + (itemSpan fetch it).2) :
    q ∈ itemFootprint none m it := by
  cases it with
  | nanFill fS n =>
    simp only [itemSpan] at h1 h2
    simp only [itemFootprint, writeFootprint, List.mem_range']
    exact ⟨q - fS, by omega, by omega⟩
  | task args fS =>
    cases hfet : fetch args with
    | error e =>
      simp only [itemSpan, hfet] at h1 h2
      exfalso
      omega
    | ok d =>
      simp only [itemSpan, hfet] at h1 h2
      have hdlen : d.length = (args.data_len * m.getD 1).toNat := by
        simpa [taskLenOkM, hfet] using hok
      simp only [itemFootprint, writeFootprint, List.mem_range']
      exact ⟨q - fS, by omega, by omega⟩

/-- Under the `multiplier` fetcher length contract, the write interval of any
plan item (no offsets) stays inside
`[0, (datetime_len · multiplier) · |columns|)`. -/
theorem columnItems_span_boundM {α V : Type} [LinearOrder α] [Inhabited α]
    (cc : Option Nat) (datetimeLen : Int) (columns : List α)
    (numTicksPerDay : Int) (timeIdxToDateIdx dateColumnsOffset : List Int)
    (columnsGetter : Int → Int → List α) (m : Option Int) (tsi tei : Nat)
    (fetch : FetcherArgs → Except MemError (List V))
    (hshape : ValidDayShape numTicksPerDay timeIdxToDateIdx tsi tei)
    (htei : (tei : Int) - (tsi : Int) + 1 ≤ datetimeLen)
    (hm : 1 ≤ m.getD 1)
    (hfl : ∀ it ∈ columnItems cc datetimeLen columns numTicksPerDay
      timeIdxToDateIdx dateColumnsOffset columnsGetter m none tsi tei,
      taskLenOkM (m.getD 1) fetch it = true) :
    ∀ it ∈ columnItems cc datetimeLen columns numTicksPerDay timeIdxToDateIdx
        dateColumnsOffset columnsGetter m none tsi tei,
      (itemSpan fetch it).1 + (itemSpan fetch it).2 ≤
        (datetimeLen * m.getD 1).toNat * columns.length := by
  intro it hit
  obtain ⟨i, hi, hieq⟩ := List.mem_iff_getElem.mp hit
  obtain ⟨hnpos, hLtot, hk, hfp⟩ := columnItems_getD_closed_footprintM cc
    datetimeLen columns numTicksPerDay timeIdxToDateIdx dateColumnsOffset
    columnsGetter m tsi tei hshape i hi
  rw [List.getD_eq_getElem _ _ hi, hieq] at hfp
  have hbnd := columnItems_footprint_boundM cc datetimeLen columns
    numTicksPerDay timeIdxToDateIdx dateColumnsOffset columnsGetter m tsi tei
    hshape htei hm it hit
  have hlen1 : 1 ≤ dayLenOf numTicksPerDay tsi tei
      ((timeIdxToDateIdx.getD tei 0 + 1 - timeIdxToDateIdx.getD tsi 0).toNat)
      (i / columns.length) :=
    (dayLen_bounds numTicksPerDay timeIdxToDateIdx tsi tei (i / columns.length)
      hshape hk).1
  have hBpos : 1 ≤ (dayLenOf numTicksPerDay tsi tei
      ((timeIdxToDateIdx.getD tei 0 + 1 - timeIdxToDateIdx.getD tsi 0).toNat)
      (i / columns.length) * m.getD 1).toNat :=
    one_le_toNat_mul hlen1 hm
  have hflen := congrArg List.length hfp
  rw [List.length_range'] at hflen
  cases it with
  | nanFill fS n =>
    have hn : n = (dayLenOf numTicksPerDay tsi tei
        ((timeIdxToDateIdx.getD tei 0 + 1 -
          timeIdxToDateIdx.getD tsi 0).toNat) (i / columns.length) *
        m.getD 1).toNat := by
      simpa [itemFootprint, writeFootprint, List.length_range'] using hflen
    have hmem : fS + n - 1 ∈ itemFootprint none m (PlanItem.nanFill fS n) := by
      simp only [itemFootprint, writeFootprint, List.mem_range']
      exact ⟨n - 1, by omega, by omega⟩
    have := hbnd _ hmem
    simp only [itemSpan]
    omega
  | task args fS =>
    have hok := hfl _ hit
    have hflen' : (args.data_len * m.getD 1).toNat =
        (dayLenOf numTicksPerDay tsi tei
          ((timeIdxToDateIdx.getD tei 0 + 1 -
            timeIdxToDateIdx.getD tsi 0).toNat) (i / columns.length) *
          m.getD 1).toNat := by
      simpa [itemFootprint, writeFootprint, List.length_range'] using hflen
    have hdl1 : 1 ≤ (args.data_len * m.getD 1).toNat := by
      rw [hflen']
      exact hBpos
    have hmem : fS + (args.data_len * m.getD 1).toNat - 1 ∈
        itemFootprint none m (PlanItem.task args fS) := by
      simp only [itemFootprint, writeFootprint, List.mem_range']
      exact ⟨(args.data_len * m.getD 1).toNat - 1, by omega, by omega⟩
    have hub := hbnd _ hmem
    cases hfet : fetch args with
    | error e =>
      have hmem0 : fS ∈ itemFootprint none m (PlanItem.task args fS) := by
        simp only [itemFootprint, writeFootprint, List.mem_range']
        exact ⟨0, by omega, by omega⟩
      have := hbnd _ hmem0
      simp only [itemSpan, hfet]
      omega
    | ok d =>
      have hdlen : d.length = (args.data_len * m.getD 1).toNat := by
        simpa [taskLenOkM, hfet] using hok
      simp only [itemSpan, hfet]
      omega

/-- With a multiplier and no offsets the planned footprints of distinct
`(day, requested column)` pairs are still pairwise disjoint: every range is
the plain range scaled by `multiplier`. -/
theorem columnItems_pairwise_disjointM {α : Type} [LinearOrder α] [Inhabited α]
    (cc : Option Nat) (datetimeLen : Int) (columns : List α)
    (numTicksPerDay : Int) (timeIdxToDateIdx dateColumnsOffset : List Int)
    (columnsGetter : Int → Int → List α) (m : Option Int) (tsi tei : Nat)
    (hshape : ValidDayShape numTicksPerDay timeIdxToDateIdx tsi tei)
    (htei : (tei : Int) - (tsi : Int) + 1 ≤ datetimeLen)
    (hm : 1 ≤ m.getD 1) :
    List.Pairwise (fun it1 it2 => ∀ p, p ∈ itemFootprint none m it1 →
        p ∉ itemFootprint none m it2)
      (columnItems cc datetimeLen columns numTicksPerDay timeIdxToDateIdx
        dateColumnsOffset columnsGetter m none tsi tei) := by
  rw [columnItems_closed_mult cc datetimeLen columns numTicksPerDay
    timeIdxToDateIdx dateColumnsOffset columnsGetter m tsi tei hshape]
  refine flatMap_blocks_pairwise_disjointM (datetimeLen * m.getD 1)
    (itemFootprint none m) _ columns.length _
    (fun k => timeOffsetOf numTicksPerDay tsi (timeIdxToDateIdx.getD tsi 0) k *
      m.getD 1)
    (fun k => dayLenOf numTicksPerDay tsi tei
      ((timeIdxToDateIdx.getD tei 0 + 1 - timeIdxToDateIdx.getD tsi 0).toNat) k *
      m.getD 1)
    (fun k => columnDayItems_length _ _ _ _ _ _ _ _ _ _ _ _ _ _ _ _)
    (fun k j hj => ?_) (fun k hk => ?_) (fun k hk => ?_)
    (fun k k2 hkk hk2 => ?_) (fun k hk => ?_)
  · rw [columnDayItems_getD_footprint_mult cc datetimeLen columns
      numTicksPerDay m _ tsi tei _ _ k _ _ _ j hj,
      show ((j : Int) * datetimeLen +
          timeOffsetOf numTicksPerDay tsi (timeIdxToDateIdx.getD tsi 0) k) *
          m.getD 1 =
        (j : Int) * (datetimeLen * m.getD 1) +
          timeOffsetOf numTicksPerDay tsi (timeIdxToDateIdx.getD tsi 0) k *
          m.getD 1 from by ring]
  · exact mul_nonneg (timeOffset_nonneg numTicksPerDay timeIdxToDateIdx tsi
      tei k hshape hk) (by omega)
  · exact one_le_mul_i ((dayLen_bounds numTicksPerDay timeIdxToDateIdx tsi tei
      k hshape hk).1) hm
  · exact scale_chain (timeOffset_chain numTicksPerDay timeIdxToDateIdx tsi
      tei k k2 hshape hkk hk2) (by omega)
  · exact scale_chain (le_trans (timeOffset_bound numTicksPerDay
      timeIdxToDateIdx tsi tei k hshape hk) htei) (by omega)

/-- A cell covered by the `nan_fill` at position `i0` of a pairwise-disjoint
`multiplier` plan holds NaN in the final output. -/
theorem runItems_nanfill_persist_of_pairwiseM {V : Type} (FL : FloatLike V)
    (m : Option Int) (fetch : FetcherArgs → Except MemError (List V)) (dflt : V)
    (items : List PlanItem) (flattened out : List V)
    (Hb : ∀ it ∈ items, (itemSpan fetch it).1 + (itemSpan fetch it).2 ≤
      flattened.length)
    (hfl : ∀ it ∈ items, taskLenOkM (m.getD 1) fetch it = true)
    (hpw : List.Pairwise (fun it1 it2 => ∀ p,
      p ∈ itemFootprint none m it1 → p ∉ itemFootprint none m it2) items)
    (hrun : runItems FL none m fetch items flattened = .ok out)
    (i0 fS n : Nat) (hi0 : i0 < items.length)
    (hitem : items.getD i0 (PlanItem.nanFill 0 0) = PlanItem.nanFill fS n)
    (q : Nat) (hq1 : fS ≤ q) (hq2 : q < fS + n) (hqL : q < flattened.length) :
    out.getD q dflt = FL.nan := by
  rw [List.getD_eq_getElem _ _ hi0] at hitem
  have hdecomp : items = items.take i0 ++ PlanItem.nanFill fS n ::
      items.drop (i0 + 1) := by
    conv_lhs => rw [← List.take_append_drop i0 items]
    rw [List.drop_eq_getElem_cons hi0, hitem]
  have hqfp : q ∈ itemFootprint none m (items[i0]) := by
    rw [hitem]
    simp only [itemFootprint, writeFootprint, List.mem_range']
    exact ⟨q - fS, by omega, by omega⟩
  have hno2 : ∀ it ∈ items.drop (i0 + 1),
      ¬ ((itemSpan fetch it).1 ≤ q ∧
        q < (itemSpan fetch it).1 + (itemSpan fetch it).2) := by
    intro it hm2 hcov
    obtain ⟨r, hr, hreq⟩ := List.mem_iff_getElem.mp hm2
    have hidx : i0 + 1 + r < items.length := by
      rw [List.length_drop] at hr
      omega
    have hit' : items[i0 + 1 + r] = it := by
      rw [← hreq, List.getElem_drop]
    have hdisj := (List.pairwise_iff_getElem.mp hpw) i0 (i0 + 1 + r) hi0 hidx
      (by omega)
    have hmem' : q ∈ itemFootprint none m it :=
      span_cover_footprintM m fetch it (hfl it (List.mem_of_mem_drop hm2)) q
        hcov.1 hcov.2
    exact (hdisj q hqfp) (hit' ▸ hmem')
  refine runItems_nan_persist FL m fetch dflt (items.take i0)
    (items.drop (i0 + 1)) fS n q flattened out ?_ hq1 hq2 hqL hno2 ?_
  · intro it hm2
    apply Hb
    rw [hdecomp]
    exact hm2
  · rw [← hdecomp]
    exact hrun

/-- Every cell of a `nan_fill` of the `multiplier` plan (no offsets) holds
NaN in the final output. -/
theorem columnItems_missing_nan_persistsM {α V : Type} [LinearOrder α]
    [Inhabited α] (FL : FloatLike V) (dflt : V) (cc : Option Nat)
    (datetimeLen : Int) (columns : List α) (numTicksPerDay : Int)
    (timeIdxToDateIdx dateColumnsOffset : List Int)
    (columnsGetter : Int → Int → List α) (m : Option Int) (tsi tei : Nat)
    (fetch : FetcherArgs → Except MemError (List V)) (flattened out : List V)
    (hshape : ValidDayShape numTicksPerDay timeIdxToDateIdx tsi tei)
    (htei : (tei : Int) - (tsi : Int) + 1 ≤ datetimeLen)
    (hm : 1 ≤ m.getD 1)
    (hL : (datetimeLen * m.getD 1).toNat * columns.length ≤ flattened.length)
    (hfl : ∀ it ∈ columnItems cc datetimeLen columns numTicksPerDay
      timeIdxToDateIdx dateColumnsOffset columnsGetter m none tsi tei,
      taskLenOkM (m.getD 1) fetch it = true)
    (hrun : runItems FL none m fetch
      (columnItems cc datetimeLen columns numTicksPerDay timeIdxToDateIdx
        dateColumnsOffset columnsGetter m none tsi tei) flattened = .ok out)
    (i0 fS n : Nat)
    (hi0 : i0 < (columnItems cc datetimeLen columns numTicksPerDay
      timeIdxToDateIdx dateColumnsOffset columnsGetter m none tsi tei).length)
    (hitem : (columnItems cc datetimeLen columns numTicksPerDay
      timeIdxToDateIdx dateColumnsOffset columnsGetter m none
      tsi tei).getD i0 (PlanItem.nanFill 0 0) = PlanItem.nanFill fS n)
    (q : Nat) (hq1 : fS ≤ q) (hq2 : q < fS + n) :
    out.getD q dflt = FL.nan := by
  have Hb : ∀ it ∈ columnItems cc datetimeLen columns numTicksPerDay
      timeIdxToDateIdx dateColumnsOffset columnsGetter m none tsi tei,
      (itemSpan fetch it).1 + (itemSpan fetch it).2 ≤ flattened.length :=
    fun it hm2 => le_trans (columnItems_span_boundM cc datetimeLen columns
      numTicksPerDay timeIdxToDateIdx dateColumnsOffset columnsGetter m tsi
      tei fetch hshape htei hm hfl it hm2) hL
  have hpw := columnItems_pairwise_disjointM cc datetimeLen columns
    numTicksPerDay timeIdxToDateIdx dateColumnsOffset columnsGetter m tsi tei
    hshape htei hm
  have hmem0 : (columnItems cc datetimeLen columns numTicksPerDay
      timeIdxToDateIdx dateColumnsOffset columnsGetter m none
      tsi tei).getD i0 (PlanItem.nanFill 0 0) ∈
      columnItems cc datetimeLen columns numTicksPerDay timeIdxToDateIdx
        dateColumnsOffset columnsGetter m none tsi tei := by
    rw [List.getD_eq_getElem _ _ hi0]
    exact List.getElem_mem hi0
  have hqfp : q ∈ itemFootprint none m
      ((columnItems cc datetimeLen columns numTicksPerDay timeIdxToDateIdx
        dateColumnsOffset columnsGetter m none tsi tei).getD i0
        (PlanItem.nanFill 0 0)) := by
    rw [hitem]
    simp only [itemFootprint, writeFootprint, List.mem_range']
    exact ⟨q - fS, by omega, by omega⟩
  have hqL : q < flattened.length := by
    have := columnItems_footprint_boundM cc datetimeLen columns numTicksPerDay
      timeIdxToDateIdx dateColumnsOffset columnsGetter m tsi tei hshape htei
      hm _ hmem0 q hqfp
    omega
  exact runItems_nanfill_persist_of_pairwiseM FL m fetch dflt _ flattened out
    Hb hfl hpw hrun i0 fS n hi0 hitem q hq1 hq2 hqL

/-- In the `multiplier` plan (no offsets) a NaN output cell comes from a
missing symbol's `nan_fill` whenever neither the initial buffer nor the
backing store holds NaN. -/
theorem columnItems_nan_only_from_missingM {α V : Type} [LinearOrder α]
    [Inhabited α] (FL : FloatLike V) (dflt : V) (cc : Option Nat)
    (datetimeLen : Int) (columns : List α) (numTicksPerDay : Int)
    (timeIdxToDateIdx dateColumnsOffset : List Int)
    (columnsGetter : Int → Int → List α) (m : Option Int) (tsi tei : Nat)
    (fetch : FetcherArgs → Except MemError (List V)) (flattened out : List V)
    (hshape : ValidDayShape numTicksPerDay timeIdxToDateIdx tsi tei)
    (htei : (tei : Int) - (tsi : Int) + 1 ≤ datetimeLen)
    (hm : 1 ≤ m.getD 1)
    (hL : (datetimeLen * m.getD 1).toNat * columns.length ≤ flattened.length)
    (hfl : ∀ it ∈ columnItems cc datetimeLen columns numTicksPerDay
      timeIdxToDateIdx dateColumnsOffset columnsGetter m none tsi tei,
      taskLenOkM (m.getD 1) fetch it = true)
    (hbuf0 : ∀ q, q < flattened.length →
      FL.isNan (flattened.getD q dflt) = false)
    (hnn : ∀ it ∈ columnItems cc datetimeLen columns numTicksPerDay
      timeIdxToDateIdx dateColumnsOffset columnsGetter m none tsi tei,
      fetchNoNan FL fetch it = true)
    (hrun : runItems FL none m fetch
      (columnItems cc datetimeLen columns numTicksPerDay timeIdxToDateIdx
        dateColumnsOffset columnsGetter m none tsi tei) flattened = .ok out)
    (q : Nat) (hqL : q < flattened.length)
    (hnan : FL.isNan (out.getD q dflt) = true) :
    ∃ fS n, PlanItem.nanFill fS n ∈ columnItems cc datetimeLen columns
      numTicksPerDay timeIdxToDateIdx dateColumnsOffset columnsGetter
      m none tsi tei ∧ fS ≤ q ∧ q < fS + n := by
  have Hb : ∀ it ∈ columnItems cc datetimeLen columns numTicksPerDay
      timeIdxToDateIdx dateColumnsOffset columnsGetter m none tsi tei,
      (itemSpan fetch it).1 + (itemSpan fetch it).2 ≤ flattened.length :=
    fun it hm2 => le_trans (columnItems_span_boundM cc datetimeLen columns
      numTicksPerDay timeIdxToDateIdx dateColumnsOffset columnsGetter m tsi
      tei fetch hshape htei hm hfl it hm2) hL
  obtain ⟨hlen, hcells⟩ := runItems_cells FL m fetch dflt _ flattened out
    Hb hrun
  obtain ⟨_, hprov⟩ := hcells q hqL
  rcases hprov with h | ⟨fS, n, hm2, h1, h2, _⟩ |
    ⟨args, fS, d, hm2, hf, h1, h2, h3⟩
  · rw [h, hbuf0 q hqL] at hnan
    exact absurd hnan (by simp)
  · exact ⟨fS, n, hm2, h1, h2⟩
  · exfalso
    have hnd := hnn _ hm2
    simp only [fetchNoNan, hf] at hnd
    have helem : d.getD (q - fS) dflt ∈ d := by
      rw [List.getD_eq_getElem _ _ (by omega)]
      exact List.getElem_mem _
    have hv := List.all_eq_true.mp hnd _ helem
    rw [h3] at hnan
    rw [hnan] at hv
    exact absurd hv (by simp)

theorem getD_set_ne {V : Type} (l : List V) (i j : Nat) (a dflt : V)
    (h : i ≠ j) : (l.set i a).getD j dflt = l.getD j dflt := by
  rw [List.getD_eq_getElem?_getD, List.getD_eq_getElem?_getD,
    List.getElem?_set_ne h]

theorem getD_set_eq {V : Type} (l : List V) (i : Nat) (a dflt : V)
    (h : i < l.length) : (l.set i a).getD i dflt = a := by
  rw [List.getD_eq_getElem _ _ (by rw [List.length_set]; exact h),
    List.getElem_set, if_pos rfl]

/-- A fold of single-cell writes leaves every position it never names
unchanged. -/
theorem setFold_getD_untouched {V : Type} (f : Nat → Nat) (dflt : V) :
    ∀ (ps : List (Nat × V)) (buf : List V) (q : Nat),
      (∀ rx ∈ ps, q ≠ f rx.1) →
      (ps.foldl (fun b rx => b.set (f rx.1) rx.2) buf).getD q dflt =
        buf.getD q dflt := by
  intro ps
  induction ps with
  | nil => intro buf q _; rfl
  | cons rx rest ih =>
    intro buf q hq
    rw [List.foldl_cons,
      ih _ q (fun r hr => hq r (List.mem_cons_of_mem _ hr)),
      getD_set_ne _ _ _ _ _ (fun h => hq rx (List.mem_cons_self _ _) h.symm)]

/-- A fold of single-cell writes whose written values are all `v0` stores
`v0` at every position it names (that is in range). -/
theorem setFold_getD_allsame {V : Type} (f : Nat → Nat) (dflt v0 : V) :
    ∀ (ps : List (Nat × V)) (buf : List V) (q : Nat),
      (∀ rx ∈ ps, rx.2 = v0) →
      (∃ rx ∈ ps, q = f rx.1) → q < buf.length →
      (ps.foldl (fun b rx => b.set (f rx.1) rx.2) buf).getD q dflt = v0 := by
  intro ps
  induction ps with
  | nil =>
    intro buf q _ hex _
    obtain ⟨rx, h, _⟩ := hex
    exact absurd h (List.not_mem_nil _)
  | cons rx rest ih =>
    intro buf q hv hex hq
    rw [List.foldl_cons]
    by_cases hcov : ∃ ry ∈ rest, q = f ry.1
    · exact ih _ q (fun r hr => hv r (List.mem_cons_of_mem _ hr)) hcov
        (by rw [List.length_set]; exact hq)
    · have hqrx : q = f rx.1 := by
        obtain ⟨ry, hry, heq⟩ := hex
        rcases List.mem_cons.mp hry with h | h
        · rw [heq, h]
        · exact absurd ⟨ry, h, heq⟩ hcov
      push_neg at hcov
      rw [setFold_getD_untouched f dflt rest _ q hcov, hqrx,
        getD_set_eq _ _ _ _ (by omega)]
      exact hv rx (List.mem_cons_self _ _)

/-- Every cell after a fold of single-cell writes is its initial value or one
of the written values. -/
theorem setFold_getD_provenance {V : Type} (f : Nat → Nat) (dflt : V) :
    ∀ (ps : List (Nat × V)) (buf : List V) (q : Nat),
      (ps.foldl (fun b rx => b.set (f rx.1) rx.2) buf).getD q dflt =
        buf.getD q dflt ∨
      ∃ rx ∈ ps, (ps.foldl (fun b rx => b.set (f rx.1) rx.2) buf).getD q dflt
        = rx.2 := by
  intro ps
  induction ps with
  | nil => intro buf q; exact Or.inl rfl
  | cons rx rest ih =>
    intro buf q
    rw [List.foldl_cons]
    rcases ih (buf.set (f rx.1) rx.2) q with h | ⟨ry, hry, h⟩
    · by_cases he : f rx.1 = q
      · subst he
        by_cases hlen : f rx.1 < buf.length
        · exact Or.inr ⟨rx, List.mem_cons_self _ _,
            by rw [h, getD_set_eq _ _ _ _ hlen]⟩
        · refine Or.inl ?_
          rw [h, List.getD_eq_default _ _ (by rw [List.length_set]; omega),
            List.getD_eq_default _ _ (by omega)]
      · exact Or.inl (by rw [h, getD_set_ne _ _ _ _ _ he])
    · exact Or.inr ⟨ry, List.mem_cons_of_mem _ hry, h⟩

/-- `row_contiguous`'s NaN fill for a missing symbol writes NaN to exactly the
`date_count` cells `(time_idx + r) · num_columns + j` a present symbol's data
would occupy, and touches nothing else. -/
theorem rowFillApply_nan {V : Type} (FL : FloatLike V) (dflt : V)
    (numColumns : Nat) (buf : List V) (t : Int) (j n : Nat) :
    (∀ r, r < n → (t.toNat + r) * numColumns + j < buf.length →
      (rowFillApply numColumns buf ⟨t, j, List.replicate n FL.nan⟩).getD
        ((t.toNat + r) * numColumns + j) dflt = FL.nan) ∧
    (∀ q, (∀ r, r < n → q ≠ (t.toNat + r) * numColumns + j) →
      (rowFillApply numColumns buf ⟨t, j, List.replicate n FL.nan⟩).getD q
        dflt = buf.getD q dflt) := by
  have hmem : ∀ rx ∈ (List.replicate n FL.nan).enum, rx.2 = FL.nan ∧
      rx.1 < n := by
    intro rx hrx
    obtain ⟨i, hi, hieq⟩ := List.mem_iff_getElem.mp hrx
    rw [List.getElem_enum] at hieq
    have hilen : i < n := by
      rw [List.enum_length, List.length_replicate] at hi
      exact hi
    rw [← hieq]
    exact ⟨by rw [List.getElem_replicate], hilen⟩
  constructor
  · intro r hr hin
    show ((List.replicate n FL.nan).enum.foldl
        (fun b rx => b.set ((t.toNat + rx.1) * numColumns + j) rx.2)
        buf).getD ((t.toNat + r) * numColumns + j) dflt = FL.nan
    refine setFold_getD_allsame
      (fun r => (t.toNat + r) * numColumns + j) dflt FL.nan _ buf _
      (fun rx hrx => (hmem rx hrx).1) ?_ hin
    refine ⟨(r, FL.nan), ?_, rfl⟩
    rw [List.mem_iff_getElem]
    refine ⟨r, by rw [List.enum_length, List.length_replicate]; exact hr, ?_⟩
    rw [List.getElem_enum, List.getElem_replicate]
  · intro q hq
    exact setFold_getD_untouched
      (fun r => (t.toNat + r) * numColumns + j) dflt _ buf q
      (fun rx hrx => hq rx.1 (hmem rx hrx).2)

/-- Per-cell provenance of one `row_contiguous` fill. -/
theorem rowFillApply_provenance {V : Type} (numColumns : Nat) (dflt : V)
    (buf : List V) (rf : RowFill V) (q : Nat) :
    (rowFillApply numColumns buf rf).getD q dflt = buf.getD q dflt ∨
    ∃ r, r < rf.data.length ∧
      (rowFillApply numColumns buf rf).getD q dflt = rf.data.getD r dflt := by
  rcases setFold_getD_provenance
      (fun r => (rf.timeIdx.toNat + r) * numColumns + rf.j) dflt
      rf.data.enum buf q with h | ⟨rx, hrx, h⟩
  · exact Or.inl h
  · obtain ⟨i, hi, hieq⟩ := List.mem_iff_getElem.mp hrx
    rw [List.getElem_enum] at hieq
    have hilen : i < rf.data.length := by
      rw [List.enum_length] at hi
      exact hi
    refine Or.inr ⟨i, hilen, ?_⟩
    show (List.foldl (fun b rx =>
        b.set ((rf.timeIdx.toNat + rx.1) * numColumns + rf.j) rx.2) buf
        rf.data.enum).getD q dflt = rf.data.getD i dflt
    rw [h, ← hieq, List.getD_eq_getElem _ _ hilen]

/-- Every cell after all `row_contiguous` fills is its initial value or an
element of some fill's data. -/
theorem rowFills_foldl_provenance {V : Type} (numColumns : Nat) (dflt : V) :
    ∀ (fills : List (RowFill V)) (buf : List V) (q : Nat),
      (fills.foldl (rowFillApply numColumns) buf).getD q dflt =
        buf.getD q dflt ∨
      ∃ fill ∈ fills, ∃ r, r < fill.data.length ∧
        (fills.foldl (rowFillApply numColumns) buf).getD q dflt =
          fill.data.getD r dflt := by
  intro fills
  induction fills with
  | nil => intro buf q; exact Or.inl rfl
  | cons rf rest ih =>
    intro buf q
    rw [List.foldl_cons]
    rcases ih (rowFillApply numColumns buf rf) q with h | ⟨fill, hm, r, hr, h⟩
    · rcases rowFillApply_provenance numColumns dflt buf rf q with h2 | ⟨r, hr, h2⟩
      · exact Or.inl (by rw [h, h2])
      · exact Or.inr ⟨rf, List.mem_cons_self _ _, r, hr, by rw [h, h2]⟩
    · exact Or.inr ⟨fill, List.mem_cons_of_mem _ hm, r, hr, h⟩

/-- The head day block of `row_contiguous` contributes, for each requested
column `j`, a fill at row `time_idx` column `j` of `date_count` values —
the transposed block column when the symbol is present, `date_count` NaNs
when it is missing (same position and cell count either way). -/
theorem rowItemsGo_head_fills {α V : Type} [LinearOrder α] [Inhabited α]
    (FL : FloatLike V) (columns : List α) (dataGetter : Int → Int → List V)
    (startIdx : Int) (dateCount : Int) (dateColumns : List α)
    (rest : List (Int × List α)) (cursor timeIdx : Int)
    (fills : List (RowFill V))
    (hok : rowItemsGo FL columns dataGetter startIdx
      ((dateCount, dateColumns) :: rest) cursor timeIdx = .ok fills)
    (hsorted : dateColumns.Sorted (· ≤ ·)) (hne : dateColumns ≠ [])
    (j : Nat) (hj : j < columns.length) :
    ∃ data, fills.getD j ⟨0, 0, []⟩ = ⟨timeIdx, j, data⟩ ∧
      data.length = dateCount.toNat ∧
      (columns[j] ∈ dateColumns →
        data = (List.range dateCount.toNat).map (fun r =>
          (dataGetter (startIdx + cursor)
            (startIdx + (cursor + dateCount * (dateColumns.length : Int)))).getD
            (r * dateColumns.length + searchsorted dateColumns columns[j])
            FL.nan)) ∧
      (columns[j] ∉ dateColumns →
        data = List.replicate dateCount.toNat FL.nan) := by
  simp only [rowItemsGo] at hok
  split at hok
  · exact absurd hok (by simp)
  · cases hr : rowItemsGo FL columns dataGetter startIdx rest
        (cursor + dateCount * (dateColumns.length : Int))
        (timeIdx + dateCount) with
    | error e =>
      rw [hr] at hok
      simp only [Except.map] at hok
      exact absurd hok (by simp)
    | ok restItems =>
      rw [hr] at hok
      simp only [Except.map, Except.ok.injEq] at hok
      subst hok
      rw [List.getD_append _ _ _ _
        (by rw [List.length_map, List.enum_length]; exact hj)]
      rw [List.getD_eq_getElem _ _
        (by rw [List.length_map, List.enum_length]; exact hj)]
      simp only [List.getElem_map, List.getElem_enum]
      by_cases hmem : columns[j] ∈ dateColumns
      · rw [if_pos ((presence_iff dateColumns columns[j] default hsorted
          hne).mpr hmem)]
        refine ⟨_, rfl, ?_, fun _ => rfl, fun h => absurd hmem h⟩
        rw [List.length_map, List.length_range]
      · have htest : ¬ (dateColumns.getD
            (if dateColumns.length ≤ searchsorted dateColumns columns[j]
              then 0 else searchsorted dateColumns columns[j]) default =
            columns[j]) :=
          fun h => hmem ((presence_iff dateColumns columns[j] default hsorted
            hne).mp h)
        rw [if_neg htest]
        refine ⟨_, rfl, ?_, fun h => absurd h hmem, fun _ => rfl⟩
        rw [List.length_replicate]

theorem list_split_at {β : Type} (l : List β) (i : Nat) (h : i < l.length) :
    l = l.take i ++ l[i] :: l.drop (i + 1) := by
  conv_lhs => rw [← List.take_append_drop i l]
  rw [List.drop_eq_getElem_cons h]

theorem mem_enum_fst_lt {β : Type} (l : List β) (rx : Nat × β)
    (h : rx ∈ l.enum) : rx.1 < l.length := by
  obtain ⟨i, hi, hieq⟩ := List.mem_iff_getElem.mp h
  rw [List.getElem_enum] at hieq
  rw [List.enum_length] at hi
  rw [← hieq]
  exact hi

/-- Distinct `row_contiguous` cells: two writes `(T + r) · nc + j` coincide
only when both the column and the row agree. -/
theorem rowCell_ne (nc T1 r1 j1 T2 r2 j2 : Nat) (hj1 : j1 < nc)
    (hj2 : j2 < nc) (hne : j1 ≠ j2 ∨ T1 + r1 ≠ T2 + r2) :
    (T1 + r1) * nc + j1 ≠ (T2 + r2) * nc + j2 := by
  intro h
  have hmodeq : j1 = j2 := by
    have h1 : ((T1 + r1) * nc + j1) % nc = ((T2 + r2) * nc + j2) % nc := by
      rw [h]
    rw [show (T1 + r1) * nc + j1 = nc * (T1 + r1) + j1 from by ring,
      show (T2 + r2) * nc + j2 = nc * (T2 + r2) + j2 from by ring,
      Nat.mul_add_mod, Nat.mul_add_mod, Nat.mod_eq_of_lt hj1,
      Nat.mod_eq_of_lt hj2] at h1
    exact h1
  subst hmodeq
  have hncpos : 0 < nc := by omega
  have hmul : (T1 + r1) * nc = (T2 + r2) * nc := by omega
  have hrow : T1 + r1 = T2 + r2 := Nat.eq_of_mul_eq_mul_right hncpos hmul
  rcases hne with h' | h'
  · exact h' rfl
  · exact h' hrow

theorem rowFillApply_length {V : Type} (nc : Nat) (buf : List V)
    (rf : RowFill V) : (rowFillApply nc buf rf).length = buf.length := by
  show (rf.data.enum.foldl (fun b rx =>
    b.set ((rf.timeIdx.toNat + rx.1) * nc + rf.j) rx.2) buf).length =
    buf.length
  generalize rf.data.enum = ps
  induction ps generalizing buf with
  | nil => rfl
  | cons rx rest ih =>
    rw [List.foldl_cons, ih, List.length_set]

theorem rowFills_length {V : Type} (nc : Nat) :
    ∀ (fills : List (RowFill V)) (buf : List V),
      (fills.foldl (rowFillApply nc) buf).length = buf.length := by
  intro fills
  induction fills with
  | nil => intro buf; rfl
  | cons rf rest ih =>
    intro buf
    rw [List.foldl_cons, ih, rowFillApply_length]

/-- A `row_contiguous` fill leaves every cell it never names unchanged. -/
theorem rowFillApply_untouched {V : Type} (nc : Nat) (dflt : V)
    (buf : List V) (rf : RowFill V) (q : Nat)
    (hq : ∀ r, r < rf.data.length → q ≠ (rf.timeIdx.toNat + r) * nc + rf.j) :
    (rowFillApply nc buf rf).getD q dflt = buf.getD q dflt := by
  show (rf.data.enum.foldl (fun b rx =>
    b.set ((rf.timeIdx.toNat + rx.1) * nc + rf.j) rx.2) buf).getD q dflt =
    buf.getD q dflt
  exact setFold_getD_untouched (fun r => (rf.timeIdx.toNat + r) * nc + rf.j)
    dflt rf.data.enum buf q
    (fun rx hrx => hq rx.1 (mem_enum_fst_lt _ _ hrx))

theorem rowFills_untouched {V : Type} (nc : Nat) (dflt : V) :
    ∀ (fills : List (RowFill V)) (buf : List V) (q : Nat),
      (∀ fill ∈ fills, ∀ r, r < fill.data.length →
        q ≠ (fill.timeIdx.toNat + r) * nc + fill.j) →
      (fills.foldl (rowFillApply nc) buf).getD q dflt = buf.getD q dflt := by
  intro fills
  induction fills with
  | nil => intro buf q _; rfl
  | cons rf rest ih =>
    intro buf q hq
    rw [List.foldl_cons,
      ih _ q (fun fill hm => hq fill (List.mem_cons_of_mem _ hm)),
      rowFillApply_untouched nc dflt buf rf q
        (hq rf (List.mem_cons_self _ _))]

/-- Folding one day's `row_contiguous` fills (one per requested column, in
column order, all at the same `time_idx`) over the buffer stores NaN at the
cells of a column whose fill is the NaN vector: the later columns of the
same day write other columns' cells. -/
theorem rowFills_enum_map_nan {α V : Type} (FL : FloatLike V) (dflt : V)
    (timeIdx : Int) (dn : Nat) (F : Nat × α → RowFill V) (columns : List α)
    (buf : List V)
    (hF : ∀ i, ∀ hi : i < columns.length,
      (F (i, columns[i])).timeIdx = timeIdx ∧ (F (i, columns[i])).j = i)
    (j r : Nat) (hj : j < columns.length)
    (hFj : F (j, columns[j]) = ⟨timeIdx, j, List.replicate dn FL.nan⟩)
    (hr : r < dn)
    (hq : (timeIdx.toNat + r) * columns.length + j < buf.length) :
    ((columns.enum.map F).foldl (rowFillApply columns.length) buf).getD
      ((timeIdx.toNat + r) * columns.length + j) dflt = FL.nan := by
  set l := columns.enum.map F with hl
  have hllen : l.length = columns.length := by
    rw [hl, List.length_map, List.enum_length]
  have hjl : j < l.length := by omega
  have helem : ∀ i2, ∀ hi2 : i2 < l.length, ∀ hic : i2 < columns.length,
      l[i2] = F (i2, columns[i2]) := by
    intro i2 hi2 hic
    simp only [hl, List.getElem_map, List.getElem_enum]
  have hlj : l[j] = (⟨timeIdx, j, List.replicate dn FL.nan⟩ : RowFill V) := by
    rw [helem j hjl hj, hFj]
  have hstep : l = l.take j ++
      (⟨timeIdx, j, List.replicate dn FL.nan⟩ : RowFill V) ::
        l.drop (j + 1) := by
    conv_lhs => rw [list_split_at l j hjl]
    rw [hlj]
  have hdropuntouched : ∀ fill ∈ l.drop (j + 1), ∀ r2,
      r2 < fill.data.length →
      (timeIdx.toNat + r) * columns.length + j ≠
        (fill.timeIdx.toNat + r2) * columns.length + fill.j := by
    intro fill hm r2 hr2
    obtain ⟨i2, hi2, hieq⟩ := List.mem_iff_getElem.mp hm
    have hlen2 : i2 < l.length - (j + 1) := by
      rw [List.length_drop] at hi2
      exact hi2
    have hidx : j + 1 + i2 < l.length := by omega
    have hfill : fill = F (j + 1 + i2, columns[j + 1 + i2]) := by
      rw [← hieq, List.getElem_drop]
      exact helem (j + 1 + i2) hidx (by omega)
    have hjf : fill.j = j + 1 + i2 := by
      rw [hfill]
      exact (hF (j + 1 + i2) (by omega)).2
    have hjflt : fill.j < columns.length := by omega
    exact rowCell_ne columns.length timeIdx.toNat r j fill.timeIdx.toNat r2
      fill.j hj hjflt (Or.inl (by omega))
  rw [hstep, List.foldl_append, List.foldl_cons,
    rowFills_untouched columns.length dflt (l.drop (j + 1)) _ _
      hdropuntouched]
  have hlen3 : ((l.take j).foldl (rowFillApply columns.length) buf).length =
      buf.length := rowFills_length _ _ _
  exact (rowFillApply_nan FL dflt columns.length
    ((l.take j).foldl (rowFillApply columns.length) buf) timeIdx j dn).1 r hr
    (by rw [hlen3]; exact hq)

/-- Every fill the day loop of `row_contiguous` emits sits at a row at or
after the loop's current `time_idx` and at a requested-column position. -/
theorem rowItemsGo_fills_shape {α V : Type} [LinearOrder α] [Inhabited α]
    (FL : FloatLike V) (columns : List α) (dataGetter : Int → Int → List V)
    (startIdx : Int) :
    ∀ (blocks : List (Int × List α)) (cursor timeIdx : Int)
      (fills : List (RowFill V)),
      rowItemsGo FL columns dataGetter startIdx blocks cursor timeIdx =
        .ok fills →
      (∀ bl ∈ blocks, 0 ≤ bl.1) →
      ∀ fill ∈ fills, timeIdx ≤ fill.timeIdx ∧ fill.j < columns.length := by
  intro blocks
  induction blocks with
  | nil =>
    intro cursor timeIdx fills hok _ fill hm
    simp only [rowItemsGo, Except.ok.injEq] at hok
    subst hok
    exact absurd hm (List.not_mem_nil _)
  | cons bl rest ih =>
    obtain ⟨dateCount, dateColumns⟩ := bl
    intro cursor timeIdx fills hok hdc fill hm
    have hdc0 : (0 : Int) ≤ dateCount := by
      have := hdc (dateCount, dateColumns) (List.mem_cons_self _ _)
      simpa using this
    simp only [rowItemsGo] at hok
    split at hok
    · exact absurd hok (by simp)
    · cases hrec : rowItemsGo FL columns dataGetter startIdx rest
          (cursor + dateCount * (dateColumns.length : Int))
          (timeIdx + dateCount) with
      | error e =>
        rw [hrec] at hok
        simp only [Except.map] at hok
        exact absurd hok (by simp)
      | ok restItems =>
        rw [hrec] at hok
        simp only [Except.map, Except.ok.injEq] at hok
        subst hok
        rcases List.mem_append.mp hm with hm1 | hm2
        · obtain ⟨i, hi, hieq⟩ := List.mem_iff_getElem.mp hm1
          have hilen : i < columns.length := by
            rw [List.length_map, List.enum_length] at hi
            exact hi
          rw [List.getElem_map, List.getElem_enum] at hieq
          have hfields : fill.timeIdx = timeIdx ∧ fill.j = i := by
            rw [← hieq]
            dsimp only
            split <;> split <;> exact ⟨rfl, rfl⟩
          refine ⟨le_of_eq hfields.1.symm, ?_⟩
          rw [hfields.2]
          exact hilen
        · have hsh := ih (cursor + dateCount * (dateColumns.length : Int))
            (timeIdx + dateCount) restItems hrec
            (fun bl2 hbl2 => hdc bl2 (List.mem_cons_of_mem _ hbl2)) fill hm2
          exact ⟨by omega, hsh.2⟩

/-- A missing symbol's cells of ANY day block hold NaN after all the fills of
`row_contiguous`'s day loop are applied: the block's own NaN fill writes
them, the block's other columns write other cells of the same rows, and
every later block writes later rows. -/
theorem rowItemsGo_missing_persists {α V : Type} [LinearOrder α] [Inhabited α]
    (FL : FloatLike V) (dflt : V) (columns : List α)
    (dataGetter : Int → Int → List V) (startIdx : Int) :
    ∀ (blocks : List (Int × List α)) (cursor timeIdx : Int)
      (fills : List (RowFill V)) (buf : List V),
      rowItemsGo FL columns dataGetter startIdx blocks cursor timeIdx =
        .ok fills →
      0 ≤ timeIdx →
      (∀ bl ∈ blocks, 0 ≤ bl.1) →
      ∀ b : Nat, b < blocks.length →
      ∀ j : Nat, ∀ hj : j < columns.length,
      (blocks.getD b (0, [])).2.Sorted (· ≤ ·) →
      (blocks.getD b (0, [])).2 ≠ [] →
      columns[j] ∉ (blocks.getD b (0, [])).2 →
      ∀ r : Nat, r < (blocks.getD b (0, [])).1.toNat →
      ((timeIdx + prefixDC blocks b).toNat + r) * columns.length + j <
        buf.length →
      (fills.foldl (rowFillApply columns.length) buf).getD
        (((timeIdx + prefixDC blocks b).toNat + r) * columns.length + j)
        dflt = FL.nan := by
  intro blocks
  induction blocks with
  | nil =>
    intro cursor timeIdx fills buf hok hT0 hdc b hb
    exact absurd hb (by simp)
  | cons bl rest ih =>
    obtain ⟨dateCount, dateColumns⟩ := bl
    intro cursor timeIdx fills buf hok hT0 hdc b hb j hj hsorted hne hmiss r
      hr hq
    have hdc0 : (0 : Int) ≤ dateCount := by
      have := hdc (dateCount, dateColumns) (List.mem_cons_self _ _)
      simpa using this
    simp only [rowItemsGo] at hok
    split at hok
    · exact absurd hok (by simp)
    · cases hrec : rowItemsGo FL columns dataGetter startIdx rest
          (cursor + dateCount * (dateColumns.length : Int))
          (timeIdx + dateCount) with
      | error e =>
        rw [hrec] at hok
        simp only [Except.map] at hok
        exact absurd hok (by simp)
      | ok restItems =>
        rw [hrec] at hok
        simp only [Except.map, Except.ok.injEq] at hok
        subst hok
        rw [List.foldl_append]
        cases b with
        | zero =>
          have hsorted' : dateColumns.Sorted (· ≤ ·) := hsorted
          have hne' : dateColumns ≠ [] := hne
          have hmiss' : columns[j] ∉ dateColumns := hmiss
          have hr' : r < dateCount.toNat := hr
          have hpz : prefixDC ((dateCount, dateColumns) :: rest) 0 = 0 := rfl
          rw [hpz, add_zero] at hq ⊢
          have hrestsh := rowItemsGo_fills_shape FL columns dataGetter
            startIdx rest (cursor + dateCount * (dateColumns.length : Int))
            (timeIdx + dateCount) restItems hrec
            (fun bl2 hbl2 => hdc bl2 (List.mem_cons_of_mem _ hbl2))
          have hrestuntouched : ∀ fill ∈ restItems, ∀ r2,
              r2 < fill.data.length →
              (timeIdx.toNat + r) * columns.length + j ≠
                (fill.timeIdx.toNat + r2) * columns.length + fill.j := by
            intro fill hm r2 hr2
            obtain ⟨hTle, hjlt⟩ := hrestsh fill hm
            exact rowCell_ne columns.length timeIdx.toNat r j
              fill.timeIdx.toNat r2 fill.j hj hjlt (Or.inr (by omega))
          rw [rowFills_untouched columns.length dflt restItems _ _
            hrestuntouched]
          refine rowFills_enum_map_nan FL dflt timeIdx dateCount.toNat _
            columns buf ?_ j r hj ?_ hr' hq
          · intro i hi
            dsimp only
            split <;> split <;> exact ⟨rfl, rfl⟩
          · dsimp only
            have htest : ¬ (dateColumns.getD
                (if dateColumns.length ≤ searchsorted dateColumns columns[j]
                  then 0 else searchsorted dateColumns columns[j]) default =
                columns[j]) :=
              fun h => hmiss' ((presence_iff dateColumns columns[j] default
                hsorted' hne').mp h)
            rw [if_neg htest]
        | succ b2 =>
          have hpz : prefixDC ((dateCount, dateColumns) :: rest) (b2 + 1) =
              dateCount + prefixDC rest b2 := rfl
          have hassoc : timeIdx + (dateCount + prefixDC rest b2) =
              timeIdx + dateCount + prefixDC rest b2 := by ring
          rw [hpz, hassoc] at hq ⊢
          rw [List.getD_cons_succ] at hsorted hne hmiss hr
          refine ih (cursor + dateCount * (dateColumns.length : Int))
            (timeIdx + dateCount) restItems _ hrec (by omega)
            (fun bl2 hbl2 => hdc bl2 (List.mem_cons_of_mem _ hbl2))
            b2 (by simpa using hb) j hj hsorted hne hmiss r hr ?_
          rw [rowFills_length]
          exact hq

/-- Data provenance of every fill of `row_contiguous`'s day loop over sorted,
non-empty per-day column lists: each fill carries the `date_count` of a
contributing block and is either a missing symbol's NaN vector or a vector of
values read from the backing store. -/
theorem rowItemsGo_fills_data {α V : Type} [LinearOrder α] [Inhabited α]
    (FL : FloatLike V) (columns : List α) (dataGetter : Int → Int → List V)
    (startIdx : Int) :
    ∀ (blocks : List (Int × List α)) (cursor timeIdx : Int)
      (fills : List (RowFill V)),
      rowItemsGo FL columns dataGetter startIdx blocks cursor timeIdx =
        .ok fills →
      (∀ bl ∈ blocks, 0 ≤ bl.1 ∧ bl.2.Sorted (· ≤ ·) ∧ bl.2 ≠ []) →
      ∀ fill ∈ fills, ∃ hjf : fill.j < columns.length, ∃ bl ∈ blocks,
        fill.data.length = bl.1.toNat ∧
        ((columns[fill.j] ∉ bl.2 ∧
            fill.data = List.replicate bl.1.toNat FL.nan) ∨
          (columns[fill.j] ∈ bl.2 ∧
            ∀ v ∈ fill.data, ∃ a e : Int, v ∈ dataGetter a e)) := by
  intro blocks
  induction blocks with
  | nil =>
    intro cursor timeIdx fills hok _ fill hm
    simp only [rowItemsGo, Except.ok.injEq] at hok
    subst hok
    exact absurd hm (List.not_mem_nil _)
  | cons bl rest ih =>
    obtain ⟨dateCount, dateColumns⟩ := bl
    intro cursor timeIdx fills hok hblocks fill hm
    obtain ⟨hdc0, hsorted, hne⟩ :
        (0 : Int) ≤ dateCount ∧ dateColumns.Sorted (· ≤ ·) ∧
          dateColumns ≠ [] := by
      have := hblocks (dateCount, dateColumns) (List.mem_cons_self _ _)
      simpa using this
    simp only [rowItemsGo] at hok
    split at hok
    · exact absurd hok (by simp)
    · rename_i hlenNe
      cases hrec : rowItemsGo FL columns dataGetter startIdx rest
          (cursor + dateCount * (dateColumns.length : Int))
          (timeIdx + dateCount) with
      | error e =>
        rw [hrec] at hok
        simp only [Except.map] at hok
        exact absurd hok (by simp)
      | ok restItems =>
        rw [hrec] at hok
        simp only [Except.map, Except.ok.injEq] at hok
        subst hok
        rcases List.mem_append.mp hm with hm1 | hm2
        · obtain ⟨i, hi, hieq⟩ := List.mem_iff_getElem.mp hm1
          have hilen : i < columns.length := by
            rw [List.length_map, List.enum_length] at hi
            exact hi
          rw [List.getElem_map, List.getElem_enum] at hieq
          have hselen : (dataGetter (startIdx + cursor)
              (startIdx + (cursor + dateCount *
                (dateColumns.length : Int)))).length =
              (dateCount * (dateColumns.length : Int)).toNat := by
            push_neg at hlenNe
            exact hlenNe
          have hseln : (dateCount * (dateColumns.length : Int)).toNat =
              dateCount.toNat * dateColumns.length := by
            have hcst : dateCount * (dateColumns.length : Int) =
                ((dateCount.toNat * dateColumns.length : Nat) : Int) := by
              rw [Nat.cast_mul, Int.toNat_of_nonneg hdc0]
            rw [hcst, Int.toNat_natCast]
          subst hieq
          by_cases hmem : columns[i] ∈ dateColumns
          · have hidxlt : searchsorted dateColumns columns[i] <
                dateColumns.length :=
              (binarySearch_mem hsorted hmem).2.1
            dsimp only
            rw [if_pos ((presence_iff dateColumns columns[i] default hsorted
              hne).mpr hmem)]
            refine ⟨hilen, (dateCount, dateColumns),
              List.mem_cons_self _ _, by simp, Or.inr ⟨hmem, ?_⟩⟩
            intro v hv
            obtain ⟨rr, hrr, hveq⟩ := List.mem_map.mp hv
            have hrrlt : rr < dateCount.toNat := List.mem_range.mp hrr
            have hpos : rr * dateColumns.length +
                searchsorted dateColumns columns[i] <
                dateCount.toNat * dateColumns.length := by
              have h1 : (rr + 1) * dateColumns.length ≤
                  dateCount.toNat * dateColumns.length :=
                Nat.mul_le_mul_right _ (by omega)
              have h2 : (rr + 1) * dateColumns.length =
                  rr * dateColumns.length + dateColumns.length := by ring
              omega
            refine ⟨startIdx + cursor,
              startIdx + (cursor + dateCount * (dateColumns.length : Int)),
              ?_⟩
            rw [← hveq, List.getD_eq_getElem _ _ (by
              rw [hselen, hseln]
              exact hpos)]
            exact List.getElem_mem _
          · have htest : ¬ (dateColumns.getD
                (if dateColumns.length ≤ searchsorted dateColumns columns[i]
                  then 0 else searchsorted dateColumns columns[i]) default =
                columns[i]) :=
              fun h => hmem ((presence_iff dateColumns columns[i] default
                hsorted hne).mp h)
            dsimp only
            rw [if_neg htest]
            exact ⟨hilen, (dateCount, dateColumns), List.mem_cons_self _ _,
              by simp, Or.inl ⟨hmem, rfl⟩⟩
        · obtain ⟨hjf, bl2, hbl2, hrest⟩ := ih
            (cursor + dateCount * (dateColumns.length : Int))
            (timeIdx + dateCount) restItems hrec
            (fun bl3 hbl3 => hblocks bl3 (List.mem_cons_of_mem _ hbl3))
            fill hm2
          exact ⟨hjf, bl2, List.mem_cons_of_mem _ hbl2, hrest⟩

theorem unique_counts_nonneg (arr : List Int) :
    ∀ c ∈ (unique arr).2, 0 ≤ c := by
  intro c hc
  simp only [unique] at hc
  rw [List.mem_map] at hc
  obtain ⟨v, hv1, hv⟩ := hc
  rw [← hv]
  exact Int.natCast_nonneg _

/-- C2: missing symbols become NaN fills, and nothing else produces NaN.
(1) For every `(day k, requested column j)` pair of a `column_contiguous`
plan (`offsets = None`, any multiplier), the item's write footprint is the
same contiguous range whichever branch was taken — `data_len · multiplier`
cells — and the item is a NaN fill exactly when the requested symbol is
missing from the day's columns.
(2) For any multiplier (`offsets = None`), every cell of a NaN fill holds
NaN in the `column_contiguous` output (`multiplier = None` is the
`m.getD 1 = 1` instance).
(3) Conversely a NaN output cell lies in some NaN fill's footprint whenever
the initial buffer and the backing store hold no NaN (again any multiplier,
`offsets = None`).
(4) In `row_contiguous`, a day block contributes for each requested column a
fill at the same `(time_idx, j)` of the same `date_count` cells in both
branches; the missing branch's values are all NaN.
(5) Applying a missing-symbol row fill writes NaN to exactly the cells
`(time_idx + r) · num_columns + j`, `r < date_count`, touching nothing else.
(6) Every `row_contiguous` output cell is its initial value or a value of
some fill's data.
(7) In the `row_contiguous` OUTPUT, for every contributing day block `b`
(sorted, non-empty columns) and every requested symbol `j` missing from it,
all `date_count` cells `(time_idx_b + r) · num_columns + j` hold NaN —
`time_idx_b` being the sum of the earlier blocks' `date_count`s.
(8) Conversely, when the initial buffer and the backing store hold no NaN, a
NaN `row_contiguous` output cell was written by the NaN fill of a symbol
missing from a contributing day block. -/
theorem missing_symbol_nan_fill {α V : Type} [LinearOrder α] [Inhabited α]
    (FL : FloatLike V) (dflt : V) :
    (∀ (cc : Option Nat) (datetimeLen : Int) (columns : List α)
        (numTicksPerDay : Int) (timeIdxToDateIdx dateColumnsOffset : List Int)
        (columnsGetter : Int → Int → List α) (m : Option Int) (tsi tei : Nat),
      ValidDayShape numTicksPerDay timeIdxToDateIdx tsi tei →
      ∀ (k j : Nat),
        k < (timeIdxToDateIdx.getD tei 0 + 1 -
          timeIdxToDateIdx.getD tsi 0).toNat →
        ∀ (hj : j < columns.length),
        itemFootprint none m
            ((columnItems cc datetimeLen columns numTicksPerDay
              timeIdxToDateIdx dateColumnsOffset columnsGetter m none tsi
              tei).getD (k * columns.length + j) (PlanItem.nanFill 0 0)) =
          List.range' ((((j : Int) * datetimeLen +
              timeOffsetOf numTicksPerDay tsi (timeIdxToDateIdx.getD tsi 0) k)
              * m.getD 1).toNat)
            ((dayLenOf numTicksPerDay tsi tei
              ((timeIdxToDateIdx.getD tei 0 + 1 -
                timeIdxToDateIdx.getD tsi 0).toNat) k * m.getD 1).toNat) ∧
        ((columnsGetter
            (dateColumnsOffset.getD
              (timeIdxToDateIdx.getD tsi 0 + (k : Int)).toNat 0)
            (dateColumnsOffset.getD
              (timeIdxToDateIdx.getD tsi 0 + (k : Int) + 1).toNat 0)).Sorted
              (· ≤ ·) →
          columnsGetter
            (dateColumnsOffset.getD
              (timeIdxToDateIdx.getD tsi 0 + (k : Int)).toNat 0)
            (dateColumnsOffset.getD
              (timeIdxToDateIdx.getD tsi 0 + (k : Int) + 1).toNat 0) ≠ [] →
          ((∃ fS n, (columnItems cc datetimeLen columns numTicksPerDay
              timeIdxToDateIdx dateColumnsOffset columnsGetter m none tsi
              tei).getD (k * columns.length + j) (PlanItem.nanFill 0 0) =
              PlanItem.nanFill fS n) ↔
            columns[j] ∉ columnsGetter
              (dateColumnsOffset.getD
                (timeIdxToDateIdx.getD tsi 0 + (k : Int)).toNat 0)
              (dateColumnsOffset.getD
                (timeIdxToDateIdx.getD tsi 0 + (k : Int) + 1).toNat 0))))
    ∧
    (∀ (cc : Option Nat) (datetimeStart datetimeEnd datetimeLen : Int)
        (columns : List α) (numTicksPerDay : Int)
        (fullIndex timeIdxToDateIdx dateColumnsOffset : List Int)
        (columnsGetter : Int → Int → List α) (m : Option Int)
        (fetch : FetcherArgs → Except MemError (List V))
        (flattened out : List V) (tsi tei : Nat),
      tsi = searchsorted fullIndex datetimeStart →
      tei = tsi + datetimeLen.toNat - 1 →
      ValidDayShape numTicksPerDay timeIdxToDateIdx tsi tei →
      (tei : Int) - (tsi : Int) + 1 ≤ datetimeLen →
      1 ≤ m.getD 1 →
      (datetimeLen * m.getD 1).toNat * columns.length ≤ flattened.length →
      (∀ it ∈ columnItems cc datetimeLen columns numTicksPerDay
        timeIdxToDateIdx dateColumnsOffset columnsGetter m none tsi tei,
        taskLenOkM (m.getD 1) fetch it = true) →
      column_contiguous FL cc datetimeStart datetimeEnd datetimeLen columns
        numTicksPerDay fullIndex timeIdxToDateIdx dateColumnsOffset
        columnsGetter fetch flattened m none = .ok out →
      ∀ i0 fS n,
        i0 < (columnItems cc datetimeLen columns numTicksPerDay
          timeIdxToDateIdx dateColumnsOffset columnsGetter m none tsi
          tei).length →
        (columnItems cc datetimeLen columns numTicksPerDay timeIdxToDateIdx
          dateColumnsOffset columnsGetter m none tsi tei).getD i0
          (PlanItem.nanFill 0 0) = PlanItem.nanFill fS n →
        ∀ q, fS ≤ q → q < fS + n → out.getD q dflt = FL.nan)
    ∧
    (∀ (cc : Option Nat) (datetimeStart datetimeEnd datetimeLen : Int)
        (columns : List α) (numTicksPerDay : Int)
        (fullIndex timeIdxToDateIdx dateColumnsOffset : List Int)
        (columnsGetter : Int → Int → List α) (m : Option Int)
        (fetch : FetcherArgs → Except MemError (List V))
        (flattened out : List V) (tsi tei : Nat),
      tsi = searchsorted fullIndex datetimeStart →
      tei = tsi + datetimeLen.toNat - 1 →
      ValidDayShape numTicksPerDay timeIdxToDateIdx tsi tei →
      (tei : Int) - (tsi : Int) + 1 ≤ datetimeLen →
      1 ≤ m.getD 1 →
      (datetimeLen * m.getD 1).toNat * columns.length ≤ flattened.length →
      (∀ it ∈ columnItems cc datetimeLen columns numTicksPerDay
        timeIdxToDateIdx dateColumnsOffset columnsGetter m none tsi tei,
        taskLenOkM (m.getD 1) fetch it = true) →
      (∀ q, q < flattened.length →
        FL.isNan (flattened.getD q dflt) = false) →
      (∀ it ∈ columnItems cc datetimeLen columns numTicksPerDay
        timeIdxToDateIdx dateColumnsOffset columnsGetter m none tsi tei,
        fetchNoNan FL fetch it = true) →
      column_contiguous FL cc datetimeStart datetimeEnd datetimeLen columns
        numTicksPerDay fullIndex timeIdxToDateIdx dateColumnsOffset
        columnsGetter fetch flattened m none = .ok out →
      ∀ q, q < flattened.length → FL.isNan (out.getD q dflt) = true →
        ∃ fS n, PlanItem.nanFill fS n ∈ columnItems cc datetimeLen columns
          numTicksPerDay timeIdxToDateIdx dateColumnsOffset columnsGetter
          m none tsi tei ∧ fS ≤ q ∧ q < fS + n)
    ∧
    (∀ (columns : List α) (dataGetter : Int → Int → List V) (startIdx : Int)
        (dateCount : Int) (dateColumns : List α)
        (rest : List (Int × List α)) (cursor timeIdx : Int)
        (fills : List (RowFill V)),
      rowItemsGo FL columns dataGetter startIdx
        ((dateCount, dateColumns) :: rest) cursor timeIdx = .ok fills →
      dateColumns.Sorted (· ≤ ·) → dateColumns ≠ [] →
      ∀ (j : Nat) (hj : j < columns.length),
      ∃ data, fills.getD j ⟨0, 0, []⟩ = ⟨timeIdx, j, data⟩ ∧
        data.length = dateCount.toNat ∧
        (columns[j] ∈ dateColumns →
          data = (List.range dateCount.toNat).map (fun r =>
            (dataGetter (startIdx + cursor)
              (startIdx + (cursor + dateCount *
                (dateColumns.length : Int)))).getD
              (r * dateColumns.length + searchsorted dateColumns columns[j])
              FL.nan)) ∧
        (columns[j] ∉ dateColumns →
          data = List.replicate dateCount.toNat FL.nan))
    ∧
    (∀ (numColumns : Nat) (buf : List V) (t : Int) (j n : Nat),
      (∀ r, r < n → (t.toNat + r) * numColumns + j < buf.length →
        (rowFillApply numColumns buf ⟨t, j, List.replicate n FL.nan⟩).getD
          ((t.toNat + r) * numColumns + j) dflt = FL.nan) ∧
      (∀ q, (∀ r, r < n → q ≠ (t.toNat + r) * numColumns + j) →
        (rowFillApply numColumns buf ⟨t, j, List.replicate n FL.nan⟩).getD q
          dflt = buf.getD q dflt))
    ∧
    (∀ (datetimeStart datetimeEnd datetimeLen : Int) (columns : List α)
        (numTicksPerDay : Int)
        (fullIndex timeIdxToDateIdx dateColumnsOffset : List Int)
        (columnsGetter : Int → Int → List α)
        (dataGetter : Int → Int → List V) (flattened out : List V),
      row_contiguous FL datetimeStart datetimeEnd datetimeLen columns
        numTicksPerDay fullIndex timeIdxToDateIdx dateColumnsOffset
        columnsGetter dataGetter flattened = .ok out →
      ∃ fills : List (RowFill V),
        out = fills.foldl (rowFillApply columns.length) flattened ∧
        ∀ q : Nat, out.getD q dflt = flattened.getD q dflt ∨
          ∃ fill ∈ fills, ∃ r, r < fill.data.length ∧
            out.getD q dflt = fill.data.getD r dflt)
    ∧
    (∀ (datetimeStart datetimeEnd datetimeLen : Int) (columns : List α)
        (numTicksPerDay : Int)
        (fullIndex timeIdxToDateIdx dateColumnsOffset : List Int)
        (columnsGetter : Int → Int → List α)
        (dataGetter : Int → Int → List V) (flattened out : List V)
        (tsi tei : Nat) (blocks : List (Int × List α)),
      tsi = searchsorted fullIndex datetimeStart →
      tei = tsi + datetimeLen.toNat - 1 →
      blocks = (unique ((timeIdxToDateIdx.drop tsi).take
          (tei + 1 - tsi))).2.zip
        ((unique ((timeIdxToDateIdx.drop tsi).take (tei + 1 - tsi))).1.map
          (fun d => columnsGetter (dateColumnsOffset.getD d.toNat 0)
            (dateColumnsOffset.getD (d + 1).toNat 0))) →
      row_contiguous FL datetimeStart datetimeEnd datetimeLen columns
        numTicksPerDay fullIndex timeIdxToDateIdx dateColumnsOffset
        columnsGetter dataGetter flattened = .ok out →
      ∀ b : Nat, b < blocks.length →
      ∀ j : Nat, ∀ hj : j < columns.length,
      (blocks.getD b (0, [])).2.Sorted (· ≤ ·) →
      (blocks.getD b (0, [])).2 ≠ [] →
      columns[j] ∉ (blocks.getD b (0, [])).2 →
      ∀ r : Nat, r < (blocks.getD b (0, [])).1.toNat →
      ((prefixDC blocks b).toNat + r) * columns.length + j <
        flattened.length →
      out.getD (((prefixDC blocks b).toNat + r) * columns.length + j) dflt =
        FL.nan)
    ∧
    (∀ (datetimeStart datetimeEnd datetimeLen : Int) (columns : List α)
        (numTicksPerDay : Int)
        (fullIndex timeIdxToDateIdx dateColumnsOffset : List Int)
        (columnsGetter : Int → Int → List α)
        (dataGetter : Int → Int → List V) (flattened out : List V)
        (tsi tei : Nat) (blocks : List (Int × List α)),
      tsi = searchsorted fullIndex datetimeStart →
      tei = tsi + datetimeLen.toNat - 1 →
      blocks = (unique ((timeIdxToDateIdx.drop tsi).take
          (tei + 1 - tsi))).2.zip
        ((unique ((timeIdxToDateIdx.drop tsi).take (tei + 1 - tsi))).1.map
          (fun d => columnsGetter (dateColumnsOffset.getD d.toNat 0)
            (dateColumnsOffset.getD (d + 1).toNat 0))) →
      (∀ bl ∈ blocks, bl.2.Sorted (· ≤ ·) ∧ bl.2 ≠ []) →
      (∀ q, q < flattened.length →
        FL.isNan (flattened.getD q dflt) = false) →
      (∀ a e : Int, ∀ v ∈ dataGetter a e, FL.isNan v = false) →
      row_contiguous FL datetimeStart datetimeEnd datetimeLen columns
        numTicksPerDay fullIndex timeIdxToDateIdx dateColumnsOffset
        columnsGetter dataGetter flattened = .ok out →
      ∀ q, q < flattened.length → FL.isNan (out.getD q dflt) = true →
        ∃ bl ∈ blocks, ∃ jj : Nat, ∃ hjj : jj < columns.length,
          columns[jj] ∉ bl.2 ∧ out.getD q dflt = FL.nan) := by
  refine ⟨?_, ?_, ?_, ?_, ?_, ?_, ?_, ?_⟩
  · intro cc datetimeLen columns numTicksPerDay timeIdxToDateIdx
      dateColumnsOffset columnsGetter m tsi tei hshape k j hk hj
    have hn : 0 < columns.length := by omega
    have hcl := columnItems_closed_mult cc datetimeLen columns numTicksPerDay
      timeIdxToDateIdx dateColumnsOffset columnsGetter m tsi tei hshape
    have hlenall : ∀ (k' : Nat), (columnDayItems cc datetimeLen columns
        numTicksPerDay m 0 (m.map (fun x => x + 0))
        (dateColumnsOffset.getD (timeIdxToDateIdx.getD tsi 0).toNat 0 *
          numTicksPerDay)
        tsi tei
        ((timeIdxToDateIdx.getD tei 0 + 1 - timeIdxToDateIdx.getD tsi 0).toNat)
        (timeIdxToDateIdx.getD tsi 0 + (k' : Int)) k'
        (columnsGetter
          (dateColumnsOffset.getD
            (timeIdxToDateIdx.getD tsi 0 + (k' : Int)).toNat 0)
          (dateColumnsOffset.getD
            (timeIdxToDateIdx.getD tsi 0 + (k' : Int) + 1).toNat 0))
        (columnsOffsetOf (fun k2 =>
          columnsGetter
            (dateColumnsOffset.getD
              (timeIdxToDateIdx.getD tsi 0 + (k2 : Int)).toNat 0)
            (dateColumnsOffset.getD
              (timeIdxToDateIdx.getD tsi 0 + (k2 : Int) + 1).toNat 0)) k')
        (timeOffsetOf numTicksPerDay tsi (timeIdxToDateIdx.getD tsi 0)
          k')).length = columns.length :=
      fun k' => columnDayItems_length _ _ _ _ _ _ _ _ _ _ _ _ _ _ _ _
    have hista : k * columns.length + j <
        ((timeIdxToDateIdx.getD tei 0 + 1 -
          timeIdxToDateIdx.getD tsi 0).toNat) * columns.length := by
      have h1 : (k + 1) * columns.length ≤
          ((timeIdxToDateIdx.getD tei 0 + 1 -
            timeIdxToDateIdx.getD tsi 0).toNat) * columns.length :=
        Nat.mul_le_mul_right _ (by omega)
      have h2 : (k + 1) * columns.length =
          k * columns.length + columns.length := by ring
      omega
    have hdiv : (k * columns.length + j) / columns.length = k := by
      rw [show k * columns.length + j = columns.length * k + j by ring,
        Nat.mul_add_div hn, Nat.div_eq_of_lt hj, Nat.add_zero]
    have hmod : (k * columns.length + j) % columns.length = j := by
      rw [show k * columns.length + j = columns.length * k + j by ring,
        Nat.mul_add_mod, Nat.mod_eq_of_lt hj]
    rw [hcl, flatMap_blocks_getD (PlanItem.nanFill 0 0) _ columns.length hn
      hlenall _ 0 _ hista, Nat.zero_add, hdiv, hmod]
    constructor
    · exact columnDayItems_getD_footprint_mult cc datetimeLen columns
        numTicksPerDay m _ tsi tei _ _ k _ _ _ j hj
    · intro hsorted hnem
      exact columnDayItems_getD_nanfill_iff cc datetimeLen columns
        numTicksPerDay m 0 (m.map (fun x => x + 0)) _ tsi tei _ _ k _ _ _ j hj
        hsorted hnem
  · intro cc datetimeStart datetimeEnd datetimeLen columns numTicksPerDay
      fullIndex timeIdxToDateIdx dateColumnsOffset columnsGetter m fetch
      flattened out tsi tei htsi hteid hshape htei hm hL hfl hrun i0 fS n hi0
      hitem q hq1 hq2
    subst htsi
    subst hteid
    simp only [column_contiguous] at hrun
    split at hrun
    · exact absurd hrun (by simp)
    · exact columnItems_missing_nan_persistsM FL dflt cc datetimeLen columns
        numTicksPerDay timeIdxToDateIdx dateColumnsOffset columnsGetter m _ _
        fetch flattened out hshape htei hm hL hfl hrun i0 fS n hi0 hitem q
        hq1 hq2
  · intro cc datetimeStart datetimeEnd datetimeLen columns numTicksPerDay
      fullIndex timeIdxToDateIdx dateColumnsOffset columnsGetter m fetch
      flattened out tsi tei htsi hteid hshape htei hm hL hfl hbuf0 hnn hrun q
      hqL hnan
    subst htsi
    subst hteid
    simp only [column_contiguous] at hrun
    split at hrun
    · exact absurd hrun (by simp)
    · exact columnItems_nan_only_from_missingM FL dflt cc datetimeLen columns
        numTicksPerDay timeIdxToDateIdx dateColumnsOffset columnsGetter m _ _
        fetch flattened out hshape htei hm hL hfl hbuf0 hnn hrun q hqL hnan
  · intro columns dataGetter startIdx dateCount dateColumns rest cursor
      timeIdx fills hok hsorted hne j hj
    exact rowItemsGo_head_fills FL columns dataGetter startIdx dateCount
      dateColumns rest cursor timeIdx fills hok hsorted hne j hj
  · intro numColumns buf t j n
    exact rowFillApply_nan FL dflt numColumns buf t j n
  · intro datetimeStart datetimeEnd datetimeLen columns numTicksPerDay
      fullIndex timeIdxToDateIdx dateColumnsOffset columnsGetter dataGetter
      flattened out hrun
    simp only [row_contiguous] at hrun
    split at hrun
    · exact absurd hrun (by simp)
    · cases hre : rowItemsGo FL columns dataGetter
          (dateColumnsOffset.getD
            (((unique ((timeIdxToDateIdx.drop
              (searchsorted fullIndex datetimeStart)).take
              (searchsorted fullIndex datetimeStart + datetimeLen.toNat - 1 + 1
                - searchsorted fullIndex datetimeStart))).1.getD 0 0)).toNat 0
            * numTicksPerDay +
            ((searchsorted fullIndex datetimeStart : Int) % numTicksPerDay) *
            ((((unique ((timeIdxToDateIdx.drop
              (searchsorted fullIndex datetimeStart)).take
              (searchsorted fullIndex datetimeStart + datetimeLen.toNat - 1 + 1
                - searchsorted fullIndex datetimeStart))).1.map (fun d =>
                columnsGetter (dateColumnsOffset.getD d.toNat 0)
                  (dateColumnsOffset.getD (d + 1).toNat 0))).getD 0
              []).length : Int))
          ((unique ((timeIdxToDateIdx.drop
            (searchsorted fullIndex datetimeStart)).take
            (searchsorted fullIndex datetimeStart + datetimeLen.toNat - 1 + 1
              - searchsorted fullIndex datetimeStart))).2.zip
            ((unique ((timeIdxToDateIdx.drop
              (searchsorted fullIndex datetimeStart)).take
              (searchsorted fullIndex datetimeStart + datetimeLen.toNat - 1 + 1
                - searchsorted fullIndex datetimeStart))).1.map (fun d =>
              columnsGetter (dateColumnsOffset.getD d.toNat 0)
                (dateColumnsOffset.getD (d + 1).toNat 0))))
          0 0 with
      | error e =>
        rw [hre] at hrun
        simp only [Except.map] at hrun
        exact absurd hrun (by simp)
      | ok fills =>
        rw [hre] at hrun
        simp only [Except.map, Except.ok.injEq] at hrun
        refine ⟨fills, hrun.symm, fun q => ?_⟩
        rw [← hrun]
        exact rowFills_foldl_provenance columns.length dflt fills flattened q
  · intro datetimeStart datetimeEnd datetimeLen columns numTicksPerDay
      fullIndex timeIdxToDateIdx dateColumnsOffset columnsGetter dataGetter
      flattened out tsi tei blocks htsi hteid hblocks hrun b hb j hj hsorted
      hne hmiss r hr hq
    subst htsi
    subst hteid
    simp only [row_contiguous] at hrun
    split at hrun
    · exact absurd hrun (by simp)
    · cases hre : rowItemsGo FL columns dataGetter
          (dateColumnsOffset.getD
            (((unique ((timeIdxToDateIdx.drop
              (searchsorted fullIndex datetimeStart)).take
              (searchsorted fullIndex datetimeStart + datetimeLen.toNat - 1 + 1
                - searchsorted fullIndex datetimeStart))).1.getD 0 0)).toNat 0
            * numTicksPerDay +
            ((searchsorted fullIndex datetimeStart : Int) % numTicksPerDay) *
            ((((unique ((timeIdxToDateIdx.drop
              (searchsorted fullIndex datetimeStart)).take
              (searchsorted fullIndex datetimeStart + datetimeLen.toNat - 1 + 1
                - searchsorted fullIndex datetimeStart))).1.map (fun d =>
                columnsGetter (dateColumnsOffset.getD d.toNat 0)
                  (dateColumnsOffset.getD (d + 1).toNat 0))).getD 0
              []).length : Int))
          ((unique ((timeIdxToDateIdx.drop
            (searchsorted fullIndex datetimeStart)).take
            (searchsorted fullIndex datetimeStart + datetimeLen.toNat - 1 + 1
              - searchsorted fullIndex datetimeStart))).2.zip
            ((unique ((timeIdxToDateIdx.drop
              (searchsorted fullIndex datetimeStart)).take
              (searchsorted fullIndex datetimeStart + datetimeLen.toNat - 1 + 1
                - searchsorted fullIndex datetimeStart))).1.map (fun d =>
              columnsGetter (dateColumnsOffset.getD d.toNat 0)
                (dateColumnsOffset.getD (d + 1).toNat 0))))
          0 0 with
      | error e =>
        rw [hre] at hrun
        simp only [Except.map] at hrun
        exact absurd hrun (by simp)
      | ok fills =>
        rw [hre] at hrun
        simp only [Except.map, Except.ok.injEq] at hrun
        rw [← hblocks] at hre
        have hdcnn : ∀ bl ∈ blocks, 0 ≤ bl.1 := by
          intro bl hbl
          rw [hblocks] at hbl
          exact unique_counts_nonneg _ _ (List.of_mem_zip hbl).1
        have hper := rowItemsGo_missing_persists FL dflt columns dataGetter _
          blocks 0 0 fills flattened hre (le_refl 0) hdcnn b hb j hj hsorted
          hne hmiss r hr (by rw [zero_add]; exact hq)
        rw [zero_add] at hper
        rw [← hrun]
        exact hper
  · intro datetimeStart datetimeEnd datetimeLen columns numTicksPerDay
      fullIndex timeIdxToDateIdx dateColumnsOffset columnsGetter dataGetter
      flattened out tsi tei blocks htsi hteid hblocks hsne hbuf0 hstore hrun
      q hqL hnan
    subst htsi
    subst hteid
    simp only [row_contiguous] at hrun
    split at hrun
    · exact absurd hrun (by simp)
    · cases hre : rowItemsGo FL columns dataGetter
          (dateColumnsOffset.getD
            (((unique ((timeIdxToDateIdx.drop
              (searchsorted fullIndex datetimeStart)).take
              (searchsorted fullIndex datetimeStart + datetimeLen.toNat - 1 + 1
                - searchsorted fullIndex datetimeStart))).1.getD 0 0)).toNat 0
            * numTicksPerDay +
            ((searchsorted fullIndex datetimeStart : Int) % numTicksPerDay) *
            ((((unique ((timeIdxToDateIdx.drop
              (searchsorted fullIndex datetimeStart)).take
              (searchsorted fullIndex datetimeStart + datetimeLen.toNat - 1 + 1
                - searchsorted fullIndex datetimeStart))).1.map (fun d =>
                columnsGetter (dateColumnsOffset.getD d.toNat 0)
                  (dateColumnsOffset.getD (d + 1).toNat 0))).getD 0
              []).length : Int))
          ((unique ((timeIdxToDateIdx.drop
            (searchsorted fullIndex datetimeStart)).take
            (searchsorted fullIndex datetimeStart + datetimeLen.toNat - 1 + 1
              - searchsorted fullIndex datetimeStart))).2.zip
            ((unique ((timeIdxToDateIdx.drop
              (searchsorted fullIndex datetimeStart)).take
              (searchsorted fullIndex datetimeStart + datetimeLen.toNat - 1 + 1
                - searchsorted fullIndex datetimeStart))).1.map (fun d =>
              columnsGetter (dateColumnsOffset.getD d.toNat 0)
                (dateColumnsOffset.getD (d + 1).toNat 0))))
          0 0 with
      | error e =>
        rw [hre] at hrun
        simp only [Except.map] at hrun
        exact absurd hrun (by simp)
      | ok fills =>
        rw [hre] at hrun
        simp only [Except.map, Except.ok.injEq] at hrun
        rw [← hblocks] at hre
        have hdcnn : ∀ bl ∈ blocks, 0 ≤ bl.1 := by
          intro bl hbl
          rw [hblocks] at hbl
          exact unique_counts_nonneg _ _ (List.of_mem_zip hbl).1
        have hball : ∀ bl ∈ blocks, 0 ≤ bl.1 ∧ bl.2.Sorted (· ≤ ·) ∧
            bl.2 ≠ [] :=
          fun bl hbl => ⟨hdcnn bl hbl, (hsne bl hbl).1, (hsne bl hbl).2⟩
        have hdata := rowItemsGo_fills_data FL columns dataGetter _ blocks 0 0
          fills hre hball
        rw [← hrun] at hnan ⊢
        rcases rowFills_foldl_provenance columns.length dflt fills flattened q
          with h | ⟨fill, hmf, rr, hrr, hval⟩
        · rw [h, hbuf0 q hqL] at hnan
          exact absurd hnan (by simp)
        · obtain ⟨hjf, bl, hblm, hlenf, hdisj⟩ := hdata fill hmf
          rcases hdisj with ⟨hnotmem, hdat⟩ | ⟨hmemb, hstoref⟩
          · refine ⟨bl, hblm, fill.j, hjf, hnotmem, ?_⟩
            rw [hval, hdat, getD_replicate_lt]
            rw [hdat, List.length_replicate] at hrr
            exact hrr
          · exfalso
            have hvm : fill.data.getD rr dflt ∈ fill.data := by
              rw [List.getD_eq_getElem _ _ hrr]
              exact List.getElem_mem _
            obtain ⟨a, e2, hve⟩ := hstoref _ hvm
            have hvnn := hstore a e2 _ hve
            rw [hval] at hnan
            rw [hnan] at hvnn
            exact absurd hvnn (by simp)

/-- Witness for `missing_symbol_nan_fill` at the fixture: requested symbol 4
is missing from day 0's columns `[0,1,2,3]`; in the column planner the
plan's item 2 is its NaN fill over output cell 12 and that cell holds NaN in
any successful output; in the row planner day 0's row of that symbol is
output cell 2 and holds NaN in any successful output. -/
theorem missing_symbol_nan_fill_witness :
    (ValidDayShape 2 [0, 0, 1, 1, 2, 2, 3, 3] 1 6 ∧
      (columnItems (α := Int) none 6 [2, 3, 4, 5] 2 [0, 0, 1, 1, 2, 2, 3, 3]
        [0, 4, 9, 15, 22] (sliceGetter fixtureCompactColumns) none none
        1 6).getD 2 (PlanItem.nanFill 0 0) = PlanItem.nanFill 12 1) ∧
    (∀ out, column_contiguous optIntFL none 1 8 6 ([2, 3, 4, 5] : List Int) 2
        [0, 1, 2, 3, 4, 6, 8, 10] [0, 0, 1, 1, 2, 2, 3, 3] [0, 4, 9, 15, 22]
        (sliceGetter fixtureCompactColumns) (shmFetch fixtureCompactData)
        (List.replicate 24 (some 0)) none none = .ok out →
      out.getD 12 (some 0) = optIntFL.nan) ∧
    (∀ out, row_contiguous optIntFL 1 8 6 ([2, 3, 4, 5] : List Int) 2
        [0, 1, 2, 3, 4, 6, 8, 10] [0, 0, 1, 1, 2, 2, 3, 3] [0, 4, 9, 15, 22]
        (sliceGetter fixtureCompactColumns) (sliceGetter fixtureCompactData)
        (List.replicate 24 (some 0)) = .ok out →
      out.getD 2 (some 0) = optIntFL.nan) := by
  refine ⟨⟨by decide, by decide⟩, fun out hout => ?_, fun out hout => ?_⟩
  · exact (missing_symbol_nan_fill optIntFL (some 0)).2.1 none 1 8 6
      [2, 3, 4, 5] 2 [0, 1, 2, 3, 4, 6, 8, 10] [0, 0, 1, 1, 2, 2, 3, 3]
      [0, 4, 9, 15, 22] (sliceGetter fixtureCompactColumns) none
      (shmFetch fixtureCompactData) (List.replicate 24 (some 0)) out 1 6
      (by decide) (by decide) (by decide) (by decide) (by decide) (by decide)
      (by decide) hout 2 12 1 (by decide) (by decide) 12 (by decide)
      (by decide)
  · exact (missing_symbol_nan_fill optIntFL
      (some 0)).2.2.2.2.2.2.1 1 8 6 [2, 3, 4, 5] 2
      [0, 1, 2, 3, 4, 6, 8, 10] [0, 0, 1, 1, 2, 2, 3, 3] [0, 4, 9, 15, 22]
      (sliceGetter fixtureCompactColumns) (sliceGetter fixtureCompactData)
      (List.replicate 24 (some 0)) out 1 6
      [((1 : Int), ([0, 1, 2, 3] : List Int)), (2, [0, 1, 2, 3, 4]),
        (2, [0, 1, 2, 3, 4, 5]), (1, [0, 1, 2, 3, 4, 5, 6])]
      (by decide) (by decide) (by decide) hout 0 (by decide) 2 (by decide)
      (by decide) (by decide) (by decide) 0 (by decide) (by decide)

/-- Witness for `shm_batch_column_contiguous_disjoint` at the fixture:
2 tasks per row of queries, 4 requested columns, `datetime_len = 6`,
`num_data_per_task = 24`; task `(0,1)` owns position 25 and task `(0,0)`
does not, and the plan of one call is pairwise write-disjoint. -/
theorem shm_batch_column_contiguous_disjoint_witness :
    ((24 : Nat) = (6 : Int).toNat * 4) ∧
    (¬ ((0 * 2 + 0) * 24 ≤ 25 ∧ 25 < (0 * 2 + 0 + 1) * 24)) ∧
    List.Pairwise (fun it1 it2 => ∀ p, p ∈ itemFootprint none none it1 →
        p ∉ itemFootprint none none it2)
      (columnItems (α := Int) none 6 [2, 3, 4, 5] 2 [0, 0, 1, 1, 2, 2, 3, 3]
        [0, 4, 9, 15, 22] (sliceGetter fixtureCompactColumns) none none 1 6) := by
  have h := shm_batch_column_contiguous_disjoint (α := Int) 6 2 2 24 4 (by decide)
  refine ⟨by decide, ?_, ?_⟩
  · exact h.1 0 1 0 0 (by decide) (by decide) (by decide) 25 (by decide) (by decide)
  · exact h.2.2 none [2, 3, 4, 5] [0, 0, 1, 1, 2, 2, 3, 3] [0, 4, 9, 15, 22]
      (sliceGetter fixtureCompactColumns) 1 6 (by decide) (by decide)

set_option maxRecDepth 100000 in
/-- C4: the codec round-trip.  The file pair (`save_to` → `load_from`)
reproduces the scenario frame, but the in-memory pair the claim (and the
in-repo test `test_buffer_io`) pairs — `to_bytes` → `from_buffer` — fails on
it: `to_bytes` writes its length prefixes big-endian while `from_buffer`
reads them little-endian, so the prefix `16` decodes as `2^60` and
`copy_to_bytes` overruns the 152-byte buffer (a panic in the source,
`none` here) instead of returning the frame. -/
theorem buffer_roundtrip_bug :
    from_buffer 4 (to_bytes byteFixtureDF) = none ∧
    load_from 4 (save_to byteFixtureDF) = some byteFixtureDF := by
  constructor
  · decide
  · decide

set_option maxRecDepth 100000 in
/-- C5: the header of the encoded stream.  `save_to` produces the
little-endian 16-byte header `[16,0,…,0, 96,0,…,0]` and the 152-byte total
the claim states, but `to_bytes` — the encoder the claim cites — emits the
prefixes big-endian: its first 16 bytes are `[0,…,0,16, 0,…,0,96]`. -/
theorem header_endianness_bug :
    (save_to byteFixtureDF).take 16 =
      [16, 0, 0, 0, 0, 0, 0, 0, 96, 0, 0, 0, 0, 0, 0, 0] ∧
    (save_to byteFixtureDF).length = 152 ∧
    (to_bytes byteFixtureDF).length = 152 ∧
    (to_bytes byteFixtureDF).take 16 =
      [0, 0, 0, 0, 0, 0, 0, 16, 0, 0, 0, 0, 0, 0, 0, 96] ∧
    (to_bytes byteFixtureDF).take 16 ≠
      [16, 0, 0, 0, 0, 0, 0, 0, 96, 0, 0, 0, 0, 0, 0, 0] := by
  refine ⟨by decide, by decide, by decide, by decide, by decide⟩

/-- C7: `RedisClient::fetch` against the store semantics, for the in-range
requests the planners issue (`0 ≤ start ≤ end`): it fails with the
data-short error exactly when the stored value is shorter than `end` bytes
(and the request is non-empty); otherwise it returns exactly the requested
slice, reinterpreted as `(end - start) / w` values of `w` bytes. -/
theorem redis_fetch_spec (w : Nat) (store : String → List Nat) (key : String)
    (start e : Int) (h0 : 0 ≤ start) (hse : start ≤ e) (h1 : 1 ≤ e)
    (h64 : e - start < 2 ^ 64) :
    ((∃ msg, redis_fetch w store key start e = .error (.fetchFailed msg)) ↔
      ((store key).length : Int) < e ∧ start < e) ∧
    (e ≤ ((store key).length : Int) →
      redis_fetch w store key start e =
        .ok (chunk w (((store key).drop start.toNat).take (e - start).toNat)) ∧
      (chunk w (((store key).drop start.toNat).take (e - start).toNat)).length
        = (e - start).toNat / w) := by
  have hexp : usizeOfI64 (e - start) = (e - start).toNat := by
    unfold usizeOfI64
    rw [Int.emod_eq_of_lt (by omega) (by omega)]
  have hchunklen : ∀ l : List Nat, (chunk w l).length = l.length / w := by
    intro l
    simp [chunk]
  simp only [redis_fetch, getrange, if_neg (not_lt.mpr h0),
    if_neg (show ¬ e - 1 < 0 by omega), hexp]
  rcases eq_or_lt_of_le hse with heq | hlt
  · rw [if_pos (show e - 1 < start by omega),
      if_neg (show ¬ (([] : List Nat).length ≠ (e - start).toNat) by
        simp only [List.length_nil]
        omega)]
    constructor
    · constructor
      · rintro ⟨msg, hmsg⟩
        exact absurd hmsg (by simp)
      · intro hc
        omega
    · intro hle
      rw [show (e - start).toNat = 0 by omega, List.take_zero]
      exact ⟨rfl, by rw [hchunklen]; simp⟩
  · rw [if_neg (show ¬ e - 1 < start by omega)]
    have htk : (e - 1).toNat + 1 = e.toNat := by omega
    rw [htk]
    have hlen : ((store key).take e.toNat |>.drop start.toNat).length =
        min e.toNat (store key).length - start.toNat := by
      rw [List.length_drop, List.length_take]
    by_cases hshort : ((store key).length : Int) < e
    · have hcond : ((store key).take e.toNat |>.drop start.toNat).length ≠
          (e - start).toNat := by
        have hmin : min e.toNat (store key).length = (store key).length :=
          min_eq_right (by omega)
        rw [hlen, hmin]
        omega
      rw [if_pos hcond]
      constructor
      · constructor
        · intro _
          exact ⟨hshort, hlt⟩
        · intro _
          exact ⟨"fetched data is not enough", rfl⟩
      · intro hle
        omega
    · have hcond : ¬ (((store key).take e.toNat |>.drop start.toNat).length ≠
          (e - start).toNat) := by
        have hmin : min e.toNat (store key).length = e.toNat :=
          min_eq_left (by omega)
        rw [hlen, hmin]
        omega
      rw [if_neg hcond]
      constructor
      · constructor
        · rintro ⟨msg, hmsg⟩
          exact absurd hmsg (by simp)
        · intro hc
          omega
      · intro hle
        have hval : ((store key).take e.toNat).drop start.toNat =
            ((store key).drop start.toNat).take (e - start).toNat := by
          rw [List.drop_take]
          congr 1
          omega
        rw [hval]
        refine ⟨rfl, ?_⟩
        have hmin2 : min (e - start).toNat ((store key).length - start.toNat) =
            (e - start).toNat :=
          min_eq_left (by omega)
        rw [hchunklen, List.length_take, List.length_drop, hmin2]

/-- Witness for `redis_fetch_spec`: a 12-byte value, the in-range request
`[4, 12)` returns the two 4-byte values of the slice, the over-long request
`[4, 16)` fails with the data-short error. -/
theorem redis_fetch_spec_witness :
    (redis_fetch 4 (fun k => if k = "day0" then
        [1, 2, 3, 4, 5, 6, 7, 8, 9, 10, 11, 12] else []) "day0" 4 12 =
      .ok [[5, 6, 7, 8], [9, 10, 11, 12]]) ∧
    (∃ msg, redis_fetch 4 (fun k => if k = "day0" then
        [1, 2, 3, 4, 5, 6, 7, 8, 9, 10, 11, 12] else []) "day0" 4 16 =
      .error (.fetchFailed msg)) := by
  have hok := redis_fetch_spec 4 (fun k => if k = "day0" then
      [1, 2, 3, 4, 5, 6, 7, 8, 9, 10, 11, 12] else []) "day0" 4 12
    (by decide) (by decide) (by decide) (by decide)
  have herr := redis_fetch_spec 4 (fun k => if k = "day0" then
      [1, 2, 3, 4, 5, 6, 7, 8, 9, 10, 11, 12] else []) "day0" 4 16
    (by decide) (by decide) (by decide) (by decide)
  constructor
  · rw [(hok.2 (by decide)).1]
    rfl
  · exact herr.1.mpr (by decide)

/-- C8 (amended): the cluster builder reads `REDIS_USER` (default
`"default"`), `REDIS_PASSWORD` (default `""`) and
`REDIS_CONNECTION_TIMEOUT` in integer seconds (default 30), and sets the
connection and response timeouts to the same value — the variables carry a
`REDIS_` prefix, unlike the claim's `USER` / `PASSWORD` /
`CONNECTION_TIMEOUT`. -/
theorem init_client_env (env : String → Option String) (cfg : ClusterConfig)
    (h : init_client env = some cfg) :
    cfg.username = (env "REDIS_USER").getD "default" ∧
    cfg.password = (env "REDIS_PASSWORD").getD "" ∧
    parse_u64 ((env "REDIS_CONNECTION_TIMEOUT").getD "30") =
      some cfg.connection_timeout ∧
    cfg.response_timeout = cfg.connection_timeout ∧
    (env "REDIS_CONNECTION_TIMEOUT" = none → cfg.connection_timeout = 30) := by
  unfold init_client at h
  cases hp : parse_u64 ((env "REDIS_CONNECTION_TIMEOUT").getD "30") with
  | none =>
    rw [hp] at h
    exact absurd h (by simp)
  | some t =>
    rw [hp] at h
    simp only [Option.some.injEq] at h
    subst h
    refine ⟨rfl, rfl, rfl, rfl, ?_⟩
    intro hnone
    rw [hnone] at hp
    simp only [Option.getD_none] at hp
    have h30 : parse_u64 "30" = some 30 := by decide
    rw [h30] at hp
    simpa using hp.symm

/-- Witness for `init_client_env` at the empty environment. -/
theorem init_client_env_witness :
    init_client (fun _ => none) = some ⟨"default", "", 30, 30⟩ ∧
    (⟨"default", "", 30, 30⟩ : ClusterConfig).response_timeout =
      (⟨"default", "", 30, 30⟩ : ClusterConfig).connection_timeout := by
  have h := init_client_env (fun _ => none) ⟨"default", "", 30, 30⟩ (by decide)
  exact ⟨by decide, h.2.2.2.1⟩

/-- The original C8 wording refuted: with `USER=alice` set (and no `REDIS_*`
variables), the builder still uses `"default"` — it reads `REDIS_USER`, not
`USER`. -/
theorem init_client_env_counterexample :
    init_client (fun k => if k = "USER" then some "alice" else none) =
      some ⟨"default", "", 30, 30⟩ ∧
    init_client_spec (fun k => if k = "USER" then some "alice" else none) =
      some ⟨"alice", "", 30, 30⟩ ∧
    init_client (fun k => if k = "USER" then some "alice" else none) ≠
      init_client_spec (fun k => if k = "USER" then some "alice" else none) := by
  refine ⟨by decide, by decide, by decide⟩

/-- C9 (amended): the grouped planner's chunk size is
`(|columns| / 200).max(10.min(|columns|))` — that is `max(10, |columns|/200)`
once `|columns| ≥ 10`, but `|columns|` itself below 10 — and the chunks tile
`[0, |columns|)` with the final chunk absorbing the remainder. -/
theorem grouped_chunk_sizes (numColumns : Nat) (h : 1 ≤ numColumns) :
    (1 ≤ num_columns_per_task numColumns ∧
      num_columns_per_task numColumns ≤ numColumns ∧
      num_columns_per_task numColumns =
        if numColumns < 10 then numColumns
        else max 10 (numColumns / 200)) ∧
    1 ≤ num_columns_task numColumns ∧
    (column_chunk_bounds numColumns 0).1 = 0 ∧
    (∀ n, n + 1 < num_columns_task numColumns →
      (column_chunk_bounds numColumns n).2 =
        (column_chunk_bounds numColumns (n + 1)).1) ∧
    (column_chunk_bounds numColumns (num_columns_task numColumns - 1)).2 =
      numColumns ∧
    (∀ n, n < num_columns_task numColumns →
      (column_chunk_bounds numColumns n).2 -
          (column_chunk_bounds numColumns n).1 =
        if n = num_columns_task numColumns - 1
        then num_columns_per_task numColumns +
          numColumns % num_columns_per_task numColumns
        else num_columns_per_task numColumns) := by
  have hp1 : 1 ≤ num_columns_per_task numColumns := by
    unfold num_columns_per_task
    omega
  have hple : num_columns_per_task numColumns ≤ numColumns := by
    unfold num_columns_per_task
    omega
  have ht1 : 1 ≤ num_columns_task numColumns := by
    unfold num_columns_task
    rw [Nat.one_le_div_iff (by omega)]
    exact hple
  have hsize : num_columns_per_task numColumns =
      if numColumns < 10 then numColumns
      else max 10 (numColumns / 200) := by
    unfold num_columns_per_task
    by_cases h10 : numColumns < 10
    · rw [if_pos h10]
      omega
    · rw [if_neg h10]
      omega
  have hd : num_columns_per_task numColumns *
      (numColumns / num_columns_per_task numColumns) +
      numColumns % num_columns_per_task numColumns = numColumns :=
    Nat.div_add_mod numColumns (num_columns_per_task numColumns)
  refine ⟨⟨hp1, hple, hsize⟩, ht1, by simp [column_chunk_bounds], ?_, ?_, ?_⟩
  · intro n hn
    simp only [column_chunk_bounds]
    rw [if_neg (by omega)]
  · simp only [column_chunk_bounds, eq_self_iff_true, if_true]
  · intro n hn
    simp only [column_chunk_bounds]
    by_cases hlast : n = num_columns_task numColumns - 1
    · rw [if_pos hlast, if_pos hlast, hlast]
      have hexp : (num_columns_task numColumns - 1) *
          num_columns_per_task numColumns + num_columns_per_task numColumns =
          num_columns_task numColumns * num_columns_per_task numColumns := by
        have h2 : num_columns_task numColumns - 1 + 1 =
            num_columns_task numColumns := by omega
        calc (num_columns_task numColumns - 1) *
              num_columns_per_task numColumns +
              num_columns_per_task numColumns
            = (num_columns_task numColumns - 1 + 1) *
              num_columns_per_task numColumns := by ring
          _ = num_columns_task numColumns *
              num_columns_per_task numColumns := by rw [h2]
      have hcomm : num_columns_task numColumns *
          num_columns_per_task numColumns =
          num_columns_per_task numColumns *
            (numColumns / num_columns_per_task numColumns) := by
        unfold num_columns_task
        ring
      omega
    · rw [if_neg hlast, if_neg hlast]
      have hexp : (n + 1) * num_columns_per_task numColumns =
          n * num_columns_per_task numColumns +
            num_columns_per_task numColumns := by ring
      omega

/-- Witness for `grouped_chunk_sizes` at `|columns| = 500`: chunk size 10,
50 chunks, the last one ending at 500. -/
theorem grouped_chunk_sizes_witness :
    (1 : Nat) ≤ 500 ∧ num_columns_per_task 500 = 10 ∧
    (column_chunk_bounds 500 (num_columns_task 500 - 1)).2 = 500 :=
  ⟨by decide, by decide, (grouped_chunk_sizes 500 (by decide)).2.2.2.2.1⟩

/-- The original C9 size formula refuted at `|columns| = 5`: the code makes
one chunk of size 5, while `max(10, min(5, 5/200)) = 10`. -/
theorem grouped_chunk_sizes_counterexample :
    num_columns_per_task 5 = 5 ∧ num_columns_per_task_spec 5 = 10 ∧
    num_columns_per_task 5 ≠ num_columns_per_task_spec 5 := by
  refine ⟨by decide, by decide, by decide⟩

end CFP

